import Mathlib

/-!
Verification of pocket-core: validator slashing (x/nodes/keeper/slash.go)

A shallow embedding of the slashing keeper.  The functions of `slash.go` are
translated one to one; the collaborators that `slash.go` calls but that live
in other files (validator store, bank burn, force-unstake, parameters) are
modelled from the specification and marked as such.

Conventions
* `sdk.Int` is an arbitrary-precision integer: `Int`.
* `sdk.Dec` is an 18-decimal fixed-point number: its raw integer is the value
  multiplied by `10^18`.
* `time.Time` is a count of nanoseconds since the Unix epoch, `time.Duration`
  a count of nanoseconds in the `int64` range.
* Block heights, powers and window counters are `int64` in the source; they
  stay far from the bounds of `int64` and their arithmetic is that of `Int`.
* A Go panic is the `Except.error` branch of `Except Panic`.
* Logger calls only write to the log and are left out.
-/

set_option linter.unusedVariables false

namespace PocketCore

/-! ## sdk.Int, sdk.Dec -/

/-- The constant `10^18` by which `sdk.Dec` scales its raw integer. -/
def precisionReuse : Int := 1000000000000000000

/-- Half of `precisionReuse`, the rounding threshold of `sdk.Dec`. -/
def fivePrecision : Int := 500000000000000000

/-- The `sdk.PowerReduction` constant: tokens per unit of consensus power. -/
def PowerReduction : Int := 1000000

/-- An `sdk.Dec`: `raw` is the represented value times `10^18`. -/
structure Dec where
  raw : Int
deriving DecidableEq

/-- The decimal zero, `sdk.ZeroDec()`. -/
def ZeroDec : Dec := ⟨0⟩

/-- Comparison `d.LT(d2)` of decimals. -/
def Dec.LT (d d2 : Dec) : Bool := decide (d.raw < d2.raw)

/-- Rounding step of `sdk.Dec` on a non-negative raw product: divide by
`10^18` and round half to even. -/
def chopPrecisionAndRoundNonneg (d : Int) : Int :=
  let quo := Int.tdiv d precisionReuse
  let rem := Int.tmod d precisionReuse
  if rem = 0 then quo
  else if rem < fivePrecision then quo
  else if fivePrecision < rem then quo + 1
  else if quo % 2 = 0 then quo
  else quo + 1

/-- The `chopPrecisionAndRound` of `sdk.Dec`: a negative argument is negated,
rounded and negated back. -/
def chopPrecisionAndRound (d : Int) : Int :=
  if d < 0 then -(chopPrecisionAndRoundNonneg (-d)) else chopPrecisionAndRoundNonneg d

/-- Conversion `i.ToDec()` of an integer to a decimal. -/
def ToDec (i : Int) : Dec := ⟨i * precisionReuse⟩

/-- Product `d.Mul(d2)` of two decimals (rounded to 18 places). -/
def Dec.Mul (d d2 : Dec) : Dec := ⟨chopPrecisionAndRound (d.raw * d2.raw)⟩

/-- Truncation `d.TruncateInt()` of a decimal toward zero. -/
def Dec.TruncateInt (d : Dec) : Int := Int.tdiv d.raw precisionReuse

/-- The conversion `sdk.TokensFromConsensusPower(power)`. -/
def TokensFromConsensusPower (power : Int) : Int := power * PowerReduction

/-- The `sdk.MinInt` of two integers. -/
def MinInt (a b : Int) : Int := if a < b then a else b

/-- The `sdk.MaxInt` of two integers. -/
def MaxInt (a b : Int) : Int := if b < a then a else b

/-! ## machine integers and time -/

/-- Largest `time.Duration` (and `int64`). -/
def maxInt64 : Int := 9223372036854775807

/-- Smallest `time.Duration` (and `int64`). -/
def minInt64 : Int := -9223372036854775808

/-- The `t.Sub(u)` of `time.Time`: the difference in nanoseconds, saturated to
the range of `time.Duration`. -/
def timeSub (t u : Int) : Int :=
  if maxInt64 < t - u then maxInt64
  else if t - u < minInt64 then minInt64
  else t - u

/-! ## data model -/

/-- An `sdk.Address`: a byte string; the nil address is the empty one. -/
abbrev Address := List Nat

/-- The address of a stored validator: the 20-byte hash of its key. -/
structure ValAddress where
  bytes : List Nat
  len : bytes.length = 20
deriving DecidableEq

/-- The `sdk.BondStatus` of a validator. -/
inductive BondStatus where
  | Unbonded
  | Unbonding
  | Bonded
deriving DecidableEq

/-- The `types.Validator` record. The zero value `types.Validator{}`, whose
Address is nil, is not a record: it is rendered as `none` where the code
returns it. -/
structure Validator where
  Address : ValAddress
  ConsPubKey : List Nat
  Jailed : Bool
  Status : BondStatus
  Chains : List String
  ServiceURL : String
  StakedTokens : Int
  UnstakingCompletionTime : Int
deriving DecidableEq

/-- The `types.ValidatorSigningInfo` record. -/
structure ValidatorSigningInfo where
  Address : Address
  StartHeight : Int
  IndexOffset : Int
  JailedUntil : Int
  Tombstoned : Bool
  MissedBlocksCounter : Int
deriving DecidableEq

/-- The zero value of `types.ValidatorSigningInfo`. -/
def ValidatorSigningInfo.zero : ValidatorSigningInfo :=
  { Address := [], StartHeight := 0, IndexOffset := 0, JailedUntil := 0, Tombstoned := false,
    MissedBlocksCounter := 0 }

/-- Reason attribute of a slash event. -/
inductive SlashReason where
  | DoubleSign
  | MissingSignature
deriving DecidableEq

/-- Events of the event manager. -/
inductive Event where
  | Slash (address : Address) (power : Int) (reason : SlashReason) (jailed : Option Address)
  | Liveness (address : Address) (missedBlocks : Int) (height : Int)
deriving DecidableEq

/-- Errors of type `sdk.Error`. -/
inductive SdkError where
  | ErrCantHandleEvidence
  | ErrValidatorTombstoned
  | ErrInsufficientCoins
deriving DecidableEq

/-- Go panics raised by the slashing code. -/
inductive Panic where
  | NegativeSlashFactor
  | NonPositiveSimpleSlash
  | FutureInfraction
  | SigningInfoNotFound
  | ValidatorNotFound
  | DivideByZero
  | Sdk (err : SdkError)
deriving DecidableEq

/-- The part of the context and of the stores that the slashing code reads and
writes: validator records and signing infos (both in key order), the missed-block
bitmaps (the pairs of an address and an index whose bit is set), the balance of
the staked pool, the emitted events, the block header, and the burn queue (in
key order). -/
structure State where
  validators : List Validator
  signingInfos : List (Address × ValidatorSigningInfo)
  missed : List (Address × Int)
  stakedPool : Int
  events : List Event
  blockHeight : Int
  blockTime : Int
  burns : List (Address × Int) := []
deriving DecidableEq

/-- Modelled from the spec: the governance parameters read by the slashing
code (the parameter store and its getters are not in the sources), together
with the constant `sdk.ValidatorUpdateDelay`. -/
structure Params where
  MinimumStake : Int
  SlashFractionDoubleSign : Dec
  SlashFractionDowntime : Dec
  MaxEvidenceAge : Int
  SignedBlocksWindow : Int
  MinSignedPerWindowParam : Dec
  DowntimeJailDuration : Int
  ValidatorUpdateDelay : Int
deriving DecidableEq

/-! ## stores -/

/-- Byte-lexicographic order of store keys. -/
def bytesLt : List Nat → List Nat → Bool
  | [], [] => false
  | [], _ :: _ => true
  | _ :: _, [] => false
  | a :: as, b :: bs => if a < b then true else if b < a then false else bytesLt as bs

/-- Lookup of a key in a key-ordered store. -/
def kvGet {α : Type} : List (Address × α) → Address → Option α
  | [], _ => none
  | (k, x) :: rest, key => if k = key then some x else kvGet rest key

/-- Write of a key in a key-ordered store: the entry is replaced when the key
is present and inserted at its place in key order otherwise. -/
def kvSet {α : Type} : List (Address × α) → Address → α → List (Address × α)
  | [], key, x => [(key, x)]
  | (k, y) :: rest, key, x =>
    if k = key then (key, x) :: rest
    else if bytesLt key k then (key, x) :: (k, y) :: rest
    else (k, y) :: kvSet rest key x

/-- Lookup of the validator record stored under an address. -/
def findValidator : List Validator → Address → Option Validator
  | [], _ => none
  | v :: rest, addr => if v.Address.bytes = addr then some v else findValidator rest addr

/-- Write of a validator record under its own address, in key order. -/
def putValidator : List Validator → Validator → List Validator
  | [], v => [v]
  | w :: rest, v =>
    if w.Address.bytes = v.Address.bytes then v :: rest
    else if bytesLt v.Address.bytes w.Address.bytes then v :: w :: rest
    else w :: putValidator rest v

/-- Modelled from the spec: `get(addr) → Option<Validator>` of the validator
store (the keeper's GetValidator is not in the sources); `none` is
`found = false`. -/
def GetValidator (st : State) (addr : Address) : Option Validator :=
  findValidator st.validators addr

/-- Modelled from the spec: `put(validator)` of the validator store, which
writes the record under the validator's address (SetValidator is not in the
sources). -/
def SetValidator (st : State) (validator : Validator) : State :=
  { st with validators := putValidator st.validators validator }

/-- Modelled from the spec: the signing info of a validator, at most one per
address (GetValidatorSigningInfo is not in the sources). -/
def GetValidatorSigningInfo (st : State) (addr : Address) : Option ValidatorSigningInfo :=
  kvGet st.signingInfos addr

/-- Modelled from the spec: write of the signing info of a validator
(SetValidatorSigningInfo is not in the sources). -/
def SetValidatorSigningInfo (st : State) (addr : Address) (info : ValidatorSigningInfo) : State :=
  { st with signingInfos := kvSet st.signingInfos addr info }

/-- The `EmitEvent` of the event manager: events are kept in emission order. -/
def EmitEvent (st : State) (e : Event) : State :=
  { st with events := st.events ++ [e] }

/-! ## validator methods and keeper collaborators -/

/-- Modelled from the spec: IsUnstaked holds exactly when the status is
Unbonded (the method is not in the sources, only its test). -/
def Validator.IsUnstaked (v : Validator) : Bool := decide (v.Status = BondStatus.Unbonded)

/-- Modelled from the spec: IsJailed reads the jailed flag (the method is not
in the sources, only its test). -/
def Validator.IsJailed (v : Validator) : Bool := v.Jailed

/-- Modelled from the spec: GetTokens reads the staked-token count (the method
is not in the sources, only its test). -/
def Validator.GetTokens (v : Validator) : Int := v.StakedTokens

/-- Modelled from the spec: RemoveStakedTokens deducts the amount from the
staked-token count and leaves the other fields (the method is not in the
sources, only its test). -/
def Validator.RemoveStakedTokens (v : Validator) (tokens : Int) : Validator :=
  { v with StakedTokens := v.StakedTokens - tokens }

/-- Modelled from the spec: "Deduct burn from the validator's stake"
(removeValidatorTokens is not in the sources): the record with the tokens
removed is written to the store and returned. -/
def removeValidatorTokens (st : State) (v : Validator) (tokensToRemove : Int) : State × Validator :=
  (SetValidator st (v.RemoveStakedTokens tokensToRemove), v.RemoveStakedTokens tokensToRemove)

/-- Modelled from the spec: "burn from the staked pool" through the bank
module's burn primitive (burnStakedTokens is not in the sources): the burn
fails when the amount is negative or exceeds the balance of the pool. -/
def burnStakedTokens (st : State) (amt : Int) : Except SdkError State :=
  if 0 ≤ amt ∧ amt ≤ st.stakedPool then .ok { st with stakedPool := st.stakedPool - amt }
  else .error SdkError.ErrInsufficientCoins

/-- Modelled from the spec: "force_unstake(v) — internal; burns all remaining
stake, sets status = Unbonded, clears signing info's jailed-until, removes the
validator from the active set" (ForceValidatorUnstake is not in the sources).
The active set is derived from status and power at end-block and is not part
of the state. -/
def ForceValidatorUnstake (st : State) (validator : Validator) : Except SdkError State :=
  match burnStakedTokens st validator.StakedTokens with
  | .error err => .error err
  | .ok st1 =>
    let st2 := SetValidator st1
      { validator with StakedTokens := 0, Status := BondStatus.Unbonded, UnstakingCompletionTime := 0 }
    match GetValidatorSigningInfo st2 validator.Address.bytes with
    | none => .ok st2
    | some info => .ok (SetValidatorSigningInfo st2 validator.Address.bytes { info with JailedUntil := 0 })

/-- Modelled from the spec: "jail(addr)" sets the jailed flag of the record at
the address (JailValidator is not in the sources); without a record nothing
changes. -/
def JailValidator (st : State) (addr : Address) : State :=
  match GetValidator st addr with
  | none => st
  | some validator => SetValidator st { validator with Jailed := true }

/-- Modelled from the spec: the bit of the MissedBitmap of a validator at an
index, all-zero until explicitly set (valMissedAt is not in the sources). -/
def valMissedAt (st : State) (addr : Address) (index : Int) : Bool :=
  decide ((addr, index) ∈ st.missed)

/-- Modelled from the spec: write of one bit of the MissedBitmap of a
validator (SetValidatorMissedAt is not in the sources). -/
def SetValidatorMissedAt (st : State) (addr : Address) (index : Int) (missed : Bool) : State :=
  if missed then
    if (addr, index) ∈ st.missed then st else { st with missed := (addr, index) :: st.missed }
  else { st with missed := st.missed.filter (fun p => decide (p ≠ (addr, index))) }

/-- Modelled from the spec: "clear bitmap" of a validator (clearValidatorMissed
is not in the sources). -/
def clearValidatorMissed (st : State) (addr : Address) : State :=
  { st with missed := st.missed.filter (fun p => decide (p.1 ≠ addr)) }

/-- Modelled from the spec: the number of blocks of the window that must be
signed, "⌊SignedBlocksWindow · MinSignedPerWindow⌋" (the getter MinSignedPerWindow
of the keeper is not in the sources). -/
def MinSignedPerWindow (k : Params) : Int :=
  (k.SignedBlocksWindow * k.MinSignedPerWindowParam.raw) / precisionReuse

/-! ## slash.go -/

/-- The `validateSimpleSlash` of the keeper. The result `none` is the
returned `types.Validator{}`. An unstaked validator is only logged. -/
def validateSimpleSlash (st : State) (addr : Address) (amount : Int) : Except Panic (Option Validator) :=
  if amount ≤ 0 then .error Panic.NonPositiveSimpleSlash
  else
    match GetValidator st addr with
    | none => .ok none
    | some validator => .ok (some validator)

/-- The `simpleSlash` of the keeper. -/
def simpleSlash (k : Params) (st : State) (addr : Address) (amount : Int) : Except Panic State :=
  match validateSimpleSlash st addr amount with
  | .error p => .error p
  | .ok none => .ok st
  | .ok (some validator) =>
    let tokensToBurn := MaxInt (MinInt amount validator.StakedTokens) 0
    let r := removeValidatorTokens st validator tokensToBurn
    match burnStakedTokens r.1 tokensToBurn with
    | .error err => .error (Panic.Sdk err)
    | .ok st2 =>
      if r.2.GetTokens < k.MinimumStake then
        match ForceValidatorUnstake st2 r.2 with
        | .error err => .error (Panic.Sdk err)
        | .ok st3 => .ok st3
      else .ok st2

/-- The `validateSlash` of the keeper. The result `none` is the returned
`types.Validator{}`. An unstaked validator is only logged. -/
def validateSlash (st : State) (addr : Address) (infractionHeight : Int) (power : Int)
    (slashFactor : Dec) : Except Panic (Option Validator) :=
  if slashFactor.LT ZeroDec then .error Panic.NegativeSlashFactor
  else if st.blockHeight < infractionHeight then .error Panic.FutureInfraction
  else
    match GetValidator st addr with
    | none => .ok none
    | some validator => .ok (some validator)

/-- The `slash` of the keeper. -/
def slash (k : Params) (st : State) (consAddr : Address) (infractionHeight : Int) (power : Int)
    (slashFactor : Dec) : Except Panic State :=
  match validateSlash st consAddr infractionHeight power slashFactor with
  | .error p => .error p
  | .ok none => .ok st
  | .ok (some validator) =>
    let amount := TokensFromConsensusPower power
    let slashAmount := ((ToDec amount).Mul slashFactor).TruncateInt
    let tokensToBurn := MaxInt (MinInt slashAmount validator.StakedTokens) 0
    let r := removeValidatorTokens st validator tokensToBurn
    match burnStakedTokens r.1 tokensToBurn with
    | .error err => .error (Panic.Sdk err)
    | .ok st2 =>
      if r.2.GetTokens < k.MinimumStake then
        match ForceValidatorUnstake st2 r.2 with
        | .error err => .error (Panic.Sdk err)
        | .ok st3 => .ok st3
      else .ok st2

/-- The four named results of `validateDoubleSign`; every field starts at its
zero value. -/
structure DoubleSignResult where
  address : Address
  signInfo : ValidatorSigningInfo
  validator : Option Validator
  err : Option SdkError
deriving DecidableEq

/-- The zero values of the named results of `validateDoubleSign`. -/
def DoubleSignResult.zero : DoubleSignResult :=
  { address := [], signInfo := ValidatorSigningInfo.zero, validator := none, err := none }

/-- The `validateDoubleSign` of the keeper. -/
def validateDoubleSign (k : Params) (st : State) (addr : Address) (infractionHeight : Int)
    (timestamp : Int) : Except Panic DoubleSignResult :=
  match GetValidator st addr with
  | none => .ok { DoubleSignResult.zero with err := some SdkError.ErrCantHandleEvidence }
  | some val =>
    if val.IsUnstaked then
      .ok { DoubleSignResult.zero with err := some SdkError.ErrCantHandleEvidence }
    else
      let age := timeSub st.blockTime timestamp
      if k.MaxEvidenceAge < age then .ok DoubleSignResult.zero
      else
        match GetValidatorSigningInfo st addr with
        | none => .error Panic.SigningInfoNotFound
        | some signInfo =>
          if signInfo.Tombstoned then
            .ok { DoubleSignResult.zero with
                  signInfo := signInfo, err := some SdkError.ErrValidatorTombstoned }
          else
            .ok { address := addr, signInfo := signInfo, validator := some val, err := none }

/-- The `handleDoubleSign` of the keeper. -/
def handleDoubleSign (k : Params) (st : State) (addr : Address) (infractionHeight : Int)
    (timestamp : Int) (power : Int) : Except Panic State :=
  match validateDoubleSign k st addr infractionHeight timestamp with
  | .error p => .error p
  | .ok res =>
    match res.err with
    | some _ => .ok st
    | none =>
      let distributionHeight := infractionHeight - k.ValidatorUpdateDelay
      let fraction := k.SlashFractionDoubleSign
      let st1 := EmitEvent st (Event.Slash res.address power SlashReason.DoubleSign none)
      slash k st1 res.address distributionHeight power fraction

/-- The `handleValidatorSignature` of the keeper. The remainder `%` of Go is
the truncated one and panics on a zero divisor. -/
def handleValidatorSignature (k : Params) (st : State) (address : Address) (power : Int)
    (signed : Bool) : Except Panic State :=
  let height := st.blockHeight
  let addr := address
  match GetValidator st addr with
  | none => .error Panic.ValidatorNotFound
  | some _ =>
    match GetValidatorSigningInfo st addr with
    | none => .error Panic.SigningInfoNotFound
    | some signInfo0 =>
      if k.SignedBlocksWindow = 0 then .error Panic.DivideByZero
      else
        let index := Int.tmod signInfo0.IndexOffset k.SignedBlocksWindow
        let signInfo1 := { signInfo0 with IndexOffset := signInfo0.IndexOffset + 1 }
        let previous := valMissedAt st addr index
        let missed := !signed
        let upd : State × ValidatorSigningInfo :=
          if !previous && missed then
            (SetValidatorMissedAt st addr index true,
              { signInfo1 with MissedBlocksCounter := signInfo1.MissedBlocksCounter + 1 })
          else if previous && !missed then
            (SetValidatorMissedAt st addr index false,
              { signInfo1 with MissedBlocksCounter := signInfo1.MissedBlocksCounter - 1 })
          else (st, signInfo1)
        let signInfo := upd.2
        let st1 :=
          if missed then EmitEvent upd.1 (Event.Liveness addr signInfo.MissedBlocksCounter height)
          else upd.1
        let minHeight := signInfo.StartHeight + k.SignedBlocksWindow
        let maxMissed := k.SignedBlocksWindow - MinSignedPerWindow k
        if minHeight < height ∧ maxMissed < signInfo.MissedBlocksCounter then
          match GetValidator st1 addr with
          | some validator =>
            if !validator.IsJailed then
              let distributionHeight := height - k.ValidatorUpdateDelay - 1
              let st2 := EmitEvent st1
                (Event.Slash addr power SlashReason.MissingSignature (some addr))
              match slash k st2 addr distributionHeight power k.SlashFractionDowntime with
              | .error p => .error p
              | .ok st3 =>
                let st4 := JailValidator st3 addr
                let signInfo2 := { signInfo with
                  JailedUntil := st4.blockTime + k.DowntimeJailDuration
                  MissedBlocksCounter := 0
                  IndexOffset := 0 }
                let st5 := clearValidatorMissed st4 addr
                .ok (SetValidatorSigningInfo st5 addr signInfo2)
            else .ok (SetValidatorSigningInfo st1 addr signInfo)
          | none => .ok (SetValidatorSigningInfo st1 addr signInfo)
        else .ok (SetValidatorSigningInfo st1 addr signInfo)

/-! ## auxiliary definitions for the statements -/

/-- The steps that `slash` and `simpleSlash` share once the amount to burn is
known: deduct from the record, burn from the pool, force-unstake below the
minimum stake. -/
def applyBurn (k : Params) (st : State) (validator : Validator) (tokensToBurn : Int) :
    Except Panic State :=
  let r := removeValidatorTokens st validator tokensToBurn
  match burnStakedTokens r.1 tokensToBurn with
  | .error err => .error (Panic.Sdk err)
  | .ok st2 =>
    if r.2.GetTokens < k.MinimumStake then
      match ForceValidatorUnstake st2 r.2 with
      | .error err => .error (Panic.Sdk err)
      | .ok st3 => .ok st3
    else .ok st2

/-- The state in which `burn` tokens have been deducted from the record of
`validator` and burned from the staked pool, and nothing else has changed. -/
def deducted (st : State) (validator : Validator) (burn : Int) : State :=
  { st with
    validators := putValidator st.validators { validator with StakedTokens := validator.StakedTokens - burn }
    stakedPool := st.stakedPool - burn }

/-- An address of twenty equal bytes, for concrete states. -/
def addrOf (b : Nat) : ValAddress := ⟨List.replicate 20 b, List.length_replicate 20 b⟩

deriving instance DecidableEq for Except

/-! ## concrete states of the end-to-end scenarios -/

/-- Scenario S3: the validator V1, bonded with 100,000,000. -/
def validatorS3 : Validator :=
  { Address := addrOf 1, ConsPubKey := [7], Jailed := false, Status := BondStatus.Bonded,
    Chains := ["0001"], ServiceURL := "http://v1", StakedTokens := 100000000,
    UnstakingCompletionTime := 0 }

/-- Scenario S3: the signing info of V1, not tombstoned. -/
def signingInfoS3 : ValidatorSigningInfo :=
  { Address := (addrOf 1).bytes, StartHeight := 0, IndexOffset := 0, JailedUntil := 0,
    Tombstoned := false, MissedBlocksCounter := 0 }

/-- Scenario S3: block 50 at time 10,000 s; the staked pool holds the stake of V1. -/
def stateS3 : State :=
  { validators := [validatorS3], signingInfos := [((addrOf 1).bytes, signingInfoS3)], missed := [],
    stakedPool := 100000000, events := [], blockHeight := 50, blockTime := 10000000000000 }

/-- Scenario S3: SlashFractionDoubleSign = 0.05, MaxEvidenceAge = 3600 s,
StakeMinimum = 1; with the downtime parameters of scenario S2:
SignedBlocksWindow = 100, MinSignedPerWindow = 0.5, SlashFractionDowntime = 0.01,
DowntimeJailDuration = 600 s; and ValidatorUpdateDelay = 1. -/
def paramsS3 : Params :=
  { MinimumStake := 1, SlashFractionDoubleSign := ⟨50000000000000000⟩,
    SlashFractionDowntime := ⟨10000000000000000⟩, MaxEvidenceAge := 3600000000000,
    SignedBlocksWindow := 100, MinSignedPerWindowParam := ⟨500000000000000000⟩,
    DowntimeJailDuration := 600000000000, ValidatorUpdateDelay := 1 }

/-- Scenario S5: the validator V1, bonded with 2 tokens. -/
def validatorS5 : Validator := { validatorS3 with StakedTokens := 2 }

/-- Scenario S5: the staked pool holds the 2 tokens of V1. -/
def stateS5 : State := { stateS3 with validators := [validatorS5], stakedPool := 2 }

/-- Scenario S5 with the parameter StakeMinimum set to 0. -/
def paramsZeroMinimum : Params := { paramsS3 with MinimumStake := 0 }

/-- Scenario S3: the slash event of the equivocation of V1 with power 100. -/
def slashEventS3 : Event := Event.Slash (addrOf 1).bytes 100 SlashReason.DoubleSign none

/-- Scenario S3: the state at block 60 (one minute later) that follows the
handling of the first evidence: 5,000,000 burned and the slash event emitted. -/
def stateS3Second : State :=
  { deducted (EmitEvent stateS3 slashEventS3) validatorS3 5000000 with
    blockHeight := 60, blockTime := 10060000000000 }

/-- Scenario S3 with the signing info of V1 tombstoned. -/
def stateS3Tombstoned : State :=
  { stateS3 with signingInfos := [((addrOf 1).bytes, { signingInfoS3 with Tombstoned := true })] }

/-- Scenario S3 with V1 Unbonded and its signing info tombstoned. -/
def stateS3Unbonded : State :=
  { stateS3Tombstoned with validators := [{ validatorS3 with Status := BondStatus.Unbonded }] }

/-- Scenario S3 with V1 jailed and its signing info tombstoned, at block 101
after V1 has missed the 100 blocks of the window. -/
def stateS3JailedTombstoned : State :=
  { stateS3 with
    validators := [{ validatorS3 with Jailed := true }]
    signingInfos := [((addrOf 1).bytes,
      { signingInfoS3 with Tombstoned := true, IndexOffset := 100, MissedBlocksCounter := 100 })]
    missed := (List.range 100).map (fun i => ((addrOf 1).bytes, (i : Int)))
    blockHeight := 101 }

/-- Scenario S2 at block 101 with the signing info of V1 tombstoned: V1, not
jailed, has missed the 100 blocks of the window (every bit of its bitmap is
set and its counter is 100). -/
def stateS2Tombstoned : State :=
  { stateS3JailedTombstoned with validators := [validatorS3] }

/-! ## auxiliary definitions for the signature handling -/

/-- The first part of `handleValidatorSignature`, up to the liveness event:
the signing info with the offset incremented and the counter adjusted, and the
state with the bit at the index written and the liveness event emitted. -/
def signatureUpdate (k : Params) (st : State) (addr : Address) (signInfo0 : ValidatorSigningInfo)
    (signed : Bool) : State × ValidatorSigningInfo :=
  let index := Int.tmod signInfo0.IndexOffset k.SignedBlocksWindow
  let signInfo1 := { signInfo0 with IndexOffset := signInfo0.IndexOffset + 1 }
  let previous := valMissedAt st addr index
  let missed := !signed
  let upd : State × ValidatorSigningInfo :=
    if !previous && missed then
      (SetValidatorMissedAt st addr index true,
        { signInfo1 with MissedBlocksCounter := signInfo1.MissedBlocksCounter + 1 })
    else if previous && !missed then
      (SetValidatorMissedAt st addr index false,
        { signInfo1 with MissedBlocksCounter := signInfo1.MissedBlocksCounter - 1 })
    else (st, signInfo1)
  (if missed then EmitEvent upd.1 (Event.Liveness addr upd.2.MissedBlocksCounter st.blockHeight)
    else upd.1, upd.2)

/-- The downtime branch of `handleValidatorSignature` at block height
`height`: slash event, slash with SlashFractionDowntime, jail, reset of the
signing info and of the bitmap. -/
def downtimeSlash (k : Params) (height : Int) (st1 : State) (addr : Address) (power : Int)
    (signInfo : ValidatorSigningInfo) : Except Panic State :=
  match slash k (EmitEvent st1 (Event.Slash addr power SlashReason.MissingSignature (some addr)))
      addr (height - k.ValidatorUpdateDelay - 1) power k.SlashFractionDowntime with
  | .error p => .error p
  | .ok st3 =>
    .ok (SetValidatorSigningInfo (clearValidatorMissed (JailValidator st3 addr) addr) addr
      { signInfo with
        JailedUntil := (JailValidator st3 addr).blockTime + k.DowntimeJailDuration
        MissedBlocksCounter := 0
        IndexOffset := 0 })

/-- Whether an event is a slash event. -/
def Event.isSlash : Event → Bool
  | Event.Slash _ _ _ _ => true
  | Event.Liveness _ _ _ => false

/-- The number of slash events in a list of events. -/
def slashEvents (es : List Event) : Nat := es.countP Event.isSlash

/-- The number of indices in `[0, W)` whose missed bit is set for a validator. -/
def missedCount (st : State) (addr : Address) (W : Int) : Int :=
  Int.ofNat ((List.range W.toNat).countP (fun (i : Nat) => valMissedAt st addr (Int.ofNat i)))

/-- One call of `handleValidatorSignature`: the block header of the call and
the arguments. -/
structure Report where
  height : Int
  time : Int
  address : Address
  power : Int
  signed : Bool
deriving DecidableEq

/-- A sequence of calls of `handleValidatorSignature`, each under its own
block header; a panic ends the run. -/
def runReports (k : Params) : State → List Report → Except Panic State
  | st, [] => .ok st
  | st, r :: rs =>
    match handleValidatorSignature k { st with blockHeight := r.height, blockTime := r.time }
        r.address r.power r.signed with
    | .error p => .error p
    | .ok st1 => runReports k st1 rs

/-- Scenario S2 at block 101: V1, bonded with 100,000,000 and not jailed, has
missed the 100 blocks of the window (every bit of its bitmap is set, its
counter is 100 and its offset is 100). -/
def stateS2 : State :=
  { stateS2Tombstoned with
    signingInfos := [((addrOf 1).bytes,
      { signingInfoS3 with IndexOffset := 100, MissedBlocksCounter := 100 })] }

/-- Scenario S2 at block 101 with V1 Unbonding instead of Bonded. -/
def stateS2Unbonding : State :=
  { stateS2 with validators := [{ validatorS3 with Status := BondStatus.Unbonding }] }

/-- The counter/bitmap invariant of a validator under the window of the
parameters: its signing info exists, the offset is not negative, and the
counter equals the number of indices in `[0, W)` whose missed bit is set. -/
def CounterMatchesBitmap (k : Params) (st : State) (addr : Address) : Prop :=
  ∃ info, GetValidatorSigningInfo st addr = some info ∧ 0 ≤ info.IndexOffset ∧
    info.MissedBlocksCounter = missedCount st addr k.SignedBlocksWindow

/-- The per-block sum of the sliding window: the number of calls among the
last `min n W` of the `n` calls whose signed flag was false (`flags` lists the
signed flags in call order). -/
def windowSum (W : Nat) (flags : List Bool) : Nat :=
  (flags.reverse.take W).countP (fun s => !s)

/-- The state of the sliding window of a validator after the calls whose
signed flags are `fs`, none of which slashed: the offset is the number of
calls, the counter is the window sum, the bit at the position of each of the
last `W` calls records whether that call was missed, and the bits that no call
has reached yet are clear. -/
def SlidingWindowState (k : Params) (st : State) (a : Address) (fs : List Bool) : Prop :=
  ∃ info, GetValidatorSigningInfo st a = some info ∧
    info.IndexOffset = Int.ofNat fs.length ∧
    info.MissedBlocksCounter = Int.ofNat (windowSum k.SignedBlocksWindow.toNat fs) ∧
    (∀ q : Nat, q < fs.length → fs.length ≤ q + k.SignedBlocksWindow.toNat →
      valMissedAt st a (Int.ofNat (q % k.SignedBlocksWindow.toNat)) = !(fs.getD q true)) ∧
    (∀ j : Nat, fs.length ≤ j → j < k.SignedBlocksWindow.toNat →
      valMissedAt st a (Int.ofNat j) = false)

/-- Scenario S3 with a window of 3 blocks and MinSignedPerWindow = 0, so that
max_missed = 3 is never exceeded. -/
def paramsWindow3 : Params :=
  { paramsS3 with SignedBlocksWindow := 3, MinSignedPerWindowParam := ⟨0⟩ }

/-- Five reports for V1 at blocks 51 to 55: missed, missed, signed, missed,
signed. -/
def reportsWindow3 : List Report :=
  [{ height := 51, time := 10001000000000, address := (addrOf 1).bytes, power := 100,
     signed := false },
   { height := 52, time := 10002000000000, address := (addrOf 1).bytes, power := 100,
     signed := false },
   { height := 53, time := 10003000000000, address := (addrOf 1).bytes, power := 100,
     signed := true },
   { height := 54, time := 10004000000000, address := (addrOf 1).bytes, power := 100,
     signed := false },
   { height := 55, time := 10005000000000, address := (addrOf 1).bytes, power := 100,
     signed := true }]

/-! ## the burn queue -/

/-- Removal of a key from a key-ordered store. -/
def kvDelete {α : Type} : List (Address × α) → Address → List (Address × α)
  | [], _ => []
  | (k, x) :: rest, key => if k = key then kvDelete rest key else (k, x) :: kvDelete rest key

/-- Entry of the burn queue of an address: the stored amount and `true`, or
zero and `false` when there is none (`getValidatorBurn`). The stored values are
the amounts written by `setValidatorBurn`, so decoding them does not fail. -/
def getValidatorBurn (st : State) (address : Address) : Int × Bool :=
  match kvGet st.burns address with
  | none => (0, false)
  | some coins => (coins, true)

/-- Write of the burn-queue entry of an address (`setValidatorBurn`). -/
def setValidatorBurn (st : State) (amount : Int) (address : Address) : State :=
  { st with burns := kvSet st.burns address amount }

/-- Removal of the burn-queue entry of an address (`deleteValidatorBurn`). -/
def deleteValidatorBurn (st : State) (address : Address) : State :=
  { st with burns := kvDelete st.burns address }

/-- Queueing of an administrative burn (`BurnValidator`): the amount is added
to the entry of the address. -/
def BurnValidator (st : State) (address : Address) (amount : Int) : State :=
  let curBurn := (getValidatorBurn st address).1
  let newSeverity := curBurn + amount
  setValidatorBurn st newSeverity address

/-- The loop of `burnValidators` over the entries that the store iterator
yields: each entry is applied by `simpleSlash` and then deleted from the
store; a panic of `simpleSlash` ends the loop. -/
def burnValidatorsLoop (k : Params) : State → List (Address × Int) → Except Panic State
  | st, [] => .ok st
  | st, (address, severity) :: rest =>
    match simpleSlash k st address severity with
    | .error p => .error p
    | .ok st1 => burnValidatorsLoop k (deleteValidatorBurn st1 address) rest

/-- Drain of the burn queue at the begin of a block (`burnValidators`): the
iterator runs over the entries of the burn store in key order. -/
def burnValidators (k : Params) (st : State) : Except Panic State :=
  burnValidatorsLoop k st st.burns

/-- Modelled from the spec: `ConsensusPower` (the methods of the validator type
are not in the sources, only their tests): the power of a Bonded validator is
its staked tokens divided by 1,000,000 ("power = micro-units / 1,000,000"); a
validator that is not Bonded has no power. -/
def Validator.ConsensusPower (v : Validator) : Int :=
  if v.Status = BondStatus.Bonded then Int.tdiv v.StakedTokens PowerReduction else 0

/-- The conservation quantity of the spec: the sum of the staked tokens of the
Bonded validator records. -/
def bondedStake : List Validator → Int
  | [] => 0
  | v :: rest => (if v.Status = BondStatus.Bonded then v.StakedTokens else 0) + bondedStake rest

/-- A run of reports for one validator that misses every block from a height
on: each report is for the address, is not signed, and is at the height that
follows the one before. -/
def consecutiveMisses (a : Address) : Int → List Report → Bool
  | _, [] => true
  | h, r :: rs =>
    decide (r.address = a) && !r.signed && decide (r.height = h) && consecutiveMisses a (h + 1) rs

/-- The drain of one entry in the words of the spec: "each entry is applied
via the same deduct/burn/force-unstake sequence as downtime slash, then
deleted"; a panic is kept. -/
def drainEntry (k : Params) (acc : Except Panic State) (e : Address × Int) : Except Panic State :=
  match acc with
  | .error p => .error p
  | .ok st =>
    match simpleSlash k st e.1 e.2 with
    | .error p => .error p
    | .ok st1 => .ok (deleteValidatorBurn st1 e.1)

/-- The drain of the burn queue in the words of the spec: the fold of
`drainEntry` over the entries of the queue sorted in ascending byte-lexicographic
order of their addresses. -/
def drainInAddressOrder (k : Params) (st : State) : Except Panic State :=
  (st.burns.insertionSort (fun p q => bytesLt p.1 q.1 = true)).foldl (drainEntry k) (.ok st)

/-- Scenario S4: the validator V2, bonded with 5, whose address is below the
address of V1 in byte order. -/
def validatorS4 : Validator :=
  { validatorS3 with Address := addrOf 0, ConsPubKey := [8], StakedTokens := 5 }

/-- Scenario S4: V1 and V2 bonded, the staked pool holds both stakes, and two
administrative burns have been queued: severity 3 for V1, then severity 7 for
V2. -/
def stateS4 : State :=
  BurnValidator
    (BurnValidator { stateS3 with validators := [validatorS4, validatorS3], stakedPool := 100000005 }
      (addrOf 1).bytes 3)
    (addrOf 0).bytes 7

/-- Scenario S4 with V1 Unbonding and an empty burn queue: V2 is the only
Bonded validator and the staked pool holds its 5 tokens. -/
def stateS4Unbonding : State :=
  { stateS3 with
    validators := [validatorS4, { validatorS3 with Status := BondStatus.Unbonding }],
    stakedPool := 5 }

/-- Scenario S4 with both validators Bonded and an empty burn queue. -/
def stateS4Bonded : State :=
  { stateS3 with validators := [validatorS4, validatorS3], stakedPool := 100000005 }

/-- Scenario S2: the reports of the blocks 1 to 100, one second apart, none
of them signed by V1, whose power is 100. -/
def reportsS2 : List Report :=
  (List.range 100).map (fun (i : Nat) =>
    { height := Int.ofNat i + 1, time := 10000000000000 + Int.ofNat i * 1000000000,
      address := (addrOf 1).bytes, power := 100, signed := false })

/-- Scenario S2: the report of block 101, not signed by V1. -/
def reportS2 : Report :=
  { height := 101, time := 10000100000000, address := (addrOf 1).bytes, power := 100,
    signed := false }

/-- Scenario S6: block 141 under a window of 100; V1, bonded and not jailed,
has signed the blocks 1 to 100 and missed the blocks 101 to 140, so that its
offset is 140, its counter 40 and the bits 0 to 39 of its bitmap are set. -/
def stateS6 : State :=
  { stateS3 with
    signingInfos := [((addrOf 1).bytes,
      { signingInfoS3 with IndexOffset := 140, MissedBlocksCounter := 40 })],
    missed := (List.range 40).map (fun (i : Nat) => ((addrOf 1).bytes, Int.ofNat i)),
    blockHeight := 141 }

/-- Scenario S6: the parameters of scenario S2 after SignedBlocksWindow has
been changed to 200. -/
def paramsWindow200 : Params := { paramsS3 with SignedBlocksWindow := 200 }

/-- The parameters of scenario S2 after SignedBlocksWindow has been changed
to 10. -/
def paramsWindow10 : Params := { paramsS3 with SignedBlocksWindow := 10 }

/-! ## the validator type: constructor and token arithmetic -/

/-- Modelled from the spec: the validator update handed to the consensus
engine, "ValidatorUpdate{pubkey, power}" (the type is not in the sources). -/
structure ValidatorUpdate where
  PubKey : List Nat
  Power : Int
deriving DecidableEq

/-- Modelled from the spec: `ABCIValidatorUpdateZero` (the method is not in the
sources, only its test): the update that removes the validator from the
consensus set, "power = 0 for removals", carrying its consensus public key. -/
def Validator.ABCIValidatorUpdateZero (v : Validator) : ValidatorUpdate :=
  { PubKey := v.ConsPubKey, Power := 0 }

/-- Modelled from the spec: `ABCIValidatorUpdate` (the method is not in the
sources, only its test): the update with the consensus public key and the
consensus power of the validator. -/
def Validator.ABCIValidatorUpdate (v : Validator) : ValidatorUpdate :=
  { PubKey := v.ConsPubKey, Power := v.ConsensusPower }

/-- Modelled from the spec: `NewValidator` (the constructor is not in the
sources, only its test): a validator with the given attributes, not jailed,
Bonded, and with the "unstaking-completion timestamp (UTC, zero when bonded)":
the Unix epoch, which is time 0. -/
def NewValidator (addr : ValAddress) (consPubKey : List Nat) (chains : List String)
    (serviceURL : String) (tokensToStake : Int) : Validator :=
  { Address := addr, ConsPubKey := consPubKey, Jailed := false, Status := BondStatus.Bonded,
    Chains := chains, ServiceURL := serviceURL, StakedTokens := tokensToStake,
    UnstakingCompletionTime := 0 }

/-- Modelled from the spec: `AddStakedTokens` adds the amount to the
staked-token count and leaves the other fields (the method is not in the
sources, only its test). -/
def Validator.AddStakedTokens (v : Validator) (tokens : Int) : Validator :=
  { v with StakedTokens := v.StakedTokens + tokens }

/-- The `BurnForChallenge` of the keeper. The governance parameter
RelaysToTokensMultiplier, whose getter is not in the sources, is an argument. -/
def BurnForChallenge (relaysToTokensMultiplier : Int) (st : State) (challenges : Int)
    (address : Address) : State :=
  let coins := relaysToTokensMultiplier * challenges
  match GetValidator st address with
  | none => st
  | some val => BurnValidator st val.Address.bytes coins

/-! ## application staking: the unstaking queue -/

/-- Modelled from the spec: an application of the "application staking"
subsystem, which "mirrors the validator lifecycle" (the application type is
not in the sources, only tests of its keeper), with the attributes that the
unstaking reads. -/
structure Application where
  Address : Address
  Jailed : Bool
  Status : BondStatus
  StakedTokens : Int
  UnstakingCompletionTime : Int
deriving DecidableEq

/-- Modelled from the spec: the part of the application store that the
unstaking reads and writes (the keeper of the applications is not in the
sources): the records by address, the rows (completion time, address) of the
unstaking index "unstaking_key | big_endian(completion_unix_nanos) | addr",
the balance of the unstaking pool, the balances of the operator accounts and
the block time. -/
structure AppState where
  applications : List (Address × Application)
  unstaking : List (Int × Address)
  unstakingPool : Int
  balances : List (Address × Int)
  blockTime : Int
deriving DecidableEq

/-- Modelled from the spec: `SetApplication` writes the record of an
application under its address (the method is not in the sources). -/
def SetApplication (st : AppState) (application : Application) : AppState :=
  { st with applications := kvSet st.applications application.Address application }

/-- Insertion of a row into the unstaking index, in the order of the keys:
by completion time, then by address. -/
def insertUnstakingRow : List (Int × Address) → Int × Address → List (Int × Address)
  | [], row => [row]
  | r :: rest, row =>
    if r = row then r :: rest
    else if row.1 < r.1 ∨ (row.1 = r.1 ∧ bytesLt row.2 r.2 = true) then row :: r :: rest
    else r :: insertUnstakingRow rest row

/-- Modelled from the spec: `SetUnstakingApplication` enqueues the index row of
an application under its unstaking completion time (the method is not in the
sources). -/
def SetUnstakingApplication (st : AppState) (application : Application) : AppState :=
  { st with
    unstaking := insertUnstakingRow st.unstaking
      (application.UnstakingCompletionTime, application.Address) }

/-- Modelled from the spec: `getAllUnstakingApplications` returns the
applications of the rows of the unstaking index, in the order of the index
(the method is not in the sources). -/
def getAllUnstakingApplications (st : AppState) : List Application :=
  st.unstaking.filterMap (fun r => kvGet st.applications r.2)

/-- Modelled from the spec: the step of `mature_unbondings` for one row of the
index: "move tokens unstaking → operator account, set status = Unbonded,
remove index entry and UnbondingQueueEntry"; the completion time is "cleared on
transition to Bonded or Unbonded". -/
def finishUnstakingApplication (st : AppState) (row : Int × Address) : AppState :=
  match kvGet st.applications row.2 with
  | none => { st with unstaking := st.unstaking.filter (fun r => decide (r ≠ row)) }
  | some app =>
    { st with
      applications := kvSet st.applications row.2
        { app with Status := BondStatus.Unbonded, UnstakingCompletionTime := 0 }
      unstaking := st.unstaking.filter (fun r => decide (r ≠ row))
      unstakingPool := st.unstakingPool - app.StakedTokens
      balances := kvSet st.balances row.2 ((kvGet st.balances row.2).getD 0 + app.StakedTokens) }

/-- Modelled from the spec: `unstakeAllMatureApplications`, the
"mature_unbondings(now)" of the applications: it "iterates unstaking index with
completion ≤ now" and finishes the unstaking of each row (the method is not in
the sources, only its test). -/
def unstakeAllMatureApplications (st : AppState) : AppState :=
  (st.unstaking.filter (fun r => decide (r.1 ≤ st.blockTime))).foldl finishUnstakingApplication st

/-- An application in the state Unbonding with 7 tokens. -/
def applicationUnbonding (b : Nat) (completion : Int) : Application :=
  { Address := (addrOf b).bytes, Jailed := false, Status := BondStatus.Unbonding,
    StakedTokens := 7, UnstakingCompletionTime := completion }

/-- The store of TestAppUnstaked_UnstakeAllMatureApplications at block time 10:
one unbonding application, mature since time 5, set and enqueued. -/
def appStateMature : AppState :=
  SetUnstakingApplication
    (SetApplication
      { applications := [], unstaking := [], unstakingPool := 14, balances := [], blockTime := 10 }
      (applicationUnbonding 1 5))
    (applicationUnbonding 1 5)

/-- The store `appStateMature` with a second unbonding application that
matures at time 20. -/
def appStateMixed : AppState :=
  SetUnstakingApplication (SetApplication appStateMature (applicationUnbonding 2 20))
    (applicationUnbonding 2 20)

/-! ## lemmas on the arithmetic and the stores -/

theorem chopNonneg_mul (m : Int) : chopPrecisionAndRoundNonneg (m * precisionReuse) = m := by
  have hp : precisionReuse ≠ 0 := by decide
  simp [chopPrecisionAndRoundNonneg, Int.mul_tmod_left, Int.mul_tdiv_cancel _ hp]

theorem chop_mul (m : Int) : chopPrecisionAndRound (m * precisionReuse) = m := by
  unfold chopPrecisionAndRound
  split
  · rw [← Int.neg_mul, chopNonneg_mul]; simp
  · exact chopNonneg_mul m

theorem slashAmount_eq (a : Int) (f : Dec) :
    ((ToDec a).Mul f).TruncateInt = Int.tdiv (a * f.raw) precisionReuse := by
  have : a * precisionReuse * f.raw = (a * f.raw) * precisionReuse := by ring
  simp [Dec.TruncateInt, Dec.Mul, ToDec, this, chop_mul]

theorem clamp_eq (x s : Int) : MaxInt (MinInt x s) 0 = max (min x s) 0 := by
  unfold MaxInt MinInt
  split <;> split <;> omega

theorem clamp_bounds (x s : Int) (hs : 0 ≤ s) :
    0 ≤ MaxInt (MinInt x s) 0 ∧ MaxInt (MinInt x s) 0 ≤ s := by
  rw [clamp_eq]; omega

theorem findValidator_address {vs : List Validator} {a : Address} {v : Validator}
    (h : findValidator vs a = some v) : v.Address.bytes = a := by
  induction vs with
  | nil => simp [findValidator] at h
  | cons w rest ih =>
    unfold findValidator at h
    split at h
    · cases h; assumption
    · exact ih h

theorem findValidator_nil (vs : List Validator) : findValidator vs [] = none := by
  cases h : findValidator vs [] with
  | none => rfl
  | some v =>
    have h1 := findValidator_address h
    have h2 := v.Address.len
    rw [h1] at h2
    simp at h2

theorem findValidator_put_same (vs : List Validator) (v : Validator) :
    findValidator (putValidator vs v) v.Address.bytes = some v := by
  induction vs with
  | nil => simp [putValidator, findValidator]
  | cons w rest ih =>
    unfold putValidator
    split
    · simp [findValidator]
    · split
      · simp [findValidator]
      · simp [findValidator, *]

theorem findValidator_put_other (vs : List Validator) (v : Validator) (a : Address)
    (h : a ≠ v.Address.bytes) : findValidator (putValidator vs v) a = findValidator vs a := by
  induction vs with
  | nil => simp [putValidator, findValidator, Ne.symm h]
  | cons w rest ih =>
    unfold putValidator
    split
    · rename_i hw
      have hwa : w.Address.bytes ≠ a := by rw [hw]; exact Ne.symm h
      simp [findValidator, hwa, Ne.symm h]
    · split
      · simp [findValidator, Ne.symm h]
      · simp [findValidator, ih]

theorem slash_eq_applyBurn (k : Params) (st : State) (addr : Address) (h p : Int) (f : Dec)
    (v : Validator) (hfound : GetValidator st addr = some v) (hf : 0 ≤ f.raw)
    (hh : h ≤ st.blockHeight) :
    slash k st addr h p f
      = applyBurn k st v (max (min (Int.tdiv (p * 1000000 * f.raw) 1000000000000000000) v.StakedTokens) 0) := by
  have h1 : ¬ (f.raw < 0) := by omega
  have h2 : ¬ (st.blockHeight < h) := by omega
  have hv : validateSlash st addr h p f = .ok (some v) := by
    simp [validateSlash, Dec.LT, ZeroDec, h1, h2, hfound]
  unfold slash
  rw [hv]
  simp only [slashAmount_eq, clamp_eq, TokensFromConsensusPower, PowerReduction, precisionReuse]
  rfl

theorem simpleSlash_eq_applyBurn (k : Params) (st : State) (addr : Address) (amount : Int)
    (v : Validator) (hfound : GetValidator st addr = some v) (ha : 0 < amount) :
    simpleSlash k st addr amount = applyBurn k st v (max (min amount v.StakedTokens) 0) := by
  have h1 : ¬ (amount ≤ 0) := by omega
  have hv : validateSimpleSlash st addr amount = .ok (some v) := by
    simp [validateSimpleSlash, h1, hfound]
  unfold simpleSlash
  rw [hv]
  simp only [clamp_eq]
  rfl

theorem applyBurn_eq (k : Params) (st : State) (v : Validator) (burn : Int)
    (h0 : 0 ≤ burn) (hpool : burn ≤ st.stakedPool) :
    applyBurn k st v burn
      = if v.StakedTokens - burn < k.MinimumStake then
          (ForceValidatorUnstake (deducted st v burn) { v with StakedTokens := v.StakedTokens - burn }).mapError
            Panic.Sdk
        else .ok (deducted st v burn) := by
  have hb : burnStakedTokens (removeValidatorTokens st v burn).1 burn = .ok (deducted st v burn) := by
    simp [burnStakedTokens, removeValidatorTokens, SetValidator, deducted, Validator.RemoveStakedTokens,
      h0, hpool]
  unfold applyBurn
  simp only [hb]
  simp only [removeValidatorTokens, Validator.RemoveStakedTokens, Validator.GetTokens]
  split
  · cases ForceValidatorUnstake (deducted st v burn) { v with StakedTokens := v.StakedTokens - burn } <;> rfl
  · rfl

theorem applyBurn_panic (k : Params) (st : State) (v : Validator) (burn : Int)
    (hpool : st.stakedPool < burn) :
    applyBurn k st v burn = .error (Panic.Sdk SdkError.ErrInsufficientCoins) := by
  have hb : burnStakedTokens (removeValidatorTokens st v burn).1 burn
      = .error SdkError.ErrInsufficientCoins := by
    have : ¬ (burn ≤ st.stakedPool) := by omega
    simp [burnStakedTokens, removeValidatorTokens, SetValidator, this]
  unfold applyBurn
  simp only [hb]


theorem validateSlash_some {st : State} {addr : Address} {h p : Int} {f : Dec} {v : Validator}
    (hv : validateSlash st addr h p f = .ok (some v)) : GetValidator st addr = some v := by
  unfold validateSlash at hv
  split at hv
  · cases hv
  · split at hv
    · cases hv
    · split at hv
      · cases hv
      · rename_i w hw
        cases hv
        exact hw

theorem validateSimpleSlash_some {st : State} {addr : Address} {amount : Int} {v : Validator}
    (hv : validateSimpleSlash st addr amount = .ok (some v)) : GetValidator st addr = some v := by
  unfold validateSimpleSlash at hv
  split at hv
  · cases hv
  · split at hv
    · cases hv
    · rename_i w hw
      cases hv
      exact hw

theorem getValidator_deducted_same (st : State) (v : Validator) (burn : Int) (addr : Address)
    (hfound : GetValidator st addr = some v) :
    GetValidator (deducted st v burn) addr = some { v with StakedTokens := v.StakedTokens - burn } := by
  have ha : v.Address.bytes = addr := findValidator_address hfound
  have := findValidator_put_same st.validators { v with StakedTokens := v.StakedTokens - burn }
  simpa [GetValidator, deducted, ha] using this

theorem getValidator_deducted_other (st : State) (v : Validator) (burn : Int) (a : Address)
    (ha : a ≠ v.Address.bytes) : GetValidator (deducted st v burn) a = GetValidator st a := by
  have := findValidator_put_other st.validators { v with StakedTokens := v.StakedTokens - burn } a ha
  simpa [GetValidator, deducted] using this

theorem forceValidatorUnstake_validators {st st3 : State} {v : Validator}
    (h : ForceValidatorUnstake st v = .ok st3) :
    st3.validators = putValidator st.validators
      { v with StakedTokens := 0, Status := BondStatus.Unbonded, UnstakingCompletionTime := 0 } := by
  unfold ForceValidatorUnstake at h
  split at h
  · cases h
  · rename_i st1 hb
    have hv : st1.validators = st.validators := by
      unfold burnStakedTokens at hb
      split at hb
      · cases hb; rfl
      · cases hb
    simp only at h
    split at h
    · cases h; simp [SetValidator, hv]
    · cases h; simp [SetValidator, SetValidatorSigningInfo, hv]

theorem applyBurn_validators {k : Params} {st st' : State} {v : Validator} {burn : Int}
    (h : applyBurn k st v burn = .ok st') :
    st'.validators = putValidator st.validators { v with StakedTokens := v.StakedTokens - burn } ∨
    st'.validators = putValidator
        (putValidator st.validators { v with StakedTokens := v.StakedTokens - burn })
        { v with StakedTokens := 0, Status := BondStatus.Unbonded, UnstakingCompletionTime := 0 } := by
  unfold applyBurn at h
  simp only at h
  split at h
  · cases h
  · rename_i st2 hb
    have hv : st2.validators
        = putValidator st.validators { v with StakedTokens := v.StakedTokens - burn } := by
      unfold burnStakedTokens at hb
      split at hb
      · cases hb; rfl
      · cases hb
    split at h
    · split at h
      · cases h
      · rename_i st3 hf
        cases h
        right
        have := forceValidatorUnstake_validators hf
        simpa [hv, removeValidatorTokens, Validator.RemoveStakedTokens] using this
    · cases h
      left
      exact hv

theorem applyBurn_tokens {k : Params} {st st' : State} {v : Validator} {burn : Int}
    (hfound : GetValidator st v.Address.bytes = some v)
    (h0 : 0 ≤ burn) (hle : 0 ≤ v.StakedTokens → burn ≤ v.StakedTokens)
    (h : applyBurn k st v burn = .ok st')
    (a : Address) (w : Validator) (hw : GetValidator st a = some w) (hs : 0 ≤ w.StakedTokens) :
    ∃ w', GetValidator st' a = some w' ∧ 0 ≤ w'.StakedTokens ∧ w'.StakedTokens ≤ w.StakedTokens := by
  by_cases ha : a = v.Address.bytes
  · subst ha
    have hwv : w = v := by
      rw [hfound] at hw
      cases hw; rfl
    subst hwv
    have hb := hle hs
    rcases applyBurn_validators h with hv | hv
    · refine ⟨{ w with StakedTokens := w.StakedTokens - burn }, ?_, ?_, ?_⟩
      · have := findValidator_put_same st.validators { w with StakedTokens := w.StakedTokens - burn }
        simpa [GetValidator, hv] using this
      · simp; omega
      · simp; omega
    · refine ⟨{ w with StakedTokens := 0, Status := BondStatus.Unbonded, UnstakingCompletionTime := 0 },
        ?_, ?_, ?_⟩
      · have := findValidator_put_same
          (putValidator st.validators { w with StakedTokens := w.StakedTokens - burn })
          { w with StakedTokens := 0, Status := BondStatus.Unbonded, UnstakingCompletionTime := 0 }
        simpa [GetValidator, hv] using this
      · simp
      · simpa using hs
  · refine ⟨w, ?_, hs, le_refl _⟩
    rcases applyBurn_validators h with hv | hv
    · have := findValidator_put_other st.validators
        { v with StakedTokens := v.StakedTokens - burn } a ha
      simp only [GetValidator, hv] at *
      rw [this]; exact hw
    · have h1 := findValidator_put_other st.validators
        { v with StakedTokens := v.StakedTokens - burn } a ha
      have h2 := findValidator_put_other
        (putValidator st.validators { v with StakedTokens := v.StakedTokens - burn })
        { v with StakedTokens := 0, Status := BondStatus.Unbonded, UnstakingCompletionTime := 0 } a ha
      simp only [GetValidator, hv] at *
      rw [h2, h1]; exact hw


/-- C1: for a validator found at addr, a slash factor f >= 0 and an infraction
height not above the block height, slash computes
burn = max(min(trunc(p * 1,000,000 * f), s), 0), where trunc is the quotient
of p * 1,000,000 * raw(f) by 10^18 rounded toward zero. When the staked pool
holds at least burn, the state handed to the force-unstake check is the input
state with exactly burn deducted from the validator's StakedTokens and exactly
burn burned from the staked pool, every other record being untouched; when the
pool holds less, the bank burn fails and slash panics. -/
theorem slash_deducts_and_burns (k : Params) (st : State) (addr : Address) (height power : Int)
    (slashFactor : Dec) (v : Validator) (burn : Int)
    (hfound : GetValidator st addr = some v) (hf : 0 ≤ slashFactor.raw)
    (hh : height ≤ st.blockHeight)
    (hburn : burn = max (min (Int.tdiv (power * 1000000 * slashFactor.raw) 1000000000000000000)
      v.StakedTokens) 0) :
    GetValidator (deducted st v burn) addr = some { v with StakedTokens := v.StakedTokens - burn } ∧
    (deducted st v burn).stakedPool = st.stakedPool - burn ∧
    (∀ a, a ≠ addr → GetValidator (deducted st v burn) a = GetValidator st a) ∧
    (deducted st v burn).signingInfos = st.signingInfos ∧
    (burn ≤ st.stakedPool →
      slash k st addr height power slashFactor =
        if v.StakedTokens - burn < k.MinimumStake then
          (ForceValidatorUnstake (deducted st v burn)
            { v with StakedTokens := v.StakedTokens - burn }).mapError Panic.Sdk
        else .ok (deducted st v burn)) ∧
    (st.stakedPool < burn →
      slash k st addr height power slashFactor = .error (Panic.Sdk SdkError.ErrInsufficientCoins)) := by
  have ha : v.Address.bytes = addr := findValidator_address hfound
  have h0 : 0 ≤ burn := by rw [hburn]; omega
  have hs := slash_eq_applyBurn k st addr height power slashFactor v hfound hf hh
  rw [← hburn] at hs
  refine ⟨getValidator_deducted_same st v burn addr hfound, rfl, ?_, rfl, ?_, ?_⟩
  · intro a hne
    exact getValidator_deducted_other st v burn a (by rw [ha]; exact hne)
  · intro hpool
    rw [hs]
    exact applyBurn_eq k st v burn h0 hpool
  · intro hpool
    rw [hs]
    exact applyBurn_panic k st v burn hpool

/-- Witness of C1 on scenario S3: power 100 and factor 0.05 burn 5,000,000 of
the 100,000,000 staked tokens of V1. -/
theorem slash_deducts_and_burns_witness :
    GetValidator stateS3 (addrOf 1).bytes = some validatorS3 ∧
    slash paramsS3 stateS3 (addrOf 1).bytes 39 100 ⟨50000000000000000⟩
      = .ok (deducted stateS3 validatorS3 5000000) ∧
    GetValidator (deducted stateS3 validatorS3 5000000) (addrOf 1).bytes
      = some { validatorS3 with StakedTokens := 95000000 } ∧
    (deducted stateS3 validatorS3 5000000).stakedPool = 95000000 := by
  have h := slash_deducts_and_burns paramsS3 stateS3 (addrOf 1).bytes 39 100 ⟨50000000000000000⟩
    validatorS3 5000000 (by decide) (by decide) (by decide) (by decide)
  refine ⟨by decide, ?_, ?_, ?_⟩
  · rw [h.2.2.2.2.1 (by decide)]
    decide
  · rw [h.1]
    decide
  · rw [h.2.1]
    decide


/-- C2: non-negativity and no increase. For every validator record with
StakedTokens s >= 0, after any call of slash or of simpleSlash (on any
address, with any arguments) that returns without a panic, the record is still
in the store and its StakedTokens s' satisfies 0 <= s' <= s. -/
theorem slashing_keeps_tokens_between_zero_and_stake (k : Params) (st : State) (a : Address)
    (w : Validator) (hw : GetValidator st a = some w) (hs : 0 ≤ w.StakedTokens) :
    (∀ (addr : Address) (height power : Int) (slashFactor : Dec) (st' : State),
      slash k st addr height power slashFactor = .ok st' →
      ∃ w', GetValidator st' a = some w' ∧ 0 ≤ w'.StakedTokens ∧ w'.StakedTokens ≤ w.StakedTokens) ∧
    (∀ (addr : Address) (amount : Int) (st' : State),
      simpleSlash k st addr amount = .ok st' →
      ∃ w', GetValidator st' a = some w' ∧ 0 ≤ w'.StakedTokens ∧ w'.StakedTokens ≤ w.StakedTokens) := by
  constructor
  · intro addr height power slashFactor st' h
    unfold slash at h
    split at h
    · cases h
    · cases h
      exact ⟨w, hw, hs, le_refl _⟩
    · rename_i v hv
      have hfound := validateSlash_some hv
      have hav := findValidator_address hfound
      rw [← hav] at hfound
      refine applyBurn_tokens hfound ?_ ?_ h a w hw hs
      · rw [clamp_eq]; omega
      · intro h0; exact (clamp_bounds _ _ h0).2
  · intro addr amount st' h
    unfold simpleSlash at h
    split at h
    · cases h
    · cases h
      exact ⟨w, hw, hs, le_refl _⟩
    · rename_i v hv
      have hfound := validateSimpleSlash_some hv
      have hav := findValidator_address hfound
      rw [← hav] at hfound
      refine applyBurn_tokens hfound ?_ ?_ h a w hw hs
      · rw [clamp_eq]; omega
      · intro h0; exact (clamp_bounds _ _ h0).2

/-- Witness of C2 on scenario S5: V1 holds 2 tokens; after slash with power 1
and factor 0.000001 (1 token) and after simpleSlash of 5 tokens its tokens lie
between 0 and 2. -/
theorem slashing_keeps_tokens_between_zero_and_stake_witness :
    (∃ st', slash paramsS3 stateS5 (addrOf 1).bytes 10 1 ⟨1000000000000⟩ = .ok st' ∧
      ∃ w', GetValidator st' (addrOf 1).bytes = some w' ∧ 0 ≤ w'.StakedTokens ∧ w'.StakedTokens ≤ 2) ∧
    (∃ st', simpleSlash paramsS3 stateS5 (addrOf 1).bytes 5 = .ok st' ∧
      ∃ w', GetValidator st' (addrOf 1).bytes = some w' ∧ 0 ≤ w'.StakedTokens ∧ w'.StakedTokens ≤ 2) := by
  have h := slashing_keeps_tokens_between_zero_and_stake paramsS3 stateS5 (addrOf 1).bytes
    validatorS5 (by decide) (by decide)
  constructor
  · exact ⟨deducted stateS5 validatorS5 1, by decide,
      h.1 (addrOf 1).bytes 10 1 ⟨1000000000000⟩ (deducted stateS5 validatorS5 1) (by decide)⟩
  · cases hr : simpleSlash paramsS3 stateS5 (addrOf 1).bytes 5 with
    | error e =>
      have hok : (simpleSlash paramsS3 stateS5 (addrOf 1).bytes 5).toBool = true := by decide
      rw [hr] at hok
      cases hok
    | ok st' => exact ⟨st', rfl, h.2 (addrOf 1).bytes 5 st' hr⟩


/-- C3: for a validator found at addr, whenever validation and the bank burn
do not panic, slash and simpleSlash invoke ForceValidatorUnstake (on the state
and the record after the deduction) if and only if the tokens remaining after
the deduction are strictly less than StakeMinimum; when remaining >=
StakeMinimum the call returns the state after the deduction, in which the
validator's status is unchanged. -/
theorem force_unstake_iff_below_minimum (k : Params) (st : State) (addr : Address)
    (v : Validator) (hfound : GetValidator st addr = some v) :
    (∀ (height power : Int) (slashFactor : Dec) (burn : Int),
      0 ≤ slashFactor.raw → height ≤ st.blockHeight →
      burn = max (min (Int.tdiv (power * 1000000 * slashFactor.raw) 1000000000000000000)
        v.StakedTokens) 0 →
      burn ≤ st.stakedPool →
      (v.StakedTokens - burn < k.MinimumStake →
        slash k st addr height power slashFactor =
          (ForceValidatorUnstake (deducted st v burn)
            { v with StakedTokens := v.StakedTokens - burn }).mapError Panic.Sdk) ∧
      (k.MinimumStake ≤ v.StakedTokens - burn →
        slash k st addr height power slashFactor = .ok (deducted st v burn) ∧
        (GetValidator (deducted st v burn) addr).map (fun x => x.Status) = some v.Status)) ∧
    (∀ (amount burn : Int), 0 < amount →
      burn = max (min amount v.StakedTokens) 0 →
      burn ≤ st.stakedPool →
      (v.StakedTokens - burn < k.MinimumStake →
        simpleSlash k st addr amount =
          (ForceValidatorUnstake (deducted st v burn)
            { v with StakedTokens := v.StakedTokens - burn }).mapError Panic.Sdk) ∧
      (k.MinimumStake ≤ v.StakedTokens - burn →
        simpleSlash k st addr amount = .ok (deducted st v burn) ∧
        (GetValidator (deducted st v burn) addr).map (fun x => x.Status) = some v.Status)) := by
  have hstatus : ∀ burn : Int,
      (GetValidator (deducted st v burn) addr).map (fun x => x.Status) = some v.Status := by
    intro burn
    rw [getValidator_deducted_same st v burn addr hfound]
    rfl
  constructor
  · intro height power slashFactor burn hf hh hburn hpool
    have h0 : 0 ≤ burn := by rw [hburn]; omega
    have hs := slash_eq_applyBurn k st addr height power slashFactor v hfound hf hh
    rw [← hburn, applyBurn_eq k st v burn h0 hpool] at hs
    constructor
    · intro hlt
      rw [hs, if_pos hlt]
    · intro hge
      have hnlt : ¬ (v.StakedTokens - burn < k.MinimumStake) := by omega
      rw [hs, if_neg hnlt]
      exact ⟨rfl, hstatus burn⟩
  · intro amount burn ha hburn hpool
    have h0 : 0 ≤ burn := by rw [hburn]; omega
    have hs := simpleSlash_eq_applyBurn k st addr amount v hfound ha
    rw [← hburn, applyBurn_eq k st v burn h0 hpool] at hs
    constructor
    · intro hlt
      rw [hs, if_pos hlt]
    · intro hge
      have hnlt : ¬ (v.StakedTokens - burn < k.MinimumStake) := by omega
      rw [hs, if_neg hnlt]
      exact ⟨rfl, hstatus burn⟩

/-- Witness of C3 on scenario S3: the slash of 5,000,000 leaves 95,000,000 >=
StakeMinimum = 1, so no force-unstake and V1 stays Bonded; a simpleSlash of
100,000,000 leaves 0 < 1, so ForceValidatorUnstake runs and V1 ends Unbonded. -/
theorem force_unstake_iff_below_minimum_witness :
    GetValidator stateS3 (addrOf 1).bytes = some validatorS3 ∧
    (slash paramsS3 stateS3 (addrOf 1).bytes 39 100 ⟨50000000000000000⟩
        = .ok (deducted stateS3 validatorS3 5000000) ∧
      (GetValidator (deducted stateS3 validatorS3 5000000) (addrOf 1).bytes).map (fun x => x.Status)
        = some BondStatus.Bonded) ∧
    simpleSlash paramsS3 stateS3 (addrOf 1).bytes 100000000 =
      (ForceValidatorUnstake (deducted stateS3 validatorS3 100000000)
        { validatorS3 with StakedTokens := 100000000 - 100000000 }).mapError Panic.Sdk ∧
    (simpleSlash paramsS3 stateS3 (addrOf 1).bytes 100000000).map
        (fun s => (GetValidator s (addrOf 1).bytes).map (fun x => x.Status))
      = .ok (some BondStatus.Unbonded) := by
  have h := force_unstake_iff_below_minimum paramsS3 stateS3 (addrOf 1).bytes validatorS3 (by decide)
  refine ⟨by decide, ?_, ?_, by decide⟩
  · exact (h.1 39 100 ⟨50000000000000000⟩ 5000000 (by decide) (by decide) (by decide)
      (by decide)).2 (by decide)
  · exact (h.2 100000000 100000000 (by decide) (by decide) (by decide)).1 (by decide)

/-- C4, as stated, fails: with StakeMinimum = 0, a validator with 2 staked
tokens and a slash amount of 2 (scenario S5 with the minimum lowered),
simpleSlash burns the 2 tokens and returns the state after the deduction: the
validator has 0 tokens and is still Bonded, and ForceValidatorUnstake, which
would have produced a different state, has not run. -/
theorem simpleSlash_no_force_unstake_at_zero_minimum :
    simpleSlash paramsZeroMinimum stateS5 (addrOf 1).bytes 2 = .ok (deducted stateS5 validatorS5 2) ∧
    GetValidator (deducted stateS5 validatorS5 2) (addrOf 1).bytes
      = some { validatorS5 with StakedTokens := 0 } ∧
    validatorS5.Status = BondStatus.Bonded ∧
    (ForceValidatorUnstake (deducted stateS5 validatorS5 2)
        { validatorS5 with StakedTokens := 0 }).mapError Panic.Sdk
      ≠ simpleSlash paramsZeroMinimum stateS5 (addrOf 1).bytes 2 := by
  decide

/-- C4, amended: for a validator found at addr with StakedTokens s >= 0 and
every slash amount a >= s with a > 0, when the staked pool holds at least s,
simpleSlash deducts and burns exactly s (the amount is clamped to the stake and
0 tokens remain), and it then runs ForceValidatorUnstake exactly when
StakeMinimum > 0; with StakeMinimum <= 0 it returns the state after the
deduction. -/
theorem simpleSlash_clamps_to_stake (k : Params) (st : State) (addr : Address) (v : Validator)
    (amount : Int) (hfound : GetValidator st addr = some v) (hs : 0 ≤ v.StakedTokens)
    (ha : 0 < amount) (hge : v.StakedTokens ≤ amount) (hpool : v.StakedTokens ≤ st.stakedPool) :
    GetValidator (deducted st v v.StakedTokens) addr = some { v with StakedTokens := 0 } ∧
    (deducted st v v.StakedTokens).stakedPool = st.stakedPool - v.StakedTokens ∧
    simpleSlash k st addr amount =
      if 0 < k.MinimumStake then
        (ForceValidatorUnstake (deducted st v v.StakedTokens)
          { v with StakedTokens := 0 }).mapError Panic.Sdk
      else .ok (deducted st v v.StakedTokens) := by
  have hb : max (min amount v.StakedTokens) 0 = v.StakedTokens := by omega
  have hsub : v.StakedTokens - v.StakedTokens = 0 := by omega
  have h1 := getValidator_deducted_same st v v.StakedTokens addr hfound
  rw [hsub] at h1
  refine ⟨h1, rfl, ?_⟩
  have hsl := simpleSlash_eq_applyBurn k st addr amount v hfound ha
  rw [hb, applyBurn_eq k st v v.StakedTokens hs hpool, hsub] at hsl
  exact hsl

/-- Witness of C4 (amended) on scenario S5: 2 staked tokens, StakeMinimum = 1,
slash amount 2: the 2 tokens are burned, 0 remain, and the force-unstake
leaves V1 Unbonded. -/
theorem simpleSlash_clamps_to_stake_witness :
    GetValidator stateS5 (addrOf 1).bytes = some validatorS5 ∧
    GetValidator (deducted stateS5 validatorS5 2) (addrOf 1).bytes
      = some { validatorS5 with StakedTokens := 0 } ∧
    (deducted stateS5 validatorS5 2).stakedPool = 0 ∧
    simpleSlash paramsS3 stateS5 (addrOf 1).bytes 2 =
      (ForceValidatorUnstake (deducted stateS5 validatorS5 2)
        { validatorS5 with StakedTokens := 0 }).mapError Panic.Sdk ∧
    (simpleSlash paramsS3 stateS5 (addrOf 1).bytes 2).map
        (fun s => (GetValidator s (addrOf 1).bytes).map (fun x => (x.Status, x.StakedTokens)))
      = .ok (some (BondStatus.Unbonded, 0)) := by
  have h := simpleSlash_clamps_to_stake paramsS3 stateS5 (addrOf 1).bytes validatorS5 2
    (by decide) (by decide) (by decide) (by decide) (by decide)
  exact ⟨by decide, h.1, h.2.1, h.2.2, by decide⟩


/-- C5: the code at scenario S3 (evidence of age 30 s against V1, bonded with
100,000,000, power 100). handleDoubleSign emits the slash event with reason
double_sign and slashes with SlashFractionDoubleSign (5,000,000 burned), but
the signing info of V1 is left as it was: Tombstoned is still false. -/
theorem handleDoubleSign_leaves_tombstoned_false :
    handleDoubleSign paramsS3 stateS3 (addrOf 1).bytes 40 9970000000000 100
      = .ok (deducted (EmitEvent stateS3 slashEventS3) validatorS3 5000000) ∧
    (deducted (EmitEvent stateS3 slashEventS3) validatorS3 5000000).events = [slashEventS3] ∧
    (deducted (EmitEvent stateS3 slashEventS3) validatorS3 5000000).stakedPool = 95000000 ∧
    (GetValidatorSigningInfo (deducted (EmitEvent stateS3 slashEventS3) validatorS3 5000000)
        (addrOf 1).bytes).map (fun i => i.Tombstoned) = some false := by
  decide

/-- C6: the code at scenario S3. The state after the first evidence is taken
to block 60; the second, identical evidence passes validateDoubleSign with a
nil error and handleDoubleSign slashes again: 90,000,000 tokens are left to V1
and in the pool, and a second slash event is emitted. -/
theorem handleDoubleSign_slashes_twice :
    (handleDoubleSign paramsS3 stateS3 (addrOf 1).bytes 40 9970000000000 100).map
        (fun s => { s with blockHeight := 60, blockTime := 10060000000000 })
      = .ok stateS3Second ∧
    (validateDoubleSign paramsS3 stateS3Second (addrOf 1).bytes 40 9970000000000).map
        (fun r => r.err) = .ok none ∧
    (handleDoubleSign paramsS3 stateS3Second (addrOf 1).bytes 40 9970000000000 100).map
        (fun s => ((GetValidator s (addrOf 1).bytes).map (fun x => x.StakedTokens), s.stakedPool,
          s.events))
      = .ok (some 90000000, 90000000, [slashEventS3, slashEventS3]) ∧
    (GetValidator stateS3Second (addrOf 1).bytes).map (fun x => x.StakedTokens) = some 95000000 ∧
    stateS3Second.stakedPool = 95000000 := by
  decide

/-- C8: the code at scenario S3 with evidence of age 3601 s, above
MaxEvidenceAge = 3600 s. validateDoubleSign returns the zero values of its
results: the nil address and a nil error. handleDoubleSign therefore goes on:
it emits a slash event (carrying the nil address) and calls slash on the nil
address. -/
theorem handleDoubleSign_too_old_evidence_emits_event :
    timeSub stateS3.blockTime 6399000000000 = 3601000000000 ∧
    paramsS3.MaxEvidenceAge = 3600000000000 ∧
    validateDoubleSign paramsS3 stateS3 (addrOf 1).bytes 40 6399000000000
      = .ok { address := [], signInfo := ValidatorSigningInfo.zero, validator := none, err := none } ∧
    handleDoubleSign paramsS3 stateS3 (addrOf 1).bytes 40 6399000000000 100
      = .ok { stateS3 with events := [Event.Slash [] 100 SlashReason.DoubleSign none] } ∧
    handleDoubleSign paramsS3 stateS3 (addrOf 1).bytes 40 6399000000000 100 ≠ .ok stateS3 := by
  decide

/-- C9, as stated, fails: in scenario S3 at block 50, evidence against V1 of
age exactly MaxEvidenceAge (3600 s) with infraction height 60 is accepted by
validateDoubleSign with a nil error, but V1 is not slashed: handleDoubleSign
ends in the future-infraction panic of validateSlash and returns no state. -/
theorem evidence_at_max_age_accepted_but_not_slashed :
    timeSub stateS3.blockTime 6400000000000 = paramsS3.MaxEvidenceAge ∧
    stateS3.blockHeight = 50 ∧
    validateDoubleSign paramsS3 stateS3 (addrOf 1).bytes 60 6400000000000
      = .ok { address := (addrOf 1).bytes, signInfo := signingInfoS3,
              validator := some validatorS3, err := none } ∧
    handleDoubleSign paramsS3 stateS3 (addrOf 1).bytes 60 6400000000000 100
      = .error Panic.FutureInfraction := by
  decide

/-- C9, amended: for evidence against a validator that is found and not
Unbonded, whose signing info exists and is not tombstoned, and whose age
equals MaxEvidenceAge exactly, validateDoubleSign returns the evidence
address, the signing info and the validator with a nil error; when moreover
the infraction height minus ValidatorUpdateDelay is at most the block height
and SlashFractionDoubleSign is not negative, handleDoubleSign emits the slash
event and slashes the validator: it deducts and burns
max(min(trunc(power * 1,000,000 * fraction), tokens), 0), and when the pool
covers this amount it returns the deducted state, or force-unstakes the
validator below the minimum stake. -/
theorem validateDoubleSign_accepts_at_max_age (k : Params) (st : State) (addr : Address)
    (v : Validator) (info : ValidatorSigningInfo) (infractionHeight timestamp power : Int)
    (hfound : GetValidator st addr = some v) (hstatus : v.Status ≠ BondStatus.Unbonded)
    (hinfo : GetValidatorSigningInfo st addr = some info) (htomb : info.Tombstoned = false)
    (hage : timeSub st.blockTime timestamp = k.MaxEvidenceAge)
    (hh : infractionHeight - k.ValidatorUpdateDelay ≤ st.blockHeight)
    (hf : 0 ≤ k.SlashFractionDoubleSign.raw) :
    validateDoubleSign k st addr infractionHeight timestamp
      = .ok { address := addr, signInfo := info, validator := some v, err := none } ∧
    handleDoubleSign k st addr infractionHeight timestamp power
      = applyBurn k (EmitEvent st (Event.Slash addr power SlashReason.DoubleSign none)) v
          (max (min (Int.tdiv (power * 1000000 * k.SlashFractionDoubleSign.raw)
            1000000000000000000) v.StakedTokens) 0) ∧
    (max (min (Int.tdiv (power * 1000000 * k.SlashFractionDoubleSign.raw)
        1000000000000000000) v.StakedTokens) 0 ≤ st.stakedPool →
      handleDoubleSign k st addr infractionHeight timestamp power
        = if v.StakedTokens
              - max (min (Int.tdiv (power * 1000000 * k.SlashFractionDoubleSign.raw)
                  1000000000000000000) v.StakedTokens) 0 < k.MinimumStake then
            (ForceValidatorUnstake
              (deducted (EmitEvent st (Event.Slash addr power SlashReason.DoubleSign none)) v
                (max (min (Int.tdiv (power * 1000000 * k.SlashFractionDoubleSign.raw)
                  1000000000000000000) v.StakedTokens) 0))
              { v with StakedTokens := v.StakedTokens
                          - max (min (Int.tdiv (power * 1000000 * k.SlashFractionDoubleSign.raw)
                              1000000000000000000) v.StakedTokens) 0 }).mapError Panic.Sdk
          else .ok
            (deducted (EmitEvent st (Event.Slash addr power SlashReason.DoubleSign none)) v
              (max (min (Int.tdiv (power * 1000000 * k.SlashFractionDoubleSign.raw)
                1000000000000000000) v.StakedTokens) 0))) := by
  have hv : validateDoubleSign k st addr infractionHeight timestamp
      = .ok { address := addr, signInfo := info, validator := some v, err := none } := by
    simp [validateDoubleSign, hfound, Validator.IsUnstaked, hstatus, hage, hinfo, htomb]
  have hs : handleDoubleSign k st addr infractionHeight timestamp power
      = slash k (EmitEvent st (Event.Slash addr power SlashReason.DoubleSign none)) addr
          (infractionHeight - k.ValidatorUpdateDelay) power k.SlashFractionDoubleSign := by
    unfold handleDoubleSign
    rw [hv]
  have ha : handleDoubleSign k st addr infractionHeight timestamp power
      = applyBurn k (EmitEvent st (Event.Slash addr power SlashReason.DoubleSign none)) v
          (max (min (Int.tdiv (power * 1000000 * k.SlashFractionDoubleSign.raw)
            1000000000000000000) v.StakedTokens) 0) := by
    rw [hs]
    exact slash_eq_applyBurn k _ addr _ power _ v hfound hf hh
  refine ⟨hv, ha, ?_⟩
  intro hpool
  rw [ha]
  exact applyBurn_eq k _ v _ (le_max_right _ _) hpool

/-- Witness of C9 (amended) on scenario S3: evidence of age exactly 3600 s with
infraction height 40 against V1 is accepted and V1 is slashed by 5,000,000. -/
theorem validateDoubleSign_accepts_at_max_age_witness :
    timeSub stateS3.blockTime 6400000000000 = paramsS3.MaxEvidenceAge ∧
    validateDoubleSign paramsS3 stateS3 (addrOf 1).bytes 40 6400000000000
      = .ok { address := (addrOf 1).bytes, signInfo := signingInfoS3,
              validator := some validatorS3, err := none } ∧
    handleDoubleSign paramsS3 stateS3 (addrOf 1).bytes 40 6400000000000 100
      = .ok (deducted (EmitEvent stateS3 slashEventS3) validatorS3 5000000) := by
  have h := validateDoubleSign_accepts_at_max_age paramsS3 stateS3 (addrOf 1).bytes validatorS3
    signingInfoS3 40 6400000000000 100 (by decide) (by decide) (by decide) (by decide) (by decide)
    (by decide) (by decide)
  refine ⟨by decide, h.1, ?_⟩
  rw [h.2.1]
  decide

/-- C10: when no validator is found at the evidence address, or the validator
found there is Unbonded, validateDoubleSign returns ErrCantHandleEvidence,
whatever the timestamp, the infraction height and the signing info, and
handleDoubleSign returns the state unchanged: no event is emitted. -/
theorem validateDoubleSign_cant_handle_evidence (k : Params) (st : State) (addr : Address)
    (infractionHeight timestamp power : Int)
    (h : GetValidator st addr = none ∨
      ∃ v, GetValidator st addr = some v ∧ v.Status = BondStatus.Unbonded) :
    validateDoubleSign k st addr infractionHeight timestamp
      = .ok { address := [], signInfo := ValidatorSigningInfo.zero, validator := none,
              err := some SdkError.ErrCantHandleEvidence } ∧
    handleDoubleSign k st addr infractionHeight timestamp power = .ok st := by
  have hv : validateDoubleSign k st addr infractionHeight timestamp
      = .ok { address := [], signInfo := ValidatorSigningInfo.zero, validator := none,
              err := some SdkError.ErrCantHandleEvidence } := by
    rcases h with h | ⟨v, hfound, hstatus⟩
    · simp [validateDoubleSign, h, DoubleSignResult.zero]
    · simp [validateDoubleSign, hfound, Validator.IsUnstaked, hstatus, DoubleSignResult.zero]
  refine ⟨hv, ?_⟩
  unfold handleDoubleSign
  rw [hv]

/-- Witness of C10: in scenario S3 no validator is stored at the address of
twenty bytes 2; in the variant with V1 Unbonded the evidence against V1 is of
age 30 s and the state is returned unchanged. -/
theorem validateDoubleSign_cant_handle_evidence_witness :
    GetValidator stateS3 (addrOf 2).bytes = none ∧
    handleDoubleSign paramsS3 stateS3 (addrOf 2).bytes 40 9970000000000 100 = .ok stateS3 ∧
    (GetValidator stateS3Unbonded (addrOf 1).bytes).map (fun x => x.Status)
      = some BondStatus.Unbonded ∧
    handleDoubleSign paramsS3 stateS3Unbonded (addrOf 1).bytes 40 9970000000000 100
      = .ok stateS3Unbonded := by
  refine ⟨by decide, ?_, by decide, ?_⟩
  · exact (validateDoubleSign_cant_handle_evidence paramsS3 stateS3 (addrOf 2).bytes 40
      9970000000000 100 (Or.inl (by decide))).2
  · exact (validateDoubleSign_cant_handle_evidence paramsS3 stateS3Unbonded (addrOf 1).bytes 40
      9970000000000 100 (Or.inr ⟨{ validatorS3 with Status := BondStatus.Unbonded },
        by decide, by decide⟩)).2


theorem getValidator_nil (st : State) : GetValidator st [] = none :=
  findValidator_nil st.validators

theorem getValidator_of_validators_eq {st t : State} (h : t.validators = st.validators)
    (a : Address) : GetValidator t a = GetValidator st a := by
  simp [GetValidator, h]

theorem setValidatorMissedAt_frame (st : State) (a : Address) (i : Int) (b : Bool) :
    (SetValidatorMissedAt st a i b).validators = st.validators ∧
    (SetValidatorMissedAt st a i b).stakedPool = st.stakedPool ∧
    (SetValidatorMissedAt st a i b).events = st.events := by
  unfold SetValidatorMissedAt
  split
  · split <;> exact ⟨rfl, rfl, rfl⟩
  · exact ⟨rfl, rfl, rfl⟩

theorem handleDoubleSign_tombstoned {k : Params} {st st' : State} {addr : Address}
    {v : Validator} {info : ValidatorSigningInfo} {infractionHeight timestamp power : Int}
    (hfound : GetValidator st addr = some v)
    (hinfo : GetValidatorSigningInfo st addr = some info) (htomb : info.Tombstoned = true)
    (h : handleDoubleSign k st addr infractionHeight timestamp power = .ok st') :
    st' = st ∨ st' = EmitEvent st (Event.Slash [] power SlashReason.DoubleSign none) := by
  unfold handleDoubleSign at h
  by_cases hun : v.IsUnstaked = true
  · have hv : validateDoubleSign k st addr infractionHeight timestamp
        = .ok { DoubleSignResult.zero with err := some SdkError.ErrCantHandleEvidence } := by
      simp [validateDoubleSign, hfound, hun]
    rw [hv] at h
    cases h
    exact Or.inl rfl
  · by_cases hage : k.MaxEvidenceAge < timeSub st.blockTime timestamp
    · have hv : validateDoubleSign k st addr infractionHeight timestamp
          = .ok DoubleSignResult.zero := by
        simp [validateDoubleSign, hfound, hun, hage]
      rw [hv] at h
      simp only [DoubleSignResult.zero] at h
      unfold slash validateSlash at h
      rw [getValidator_nil] at h
      split at h
      · cases h
      · cases h
        exact Or.inr rfl
      · rename_i w hw
        split at hw
        · cases hw
        · split at hw
          · cases hw
          · cases hw
    · have hv : validateDoubleSign k st addr infractionHeight timestamp
          = .ok { DoubleSignResult.zero with
                  signInfo := info, err := some SdkError.ErrValidatorTombstoned } := by
        simp [validateDoubleSign, hfound, hun, hage, hinfo, htomb]
      rw [hv] at h
      cases h
      exact Or.inl rfl

theorem handleValidatorSignature_jailed {k : Params} {st st' : State} {addr : Address}
    {v : Validator} {power : Int} {signed : Bool}
    (hfound : GetValidator st addr = some v) (hjailed : v.Jailed = true)
    (h : handleValidatorSignature k st addr power signed = .ok st') :
    st'.validators = st.validators ∧ st'.stakedPool = st.stakedPool ∧
    (st'.events = st.events ∨ ∃ m ht, st'.events = st.events ++ [Event.Liveness addr m ht]) := by
  unfold handleValidatorSignature at h
  simp only [hfound] at h
  split at h
  · cases h
  · rename_i info hinfo
    split at h
    · cases h
    · generalize hupd : (if (!valMissedAt st addr (Int.tmod info.IndexOffset k.SignedBlocksWindow)
          && !signed) = true then
            (SetValidatorMissedAt st addr (Int.tmod info.IndexOffset k.SignedBlocksWindow) true,
              ({ info with IndexOffset := info.IndexOffset + 1,
                           MissedBlocksCounter := info.MissedBlocksCounter + 1 } :
                ValidatorSigningInfo))
          else if (valMissedAt st addr (Int.tmod info.IndexOffset k.SignedBlocksWindow)
              && !!signed) = true then
            (SetValidatorMissedAt st addr (Int.tmod info.IndexOffset k.SignedBlocksWindow) false,
              { info with IndexOffset := info.IndexOffset + 1,
                          MissedBlocksCounter := info.MissedBlocksCounter - 1 })
          else (st, { info with IndexOffset := info.IndexOffset + 1 })) = upd at h
      have hframe : upd.1.validators = st.validators ∧ upd.1.stakedPool = st.stakedPool ∧
          upd.1.events = st.events := by
        rw [← hupd]
        split
        · exact setValidatorMissedAt_frame _ _ _ _
        · split
          · exact setValidatorMissedAt_frame _ _ _ _
          · exact ⟨rfl, rfl, rfl⟩
      generalize hst1 : (if (!signed) = true then
          EmitEvent upd.1 (Event.Liveness addr upd.2.MissedBlocksCounter st.blockHeight)
          else upd.1) = st1 at h
      have hframe1 : st1.validators = st.validators ∧ st1.stakedPool = st.stakedPool ∧
          (st1.events = st.events ∨ ∃ m ht, st1.events = st.events ++ [Event.Liveness addr m ht]) := by
        rw [← hst1]
        split
        · refine ⟨hframe.1, hframe.2.1, Or.inr ⟨upd.2.MissedBlocksCounter, st.blockHeight, ?_⟩⟩
          simp [EmitEvent, hframe.2.2]
        · exact ⟨hframe.1, hframe.2.1, Or.inl hframe.2.2⟩
      have hget : GetValidator st1 addr = some v := by
        rw [getValidator_of_validators_eq hframe1.1, hfound]
      rw [hget] at h
      simp only [Validator.IsJailed, hjailed] at h
      split at h
      · simp at h
        cases h
        exact hframe1
      · cases h
        exact hframe1


/-- C7, as stated, fails: the signing info of V1 is tombstoned, yet (1) a
simpleSlash of 1,000,000, the step that burnValidators applies to a queued
burn, reduces the stake of V1 from 100,000,000 to 99,000,000, and (2) in
scenario S2 at block 101 handleValidatorSignature, for V1 not jailed and
absent for the whole window, emits a slash event for V1 with reason
missing_signature and reduces its stake to 99,000,000. -/
theorem tombstoned_validator_is_slashed :
    (GetValidatorSigningInfo stateS3Tombstoned (addrOf 1).bytes).map (fun i => i.Tombstoned)
      = some true ∧
    (GetValidator stateS3Tombstoned (addrOf 1).bytes).map (fun x => x.StakedTokens)
      = some 100000000 ∧
    (simpleSlash paramsS3 stateS3Tombstoned (addrOf 1).bytes 1000000).map
        (fun s => (GetValidator s (addrOf 1).bytes).map (fun x => x.StakedTokens))
      = .ok (some 99000000) ∧
    (GetValidatorSigningInfo stateS2Tombstoned (addrOf 1).bytes).map (fun i => i.Tombstoned)
      = some true ∧
    (GetValidator stateS2Tombstoned (addrOf 1).bytes).map (fun x => x.StakedTokens)
      = some 100000000 ∧
    (handleValidatorSignature paramsS3 stateS2Tombstoned (addrOf 1).bytes 100 false).map
        (fun s => ((GetValidator s (addrOf 1).bytes).map (fun x => x.StakedTokens), s.events))
      = .ok (some 99000000,
          [Event.Liveness (addrOf 1).bytes 100 101,
           Event.Slash (addrOf 1).bytes 100 SlashReason.MissingSignature (some (addrOf 1).bytes)]) := by
  decide

/-- C7, amended: for every validator whose signing info has Tombstoned = true,
handleDoubleSign on evidence against it, whenever it returns, leaves its
record (hence its staked tokens) and the staked pool unchanged and emits no
slash event for it; and when the validator is also jailed,
handleValidatorSignature for it, whenever it returns, leaves its record and
the staked pool unchanged and emits no slash event for it. -/
theorem tombstoned_validator_not_slashed_again (k : Params) (st : State) (addr : Address)
    (v : Validator) (info : ValidatorSigningInfo)
    (hfound : GetValidator st addr = some v)
    (hinfo : GetValidatorSigningInfo st addr = some info) (htomb : info.Tombstoned = true) :
    (∀ (infractionHeight timestamp power : Int) (st' : State),
      handleDoubleSign k st addr infractionHeight timestamp power = .ok st' →
      GetValidator st' addr = some v ∧ st'.stakedPool = st.stakedPool ∧
      ∃ es, st'.events = st.events ++ es ∧
        ∀ (pw : Int) (r : SlashReason) (j : Option Address), Event.Slash addr pw r j ∉ es) ∧
    (v.Jailed = true → ∀ (power : Int) (signed : Bool) (st' : State),
      handleValidatorSignature k st addr power signed = .ok st' →
      GetValidator st' addr = some v ∧ st'.stakedPool = st.stakedPool ∧
      ∃ es, st'.events = st.events ++ es ∧
        ∀ (pw : Int) (r : SlashReason) (j : Option Address), Event.Slash addr pw r j ∉ es) := by
  have hne : addr ≠ [] := by
    intro hnil
    rw [hnil, getValidator_nil] at hfound
    cases hfound
  constructor
  · intro infractionHeight timestamp power st' h
    rcases handleDoubleSign_tombstoned hfound hinfo htomb h with hst | hst
    · subst hst
      exact ⟨hfound, rfl, [], by simp, by simp⟩
    · subst hst
      refine ⟨hfound, rfl, [Event.Slash [] power SlashReason.DoubleSign none], rfl, ?_⟩
      intro pw r j hmem
      simp at hmem
      exact hne hmem.1
  · intro hjailed power signed st' h
    have hf := handleValidatorSignature_jailed hfound hjailed h
    refine ⟨?_, hf.2.1, ?_⟩
    · rw [getValidator_of_validators_eq hf.1, hfound]
    · rcases hf.2.2 with he | ⟨m, ht, he⟩
      · exact ⟨[], by simp [he], by simp⟩
      · exact ⟨[Event.Liveness addr m ht], he, by simp⟩

/-- Witness of C7 (amended) on scenario S3 with V1 jailed and tombstoned, at
block 101 after a fully missed window: the evidence of age 30 s is rejected
and the missed signature is recorded without a slash; V1 keeps its
100,000,000 tokens. -/
theorem tombstoned_validator_not_slashed_again_witness :
    (∃ st', handleDoubleSign paramsS3 stateS3JailedTombstoned (addrOf 1).bytes 40 9970000000000 100
        = .ok st' ∧
      GetValidator st' (addrOf 1).bytes = some { validatorS3 with Jailed := true } ∧
      st'.stakedPool = 100000000) ∧
    (∃ st', handleValidatorSignature paramsS3 stateS3JailedTombstoned (addrOf 1).bytes 100 false
        = .ok st' ∧
      GetValidator st' (addrOf 1).bytes = some { validatorS3 with Jailed := true } ∧
      st'.stakedPool = 100000000) := by
  have h := tombstoned_validator_not_slashed_again paramsS3 stateS3JailedTombstoned (addrOf 1).bytes
    { validatorS3 with Jailed := true }
    { signingInfoS3 with Tombstoned := true, IndexOffset := 100, MissedBlocksCounter := 100 }
    (by decide) (by decide) (by decide)
  constructor
  · cases hr : handleDoubleSign paramsS3 stateS3JailedTombstoned (addrOf 1).bytes 40
        9970000000000 100 with
    | error e =>
      have hok : (handleDoubleSign paramsS3 stateS3JailedTombstoned (addrOf 1).bytes 40
        9970000000000 100).toBool = true := by decide
      rw [hr] at hok
      cases hok
    | ok st' =>
      have h1 := h.1 40 9970000000000 100 st' hr
      exact ⟨st', rfl, h1.1, h1.2.1⟩
  · cases hr : handleValidatorSignature paramsS3 stateS3JailedTombstoned (addrOf 1).bytes 100
        false with
    | error e =>
      have hok : (handleValidatorSignature paramsS3 stateS3JailedTombstoned (addrOf 1).bytes 100
        false).toBool = true := by decide
      rw [hr] at hok
      cases hok
    | ok st' =>
      have h1 := h.2 (by decide) 100 false st' hr
      exact ⟨st', rfl, h1.1, h1.2.1⟩


theorem signatureUpdate_frame (k : Params) (st : State) (addr : Address)
    (info : ValidatorSigningInfo) (signed : Bool) :
    (signatureUpdate k st addr info signed).1.validators = st.validators ∧
    (signatureUpdate k st addr info signed).1.stakedPool = st.stakedPool ∧
    (signatureUpdate k st addr info signed).1.signingInfos = st.signingInfos ∧
    (signatureUpdate k st addr info signed).1.blockHeight = st.blockHeight ∧
    (signatureUpdate k st addr info signed).1.blockTime = st.blockTime := by
  have hset : ∀ (i : Int) (b : Bool),
      (SetValidatorMissedAt st addr i b).validators = st.validators ∧
      (SetValidatorMissedAt st addr i b).stakedPool = st.stakedPool ∧
      (SetValidatorMissedAt st addr i b).signingInfos = st.signingInfos ∧
      (SetValidatorMissedAt st addr i b).blockHeight = st.blockHeight ∧
      (SetValidatorMissedAt st addr i b).blockTime = st.blockTime := by
    intro i b
    unfold SetValidatorMissedAt
    split
    · split <;> exact ⟨rfl, rfl, rfl, rfl, rfl⟩
    · exact ⟨rfl, rfl, rfl, rfl, rfl⟩
  unfold signatureUpdate
  simp only
  split <;> split <;> (try split) <;> simp [EmitEvent, hset]

theorem handleValidatorSignature_unfold (k : Params) (st : State) (addr : Address) (power : Int)
    (signed : Bool) :
    handleValidatorSignature k st addr power signed =
      match GetValidator st addr with
      | none => .error Panic.ValidatorNotFound
      | some _ =>
        match GetValidatorSigningInfo st addr with
        | none => .error Panic.SigningInfoNotFound
        | some info =>
          if k.SignedBlocksWindow = 0 then .error Panic.DivideByZero
          else if (signatureUpdate k st addr info signed).2.StartHeight + k.SignedBlocksWindow
                < st.blockHeight ∧
              k.SignedBlocksWindow - MinSignedPerWindow k
                < (signatureUpdate k st addr info signed).2.MissedBlocksCounter then
            match GetValidator (signatureUpdate k st addr info signed).1 addr with
            | some validator =>
              if !validator.IsJailed then
                downtimeSlash k st.blockHeight (signatureUpdate k st addr info signed).1 addr power
                  (signatureUpdate k st addr info signed).2
              else .ok (SetValidatorSigningInfo (signatureUpdate k st addr info signed).1 addr
                (signatureUpdate k st addr info signed).2)
            | none => .ok (SetValidatorSigningInfo (signatureUpdate k st addr info signed).1 addr
                (signatureUpdate k st addr info signed).2)
          else .ok (SetValidatorSigningInfo (signatureUpdate k st addr info signed).1 addr
                (signatureUpdate k st addr info signed).2) := by
  rfl

theorem handleValidatorSignature_eq (k : Params) (st : State) (addr : Address) (power : Int)
    (signed : Bool) (v : Validator) (info : ValidatorSigningInfo)
    (hfound : GetValidator st addr = some v)
    (hinfo : GetValidatorSigningInfo st addr = some info) (hW : k.SignedBlocksWindow ≠ 0) :
    handleValidatorSignature k st addr power signed =
      if ((signatureUpdate k st addr info signed).2.StartHeight + k.SignedBlocksWindow < st.blockHeight ∧
          k.SignedBlocksWindow - MinSignedPerWindow k
            < (signatureUpdate k st addr info signed).2.MissedBlocksCounter) ∧ v.Jailed = false then
        downtimeSlash k st.blockHeight (signatureUpdate k st addr info signed).1 addr power
          (signatureUpdate k st addr info signed).2
      else .ok (SetValidatorSigningInfo (signatureUpdate k st addr info signed).1 addr
        (signatureUpdate k st addr info signed).2) := by
  have hfr := signatureUpdate_frame k st addr info signed
  have hget : GetValidator (signatureUpdate k st addr info signed).1 addr = some v := by
    rw [getValidator_of_validators_eq hfr.1, hfound]
  rw [handleValidatorSignature_unfold]
  simp only [hfound, hinfo, hW, if_false, hget, Validator.IsJailed]
  by_cases hc : (signatureUpdate k st addr info signed).2.StartHeight + k.SignedBlocksWindow
        < st.blockHeight ∧
      k.SignedBlocksWindow - MinSignedPerWindow k
        < (signatureUpdate k st addr info signed).2.MissedBlocksCounter
  · by_cases hj : v.Jailed = false
    · simp [hc, hj]
    · have hj2 : v.Jailed = true := by simpa using hj
      simp [hc, hj2]
  · simp [hc]


theorem kvGet_kvSet_same {α : Type} (l : List (Address × α)) (key : Address) (x : α) :
    kvGet (kvSet l key x) key = some x := by
  induction l with
  | nil => simp [kvSet, kvGet]
  | cons p rest ih =>
    obtain ⟨k0, y⟩ := p
    unfold kvSet
    split
    · simp [kvGet]
    · split
      · simp [kvGet]
      · simp [kvGet, *]

theorem kvGet_kvSet_other {α : Type} (l : List (Address × α)) (key : Address) (x : α)
    (a : Address) (h : a ≠ key) : kvGet (kvSet l key x) a = kvGet l a := by
  induction l with
  | nil => simp [kvSet, kvGet, Ne.symm h]
  | cons p rest ih =>
    obtain ⟨k0, y⟩ := p
    unfold kvSet
    split
    · rename_i hk
      have hka : k0 ≠ a := by rw [hk]; exact Ne.symm h
      simp [kvGet, hka, Ne.symm h]
    · split
      · simp [kvGet, Ne.symm h]
      · simp [kvGet, ih]

theorem burnStakedTokens_frame {st st1 : State} {amt : Int}
    (h : burnStakedTokens st amt = .ok st1) :
    st1 = { st with stakedPool := st.stakedPool - amt } := by
  unfold burnStakedTokens at h
  split at h
  · cases h; rfl
  · cases h

theorem forceValidatorUnstake_frame {st st3 : State} {v : Validator}
    (h : ForceValidatorUnstake st v = .ok st3) :
    st3.missed = st.missed ∧ st3.events = st.events ∧ st3.blockHeight = st.blockHeight ∧
    st3.blockTime = st.blockTime ∧
    (∀ a, a ≠ v.Address.bytes → kvGet st3.signingInfos a = kvGet st.signingInfos a) := by
  unfold ForceValidatorUnstake at h
  split at h
  · cases h
  · rename_i st1 hb
    have hst1 := burnStakedTokens_frame hb
    subst hst1
    simp only at h
    split at h
    · cases h
      exact ⟨rfl, rfl, rfl, rfl, fun _ _ => rfl⟩
    · cases h
      refine ⟨rfl, rfl, rfl, rfl, ?_⟩
      intro a ha
      simp only [SetValidatorSigningInfo, SetValidator]
      exact kvGet_kvSet_other _ _ _ a ha

theorem applyBurn_frame {k : Params} {st st' : State} {v : Validator} {burn : Int}
    (h : applyBurn k st v burn = .ok st') :
    st'.missed = st.missed ∧ st'.events = st.events ∧ st'.blockHeight = st.blockHeight ∧
    st'.blockTime = st.blockTime ∧
    (∀ a, a ≠ v.Address.bytes → kvGet st'.signingInfos a = kvGet st.signingInfos a) := by
  unfold applyBurn at h
  simp only at h
  split at h
  · cases h
  · rename_i st2 hb
    have hst2 := burnStakedTokens_frame hb
    subst hst2
    split at h
    · split at h
      · cases h
      · rename_i st3 hf
        cases h
        have hfr := forceValidatorUnstake_frame hf
        exact ⟨hfr.1, hfr.2.1, hfr.2.2.1, hfr.2.2.2.1, fun a ha => hfr.2.2.2.2 a ha⟩
    · cases h
      exact ⟨rfl, rfl, rfl, rfl, fun _ _ => rfl⟩

theorem slash_cases {k : Params} {st st' : State} {addr : Address} {h p : Int} {f : Dec}
    (hs : slash k st addr h p f = .ok st') :
    (GetValidator st addr = none ∧ st' = st) ∨
    ∃ v burn, GetValidator st addr = some v ∧ v.Address.bytes = addr ∧
      applyBurn k st v burn = .ok st' := by
  unfold slash at hs
  split at hs
  · cases hs
  · rename_i hv
    cases hs
    left
    refine ⟨?_, rfl⟩
    unfold validateSlash at hv
    split at hv
    · cases hv
    · split at hv
      · cases hv
      · split at hv
        · assumption
        · cases hv
  · rename_i v hv
    right
    have hfound := validateSlash_some hv
    exact ⟨v, _, hfound, findValidator_address hfound, hs⟩

theorem getValidator_of_put {st' : State} {vs : List Validator} {w : Validator}
    (h : st'.validators = putValidator vs w) : GetValidator st' w.Address.bytes = some w := by
  simp only [GetValidator, h]
  exact findValidator_put_same vs w

theorem slash_frame {k : Params} {st st' : State} {addr : Address} {h p : Int} {f : Dec}
    (hs : slash k st addr h p f = .ok st') :
    st'.missed = st.missed ∧ st'.events = st.events ∧ st'.blockHeight = st.blockHeight ∧
    st'.blockTime = st.blockTime ∧
    (∀ a, a ≠ addr → kvGet st'.signingInfos a = kvGet st.signingInfos a) ∧
    (∀ a, a ≠ addr → GetValidator st' a = GetValidator st a) ∧
    (∀ v, GetValidator st addr = some v → ∃ v', GetValidator st' addr = some v') := by
  rcases slash_cases hs with ⟨_, hst⟩ | ⟨v, burn, hfound, haddr, hab⟩
  · subst hst
    exact ⟨rfl, rfl, rfl, rfl, fun _ _ => rfl, fun _ _ => rfl, fun v hv => ⟨v, hv⟩⟩
  · have hfr := applyBurn_frame hab
    rw [haddr] at hfr
    refine ⟨hfr.1, hfr.2.1, hfr.2.2.1, hfr.2.2.2.1, hfr.2.2.2.2, ?_, ?_⟩
    · intro a ha
      have ha2 : a ≠ v.Address.bytes := by rw [haddr]; exact ha
      have h1 := findValidator_put_other st.validators
        { v with StakedTokens := v.StakedTokens - burn } a ha2
      have h2 := findValidator_put_other
        (putValidator st.validators { v with StakedTokens := v.StakedTokens - burn })
        { v with StakedTokens := 0, Status := BondStatus.Unbonded, UnstakingCompletionTime := 0 } a ha2
      rcases applyBurn_validators hab with hv | hv
      · simp only [GetValidator, hv]
        exact h1
      · simp only [GetValidator, hv]
        rw [h2, h1]
    · intro _ _
      rcases applyBurn_validators hab with hv | hv
      · have h3 := getValidator_of_put hv
        rw [haddr] at h3
        exact ⟨_, h3⟩
      · have h3 := getValidator_of_put hv
        rw [haddr] at h3
        exact ⟨_, h3⟩


theorem valMissedAt_set (st : State) (a : Address) (i : Int) (b : Bool) (a' : Address) (i' : Int) :
    valMissedAt (SetValidatorMissedAt st a i b) a' i'
      = if a' = a ∧ i' = i then b else valMissedAt st a' i' := by
  unfold SetValidatorMissedAt valMissedAt
  by_cases hb : b = true
  · subst hb
    by_cases hm : (a, i) ∈ st.missed
    · by_cases he : a' = a ∧ i' = i
      · obtain ⟨h1, h2⟩ := he
        subst h1 h2
        simp [hm]
      · simp [hm, he]
    · by_cases he : a' = a ∧ i' = i
      · obtain ⟨h1, h2⟩ := he
        subst h1 h2
        simp [hm]
      · simp only [hm, if_true, if_false, he, List.mem_cons, Prod.mk.injEq]
        simp [he]
  · have hb2 : b = false := by simpa using hb
    subst hb2
    by_cases he : a' = a ∧ i' = i
    · obtain ⟨h1, h2⟩ := he
      subst h1 h2
      simp [List.mem_filter]
    · have hne : ¬ ((a', i') = (a, i)) := by
        intro h
        exact he (by simpa using h)
      simp [List.mem_filter, he]

theorem valMissedAt_clear (st : State) (a : Address) (a' : Address) (i' : Int) :
    valMissedAt (clearValidatorMissed st a) a' i'
      = if a' = a then false else valMissedAt st a' i' := by
  unfold clearValidatorMissed valMissedAt
  by_cases he : a' = a
  · subst he
    simp [List.mem_filter]
  · simp [List.mem_filter, he]

theorem valMissedAt_of_missed_eq {st t : State} (h : t.missed = st.missed) (a : Address)
    (i : Int) : valMissedAt t a i = valMissedAt st a i := by
  simp [valMissedAt, h]

theorem jailValidator_frame (st : State) (a : Address) :
    (JailValidator st a).missed = st.missed ∧ (JailValidator st a).events = st.events ∧
    (JailValidator st a).signingInfos = st.signingInfos ∧
    (JailValidator st a).blockTime = st.blockTime ∧
    (JailValidator st a).stakedPool = st.stakedPool ∧
    (∀ v, GetValidator st a = some v →
      GetValidator (JailValidator st a) a = some { v with Jailed := true }) ∧
    (∀ b, b ≠ a → GetValidator (JailValidator st a) b = GetValidator st b) := by
  unfold JailValidator
  cases hg : GetValidator st a with
  | none =>
    refine ⟨rfl, rfl, rfl, rfl, rfl, ?_, fun _ _ => rfl⟩
    intro v hv
    cases hv
  | some w =>
    have hwa : w.Address.bytes = a := findValidator_address hg
    refine ⟨rfl, rfl, rfl, rfl, rfl, ?_, ?_⟩
    · intro v hv
      cases hv
      have := findValidator_put_same st.validators { w with Jailed := true }
      simpa [GetValidator, SetValidator, hwa] using this
    · intro b hb
      have := findValidator_put_other st.validators { w with Jailed := true } b
        (by rw [hwa]; exact hb)
      simpa [GetValidator, SetValidator] using this

theorem downtimeSlash_result {k : Params} {height : Int} {st1 st' : State} {addr : Address}
    {power : Int} {si : ValidatorSigningInfo} {v : Validator}
    (hfound : GetValidator st1 addr = some v)
    (hd : downtimeSlash k height st1 addr power si = .ok st') :
    GetValidatorSigningInfo st' addr = some { si with
      JailedUntil := st1.blockTime + k.DowntimeJailDuration
      MissedBlocksCounter := 0
      IndexOffset := 0 } ∧
    (∀ i, valMissedAt st' addr i = false) ∧
    (∀ a, a ≠ addr → ∀ i, valMissedAt st' a i = valMissedAt st1 a i) ∧
    (∀ a, a ≠ addr → GetValidatorSigningInfo st' a = GetValidatorSigningInfo st1 a) ∧
    (∃ v', GetValidator st' addr = some v' ∧ v'.Jailed = true) ∧
    (∀ a, a ≠ addr → GetValidator st' a = GetValidator st1 a) ∧
    st'.events = st1.events ++ [Event.Slash addr power SlashReason.MissingSignature (some addr)] := by
  unfold downtimeSlash at hd
  split at hd
  · cases hd
  · rename_i st3 hs
    cases hd
    have hfr := slash_frame hs
    have hj := jailValidator_frame st3 addr
    have hfound2 : GetValidator
        (EmitEvent st1 (Event.Slash addr power SlashReason.MissingSignature (some addr))) addr
          = some v := hfound
    obtain ⟨v3, hv3⟩ := hfr.2.2.2.2.2.2 v hfound2
    refine ⟨?_, ?_, ?_, ?_, ?_, ?_, ?_⟩
    · simp only [GetValidatorSigningInfo, SetValidatorSigningInfo]
      rw [kvGet_kvSet_same, hj.2.2.2.1, hfr.2.2.2.1]
      rfl
    · intro i
      show valMissedAt (clearValidatorMissed (JailValidator st3 addr) addr) addr i = false
      rw [valMissedAt_clear]
      simp
    · intro a ha i
      show valMissedAt (clearValidatorMissed (JailValidator st3 addr) addr) a i = _
      rw [valMissedAt_clear, if_neg ha, valMissedAt_of_missed_eq hj.1,
        valMissedAt_of_missed_eq hfr.1]
      rfl
    · intro a ha
      simp only [GetValidatorSigningInfo, SetValidatorSigningInfo]
      rw [kvGet_kvSet_other _ _ _ a ha]
      show kvGet (JailValidator st3 addr).signingInfos a = _
      rw [hj.2.2.1, hfr.2.2.2.2.1 a ha]
      rfl
    · refine ⟨{ v3 with Jailed := true }, ?_, rfl⟩
      have := hj.2.2.2.2.2.1 v3 hv3
      exact this
    · intro a ha
      have h1 := hj.2.2.2.2.2.2 a ha
      have h2 := hfr.2.2.2.2.2.1 a ha
      show GetValidator (JailValidator st3 addr) a = _
      rw [h1, h2]
      rfl
    · show (JailValidator st3 addr).events = _
      rw [hj.2.1, hfr.2.1]
      rfl


theorem validateDoubleSign_valid {k : Params} {st : State} {addr : Address} {v : Validator}
    {info : ValidatorSigningInfo} (infractionHeight : Int) {timestamp : Int}
    (hfound : GetValidator st addr = some v) (hstatus : v.Status ≠ BondStatus.Unbonded)
    (hinfo : GetValidatorSigningInfo st addr = some info) (htomb : info.Tombstoned = false)
    (hage : timeSub st.blockTime timestamp ≤ k.MaxEvidenceAge) :
    validateDoubleSign k st addr infractionHeight timestamp
      = .ok { address := addr, signInfo := info, validator := some v, err := none } := by
  have hage2 : ¬ (k.MaxEvidenceAge < timeSub st.blockTime timestamp) := by omega
  simp [validateDoubleSign, hfound, Validator.IsUnstaked, hstatus, hage2, hinfo, htomb]

/-- C11: for evidence against a validator that is found and not Unbonded, of
age <= MaxEvidenceAge, whose signing info is tombstoned, validateDoubleSign
returns ErrValidatorTombstoned (with the signing info it has read) and
handleDoubleSign returns the state unchanged: staked tokens, pool balance and
signing infos are as before and no event is emitted. -/
theorem validateDoubleSign_rejects_tombstoned (k : Params) (st : State) (addr : Address)
    (v : Validator) (info : ValidatorSigningInfo) (infractionHeight timestamp power : Int)
    (hfound : GetValidator st addr = some v) (hstatus : v.Status ≠ BondStatus.Unbonded)
    (hage : timeSub st.blockTime timestamp ≤ k.MaxEvidenceAge)
    (hinfo : GetValidatorSigningInfo st addr = some info) (htomb : info.Tombstoned = true) :
    validateDoubleSign k st addr infractionHeight timestamp
      = .ok { address := [], signInfo := info, validator := none,
              err := some SdkError.ErrValidatorTombstoned } ∧
    handleDoubleSign k st addr infractionHeight timestamp power = .ok st := by
  have hage2 : ¬ (k.MaxEvidenceAge < timeSub st.blockTime timestamp) := by omega
  have hv : validateDoubleSign k st addr infractionHeight timestamp
      = .ok { address := [], signInfo := info, validator := none,
              err := some SdkError.ErrValidatorTombstoned } := by
    simp [validateDoubleSign, hfound, Validator.IsUnstaked, hstatus, hage2, hinfo, htomb,
      DoubleSignResult.zero]
  refine ⟨hv, ?_⟩
  unfold handleDoubleSign
  rw [hv]

/-- Witness of C11 on scenario S3 with the signing info of V1 tombstoned:
the evidence of age 30 s is rejected and the state is returned unchanged. -/
theorem validateDoubleSign_rejects_tombstoned_witness :
    timeSub stateS3Tombstoned.blockTime 9970000000000 ≤ paramsS3.MaxEvidenceAge ∧
    (validateDoubleSign paramsS3 stateS3Tombstoned (addrOf 1).bytes 40 9970000000000).map
        (fun r => r.err) = .ok (some SdkError.ErrValidatorTombstoned) ∧
    handleDoubleSign paramsS3 stateS3Tombstoned (addrOf 1).bytes 40 9970000000000 100
      = .ok stateS3Tombstoned := by
  have h := validateDoubleSign_rejects_tombstoned paramsS3 stateS3Tombstoned (addrOf 1).bytes
    validatorS3 { signingInfoS3 with Tombstoned := true } 40 9970000000000 100
    (by decide) (by decide) (by decide) (by decide) (by decide)
  refine ⟨by decide, ?_, h.2⟩
  rw [h.1]
  rfl

/-- C12, as stated, fails: in scenario S3 at block 50, evidence of age 30 s
with infraction height 60 makes handleDoubleSign panic (the future-infraction
panic of validateSlash) instead of returning, and evidence with infraction
height 51, also above the block height, is handled as valid: V1 is slashed by
5,000,000 and the slash event is emitted. -/
theorem handleDoubleSign_future_infraction_panics_or_slashes :
    stateS3.blockHeight = 50 ∧
    handleDoubleSign paramsS3 stateS3 (addrOf 1).bytes 60 9970000000000 100
      = .error Panic.FutureInfraction ∧
    handleDoubleSign paramsS3 stateS3 (addrOf 1).bytes 51 9970000000000 100
      = .ok (deducted (EmitEvent stateS3 slashEventS3) validatorS3 5000000) := by
  decide

/-- C12, amended: for evidence that passes validateDoubleSign (validator found
and not Unbonded, age <= MaxEvidenceAge, signing info not tombstoned) with a
non-negative SlashFractionDoubleSign: when the infraction height minus
ValidatorUpdateDelay is greater than the block height, handleDoubleSign does
not return, it panics with the future-infraction panic of validateSlash; when
the infraction height minus ValidatorUpdateDelay is at most the block height
(also if the infraction height itself is above the block height), it emits the
slash event and slashes the validator. -/
theorem handleDoubleSign_future_infraction (k : Params) (st : State) (addr : Address)
    (v : Validator) (info : ValidatorSigningInfo) (infractionHeight timestamp power : Int)
    (hfound : GetValidator st addr = some v) (hstatus : v.Status ≠ BondStatus.Unbonded)
    (hage : timeSub st.blockTime timestamp ≤ k.MaxEvidenceAge)
    (hinfo : GetValidatorSigningInfo st addr = some info) (htomb : info.Tombstoned = false)
    (hf : 0 ≤ k.SlashFractionDoubleSign.raw) :
    (st.blockHeight < infractionHeight - k.ValidatorUpdateDelay →
      handleDoubleSign k st addr infractionHeight timestamp power
        = .error Panic.FutureInfraction) ∧
    (infractionHeight - k.ValidatorUpdateDelay ≤ st.blockHeight →
      handleDoubleSign k st addr infractionHeight timestamp power
        = applyBurn k (EmitEvent st (Event.Slash addr power SlashReason.DoubleSign none)) v
            (max (min (Int.tdiv (power * 1000000 * k.SlashFractionDoubleSign.raw)
              1000000000000000000) v.StakedTokens) 0)) := by
  have hv := validateDoubleSign_valid (k := k) infractionHeight hfound hstatus hinfo htomb hage
  have hh : handleDoubleSign k st addr infractionHeight timestamp power
      = slash k (EmitEvent st (Event.Slash addr power SlashReason.DoubleSign none)) addr
          (infractionHeight - k.ValidatorUpdateDelay) power k.SlashFractionDoubleSign := by
    unfold handleDoubleSign
    rw [hv]
  have hnf : ¬ (k.SlashFractionDoubleSign.raw < 0) := by omega
  constructor
  · intro hfut
    rw [hh]
    simp [slash, validateSlash, Dec.LT, ZeroDec, hnf, EmitEvent, hfut]
  · intro hpast
    rw [hh]
    exact slash_eq_applyBurn k _ addr _ power _ v hfound hf hpast

/-- Witness of C12 (amended) on scenario S3 at block 50: infraction height 60
panics, infraction height 51 slashes V1 by 5,000,000. -/
theorem handleDoubleSign_future_infraction_witness :
    handleDoubleSign paramsS3 stateS3 (addrOf 1).bytes 60 9970000000000 100
      = .error Panic.FutureInfraction ∧
    handleDoubleSign paramsS3 stateS3 (addrOf 1).bytes 51 9970000000000 100
      = applyBurn paramsS3 (EmitEvent stateS3 slashEventS3) validatorS3 5000000 := by
  have h60 := handleDoubleSign_future_infraction paramsS3 stateS3 (addrOf 1).bytes validatorS3
    signingInfoS3 60 9970000000000 100 (by decide) (by decide) (by decide) (by decide)
    (by decide) (by decide)
  have h51 := handleDoubleSign_future_infraction paramsS3 stateS3 (addrOf 1).bytes validatorS3
    signingInfoS3 51 9970000000000 100 (by decide) (by decide) (by decide) (by decide)
    (by decide) (by decide)
  exact ⟨h60.1 (by decide), h51.2 (by decide)⟩


theorem signatureUpdate_info (k : Params) (st : State) (addr : Address)
    (info : ValidatorSigningInfo) (signed : Bool) :
    (signatureUpdate k st addr info signed).2.Address = info.Address ∧
    (signatureUpdate k st addr info signed).2.StartHeight = info.StartHeight ∧
    (signatureUpdate k st addr info signed).2.JailedUntil = info.JailedUntil ∧
    (signatureUpdate k st addr info signed).2.Tombstoned = info.Tombstoned ∧
    (signatureUpdate k st addr info signed).2.IndexOffset = info.IndexOffset + 1 := by
  unfold signatureUpdate
  simp only
  split
  · exact ⟨rfl, rfl, rfl, rfl, rfl⟩
  · split <;> exact ⟨rfl, rfl, rfl, rfl, rfl⟩

theorem signatureUpdate_unset_missed (k : Params) (st : State) (addr : Address)
    (info : ValidatorSigningInfo)
    (hp : valMissedAt st addr (Int.tmod info.IndexOffset k.SignedBlocksWindow) = false) :
    signatureUpdate k st addr info false =
      (EmitEvent (SetValidatorMissedAt st addr (Int.tmod info.IndexOffset k.SignedBlocksWindow) true)
          (Event.Liveness addr (info.MissedBlocksCounter + 1) st.blockHeight),
        { info with IndexOffset := info.IndexOffset + 1,
                    MissedBlocksCounter := info.MissedBlocksCounter + 1 }) := by
  simp [signatureUpdate, hp]

theorem signatureUpdate_set_missed (k : Params) (st : State) (addr : Address)
    (info : ValidatorSigningInfo)
    (hp : valMissedAt st addr (Int.tmod info.IndexOffset k.SignedBlocksWindow) = true) :
    signatureUpdate k st addr info false =
      (EmitEvent st (Event.Liveness addr info.MissedBlocksCounter st.blockHeight),
        { info with IndexOffset := info.IndexOffset + 1 }) := by
  simp [signatureUpdate, hp]

theorem signatureUpdate_unset_signed (k : Params) (st : State) (addr : Address)
    (info : ValidatorSigningInfo)
    (hp : valMissedAt st addr (Int.tmod info.IndexOffset k.SignedBlocksWindow) = false) :
    signatureUpdate k st addr info true = (st, { info with IndexOffset := info.IndexOffset + 1 }) := by
  simp [signatureUpdate, hp]

theorem signatureUpdate_set_signed (k : Params) (st : State) (addr : Address)
    (info : ValidatorSigningInfo)
    (hp : valMissedAt st addr (Int.tmod info.IndexOffset k.SignedBlocksWindow) = true) :
    signatureUpdate k st addr info true =
      (SetValidatorMissedAt st addr (Int.tmod info.IndexOffset k.SignedBlocksWindow) false,
        { info with IndexOffset := info.IndexOffset + 1,
                    MissedBlocksCounter := info.MissedBlocksCounter - 1 }) := by
  simp [signatureUpdate, hp]

theorem signatureUpdate_events (k : Params) (st : State) (addr : Address)
    (info : ValidatorSigningInfo) (signed : Bool) :
    (signatureUpdate k st addr info signed).1.events
      = st.events ++ (if signed then [] else
          [Event.Liveness addr (signatureUpdate k st addr info signed).2.MissedBlocksCounter
            st.blockHeight]) := by
  have hset : ∀ (i : Int) (b : Bool), (SetValidatorMissedAt st addr i b).events = st.events :=
    fun i b => (setValidatorMissedAt_frame st addr i b).2.2
  cases hp : valMissedAt st addr (Int.tmod info.IndexOffset k.SignedBlocksWindow) <;>
    cases signed
  · rw [signatureUpdate_unset_missed k st addr info hp]
    simp [EmitEvent, hset]
  · rw [signatureUpdate_unset_signed k st addr info hp]
    simp
  · rw [signatureUpdate_set_missed k st addr info hp]
    simp [EmitEvent]
  · rw [signatureUpdate_set_signed k st addr info hp]
    simp [hset]

theorem signatureUpdate_step (k : Params) (st : State) (addr : Address)
    (info : ValidatorSigningInfo) (signed : Bool) :
    (valMissedAt st addr (Int.tmod info.IndexOffset k.SignedBlocksWindow) = false ∧ signed = false →
      (signatureUpdate k st addr info signed).2.MissedBlocksCounter = info.MissedBlocksCounter + 1 ∧
      valMissedAt (signatureUpdate k st addr info signed).1 addr
        (Int.tmod info.IndexOffset k.SignedBlocksWindow) = true) ∧
    (valMissedAt st addr (Int.tmod info.IndexOffset k.SignedBlocksWindow) = true ∧ signed = true →
      (signatureUpdate k st addr info signed).2.MissedBlocksCounter = info.MissedBlocksCounter - 1 ∧
      valMissedAt (signatureUpdate k st addr info signed).1 addr
        (Int.tmod info.IndexOffset k.SignedBlocksWindow) = false) ∧
    (¬ (valMissedAt st addr (Int.tmod info.IndexOffset k.SignedBlocksWindow) = false ∧
          signed = false) →
      ¬ (valMissedAt st addr (Int.tmod info.IndexOffset k.SignedBlocksWindow) = true ∧
          signed = true) →
      (signatureUpdate k st addr info signed).2.MissedBlocksCounter = info.MissedBlocksCounter ∧
      (signatureUpdate k st addr info signed).1.missed = st.missed) ∧
    (∀ (a : Address) (j : Int),
      ¬ (a = addr ∧ j = Int.tmod info.IndexOffset k.SignedBlocksWindow) →
      valMissedAt (signatureUpdate k st addr info signed).1 a j = valMissedAt st a j) := by
  have hemit : ∀ (t : State) (e : Event) (a : Address) (j : Int),
      valMissedAt (EmitEvent t e) a j = valMissedAt t a j := fun _ _ _ _ => rfl
  cases hp : valMissedAt st addr (Int.tmod info.IndexOffset k.SignedBlocksWindow) <;>
    cases signed
  · rw [signatureUpdate_unset_missed k st addr info hp]
    refine ⟨fun _ => ⟨rfl, ?_⟩, fun h => by simp at h, fun h => absurd ⟨rfl, rfl⟩ h, ?_⟩
    · rw [hemit, valMissedAt_set]; simp
    · intro a j hne
      rw [hemit, valMissedAt_set, if_neg hne]
  · rw [signatureUpdate_unset_signed k st addr info hp]
    exact ⟨fun h => by simp at h, fun h => by simp at h, fun _ _ => ⟨rfl, rfl⟩, fun _ _ _ => rfl⟩
  · rw [signatureUpdate_set_missed k st addr info hp]
    exact ⟨fun h => by simp at h, fun h => by simp at h, fun _ _ => ⟨rfl, rfl⟩, fun _ _ _ => rfl⟩
  · rw [signatureUpdate_set_signed k st addr info hp]
    refine ⟨fun h => by simp at h, fun _ => ⟨rfl, ?_⟩, fun _ h => absurd ⟨rfl, rfl⟩ h, ?_⟩
    · rw [valMissedAt_set]; simp
    · intro a j hne
      rw [valMissedAt_set, if_neg hne]


theorem slashEvents_append (l m : List Event) :
    slashEvents (l ++ m) = slashEvents l + slashEvents m := by
  simp [slashEvents, List.countP_append]

theorem signatureUpdate_slashEvents (k : Params) (st : State) (addr : Address)
    (info : ValidatorSigningInfo) (signed : Bool) :
    slashEvents (signatureUpdate k st addr info signed).1.events = slashEvents st.events := by
  rw [signatureUpdate_events, slashEvents_append]
  cases signed <;> simp [slashEvents, Event.isSlash]

/-- C13, as stated, fails: in scenario S2 at block 101 with V1 Unbonding (not
Bonded) and not jailed, handleValidatorSignature for the missed block applies
the downtime slash: it emits the slash event with reason missing_signature,
burns 1,000,000 of the 100,000,000 tokens of V1 and jails V1. -/
theorem downtime_slash_applied_to_unbonding_validator :
    (GetValidator stateS2Unbonding (addrOf 1).bytes).map (fun x => (x.Status, x.Jailed, x.StakedTokens))
      = some (BondStatus.Unbonding, false, 100000000) ∧
    (handleValidatorSignature paramsS3 stateS2Unbonding (addrOf 1).bytes 100 false).map
        (fun s => ((GetValidator s (addrOf 1).bytes).map
          (fun x => (x.Status, x.Jailed, x.StakedTokens)), s.events))
      = .ok (some (BondStatus.Unbonding, true, 99000000),
          [Event.Liveness (addrOf 1).bytes 100 101,
           Event.Slash (addrOf 1).bytes 100 SlashReason.MissingSignature (some (addrOf 1).bytes)]) := by
  decide

/-- C13, amended: handleValidatorSignature at height h, for a validator with a
record and a signing info and a non-zero window, applies the downtime slash
(slash event, slash with SlashFractionDowntime, then jail) if and only if, with
the missed counter taken after this block's update,
h > start_height + SignedBlocksWindow and missed_counter > max_missed and the
validator is not jailed, whatever its status. When the condition holds the
call is the downtime branch, and a call that returns has emitted one slash
event and left the validator jailed; otherwise the call stores the updated
signing info, emits no slash event and leaves the record and the pool as they
were. -/
theorem downtime_slash_iff_not_jailed (k : Params) (st : State) (addr : Address) (power : Int)
    (signed : Bool) (v : Validator) (info : ValidatorSigningInfo)
    (hfound : GetValidator st addr = some v)
    (hinfo : GetValidatorSigningInfo st addr = some info) (hW : k.SignedBlocksWindow ≠ 0) :
    (((signatureUpdate k st addr info signed).2.StartHeight + k.SignedBlocksWindow < st.blockHeight ∧
        k.SignedBlocksWindow - MinSignedPerWindow k
          < (signatureUpdate k st addr info signed).2.MissedBlocksCounter) ∧ v.Jailed = false →
      handleValidatorSignature k st addr power signed
        = downtimeSlash k st.blockHeight (signatureUpdate k st addr info signed).1 addr power
            (signatureUpdate k st addr info signed).2 ∧
      ∀ st', handleValidatorSignature k st addr power signed = .ok st' →
        slashEvents st'.events = slashEvents st.events + 1 ∧
        ∃ v', GetValidator st' addr = some v' ∧ v'.Jailed = true) ∧
    (¬ (((signatureUpdate k st addr info signed).2.StartHeight + k.SignedBlocksWindow
          < st.blockHeight ∧
        k.SignedBlocksWindow - MinSignedPerWindow k
          < (signatureUpdate k st addr info signed).2.MissedBlocksCounter) ∧ v.Jailed = false) →
      handleValidatorSignature k st addr power signed
        = .ok (SetValidatorSigningInfo (signatureUpdate k st addr info signed).1 addr
            (signatureUpdate k st addr info signed).2) ∧
      ∀ st', handleValidatorSignature k st addr power signed = .ok st' →
        slashEvents st'.events = slashEvents st.events ∧
        GetValidator st' addr = some v ∧ st'.stakedPool = st.stakedPool) := by
  have heq := handleValidatorSignature_eq k st addr power signed v info hfound hinfo hW
  have hfr := signatureUpdate_frame k st addr info signed
  have hget : GetValidator (signatureUpdate k st addr info signed).1 addr = some v := by
    rw [getValidator_of_validators_eq hfr.1, hfound]
  constructor
  · intro hc
    rw [if_pos hc] at heq
    refine ⟨heq, ?_⟩
    intro st' hok
    rw [heq] at hok
    have hr := downtimeSlash_result hget hok
    refine ⟨?_, hr.2.2.2.2.1⟩
    rw [hr.2.2.2.2.2.2, slashEvents_append, signatureUpdate_slashEvents]
    simp [slashEvents, Event.isSlash]
  · intro hc
    rw [if_neg hc] at heq
    refine ⟨heq, ?_⟩
    intro st' hok
    rw [heq] at hok
    cases hok
    refine ⟨signatureUpdate_slashEvents k st addr info signed, ?_, hfr.2.1⟩
    exact hget

/-- Witness of C13 (amended): in scenario S2 at block 101 the bonded, not
jailed V1 is slashed for downtime; with V1 jailed the same report only stores
the updated signing info. -/
theorem downtime_slash_iff_not_jailed_witness :
    (handleValidatorSignature paramsS3 stateS2 (addrOf 1).bytes 100 false
      = downtimeSlash paramsS3 101
          (signatureUpdate paramsS3 stateS2 (addrOf 1).bytes
            { signingInfoS3 with IndexOffset := 100, MissedBlocksCounter := 100 } false).1
          (addrOf 1).bytes 100
          (signatureUpdate paramsS3 stateS2 (addrOf 1).bytes
            { signingInfoS3 with IndexOffset := 100, MissedBlocksCounter := 100 } false).2) ∧
    (handleValidatorSignature paramsS3 stateS3JailedTombstoned (addrOf 1).bytes 100 false
      = .ok (SetValidatorSigningInfo
          (signatureUpdate paramsS3 stateS3JailedTombstoned (addrOf 1).bytes
            { signingInfoS3 with Tombstoned := true, IndexOffset := 100, MissedBlocksCounter := 100 }
            false).1
          (addrOf 1).bytes
          (signatureUpdate paramsS3 stateS3JailedTombstoned (addrOf 1).bytes
            { signingInfoS3 with Tombstoned := true, IndexOffset := 100, MissedBlocksCounter := 100 }
            false).2)) := by
  have h1 := downtime_slash_iff_not_jailed paramsS3 stateS2 (addrOf 1).bytes 100 false validatorS3
    { signingInfoS3 with IndexOffset := 100, MissedBlocksCounter := 100 }
    (by decide) (by decide) (by decide)
  have h2 := downtime_slash_iff_not_jailed paramsS3 stateS3JailedTombstoned (addrOf 1).bytes 100
    false { validatorS3 with Jailed := true }
    { signingInfoS3 with Tombstoned := true, IndexOffset := 100, MissedBlocksCounter := 100 }
    (by decide) (by decide) (by decide)
  exact ⟨(h1.1 (by decide)).1, (h2.2 (by decide)).1⟩

/-- C14: whenever handleValidatorSignature applies the downtime slash (window
passed, counter above max_missed, validator not jailed) and returns, the
signing info it stores is the previous one with JailedUntil = block time +
DowntimeJailDuration, MissedBlocksCounter = 0 and IndexOffset = 0 (so
StartHeight and Tombstoned are unchanged), every bit of the validator's
missed-block bitmap is clear, and the validator's record is jailed. -/
theorem downtime_slash_resets_signing_info (k : Params) (st st' : State) (addr : Address)
    (power : Int) (signed : Bool) (v : Validator) (info : ValidatorSigningInfo)
    (hfound : GetValidator st addr = some v)
    (hinfo : GetValidatorSigningInfo st addr = some info) (hW : k.SignedBlocksWindow ≠ 0)
    (hcond : (signatureUpdate k st addr info signed).2.StartHeight + k.SignedBlocksWindow
        < st.blockHeight ∧
      k.SignedBlocksWindow - MinSignedPerWindow k
        < (signatureUpdate k st addr info signed).2.MissedBlocksCounter)
    (hjailed : v.Jailed = false)
    (hok : handleValidatorSignature k st addr power signed = .ok st') :
    GetValidatorSigningInfo st' addr = some { info with
      JailedUntil := st.blockTime + k.DowntimeJailDuration
      MissedBlocksCounter := 0
      IndexOffset := 0 } ∧
    (∀ i, valMissedAt st' addr i = false) ∧
    (∃ v', GetValidator st' addr = some v' ∧ v'.Jailed = true) := by
  have heq := handleValidatorSignature_eq k st addr power signed v info hfound hinfo hW
  have hfr := signatureUpdate_frame k st addr info signed
  have hsi := signatureUpdate_info k st addr info signed
  have hget : GetValidator (signatureUpdate k st addr info signed).1 addr = some v := by
    rw [getValidator_of_validators_eq hfr.1, hfound]
  rw [if_pos ⟨hcond, hjailed⟩] at heq
  rw [heq] at hok
  have hr := downtimeSlash_result hget hok
  refine ⟨?_, hr.2.1, hr.2.2.2.2.1⟩
  rw [hr.1, hfr.2.2.2.2, hsi.1, hsi.2.1, hsi.2.2.2.1]

/-- Witness of C14 on scenario S2 at block 101 (block time 10,000 s,
DowntimeJailDuration 600 s): the stored signing info has JailedUntil =
10,600 s, counter 0 and offset 0, the bitmap is empty and V1 is jailed. -/
theorem downtime_slash_resets_signing_info_witness :
    ∃ st', handleValidatorSignature paramsS3 stateS2 (addrOf 1).bytes 100 false = .ok st' ∧
      GetValidatorSigningInfo st' (addrOf 1).bytes
        = some { signingInfoS3 with JailedUntil := 10600000000000 } ∧
      st'.missed = [] ∧
      (GetValidator st' (addrOf 1).bytes).map (fun x => x.Jailed) = some true := by
  cases hr : handleValidatorSignature paramsS3 stateS2 (addrOf 1).bytes 100 false with
  | error e =>
    have hok : (handleValidatorSignature paramsS3 stateS2 (addrOf 1).bytes 100 false).toBool
        = true := by decide
    rw [hr] at hok
    cases hok
  | ok st' =>
    have h := downtime_slash_resets_signing_info paramsS3 stateS2 st' (addrOf 1).bytes 100 false
      validatorS3 { signingInfoS3 with IndexOffset := 100, MissedBlocksCounter := 100 }
      (by decide) (by decide) (by decide) (by decide) (by decide) hr
    have hd : (handleValidatorSignature paramsS3 stateS2 (addrOf 1).bytes 100 false).map
        (fun s => (s.missed, (GetValidator s (addrOf 1).bytes).map (fun x => x.Jailed)))
          = .ok ([], some true) := by decide
    rw [hr] at hd
    simp only [Except.map, Except.ok.injEq, Prod.mk.injEq] at hd
    exact ⟨st', rfl, h.1, hd.1, hd.2⟩


theorem minSignedPerWindow_eq_floor (k : Params) :
    MinSignedPerWindow k
      = ⌊(k.SignedBlocksWindow : ℚ) * ((k.MinSignedPerWindowParam.raw : ℚ) / 1000000000000000000)⌋ := by
  have h := Rat.floor_intCast_div_natCast (k.SignedBlocksWindow * k.MinSignedPerWindowParam.raw)
    1000000000000000000
  have hc : ((k.SignedBlocksWindow * k.MinSignedPerWindowParam.raw : Int) : ℚ)
        / ((1000000000000000000 : ℕ) : ℚ)
      = (k.SignedBlocksWindow : ℚ) * ((k.MinSignedPerWindowParam.raw : ℚ) / 1000000000000000000) := by
    push_cast
    ring
  rw [hc] at h
  rw [h]
  rfl

/-- C15: the getter MinSignedPerWindow is floor(SignedBlocksWindow *
MinSignedPerWindow), the product being taken on the decimal value raw / 10^18
of the parameter, and handleValidatorSignature applies the downtime slash to a
validator that is not jailed exactly when
height > min_height = start_height + SignedBlocksWindow and the updated
counter > max_missed = SignedBlocksWindow - floor(SignedBlocksWindow *
MinSignedPerWindow). -/
theorem downtime_threshold_is_window_minus_floor (k : Params) (st : State) (addr : Address)
    (power : Int) (signed : Bool) (v : Validator) (info : ValidatorSigningInfo)
    (hfound : GetValidator st addr = some v)
    (hinfo : GetValidatorSigningInfo st addr = some info) (hW : k.SignedBlocksWindow ≠ 0) :
    MinSignedPerWindow k
      = ⌊(k.SignedBlocksWindow : ℚ) * ((k.MinSignedPerWindowParam.raw : ℚ) / 1000000000000000000)⌋ ∧
    handleValidatorSignature k st addr power signed =
      if (info.StartHeight + k.SignedBlocksWindow < st.blockHeight ∧
          k.SignedBlocksWindow
              - ⌊(k.SignedBlocksWindow : ℚ)
                  * ((k.MinSignedPerWindowParam.raw : ℚ) / 1000000000000000000)⌋
            < (signatureUpdate k st addr info signed).2.MissedBlocksCounter) ∧ v.Jailed = false then
        downtimeSlash k st.blockHeight (signatureUpdate k st addr info signed).1 addr power
          (signatureUpdate k st addr info signed).2
      else .ok (SetValidatorSigningInfo (signatureUpdate k st addr info signed).1 addr
        (signatureUpdate k st addr info signed).2) := by
  have heq := handleValidatorSignature_eq k st addr power signed v info hfound hinfo hW
  have hsi := signatureUpdate_info k st addr info signed
  refine ⟨minSignedPerWindow_eq_floor k, ?_⟩
  rw [← minSignedPerWindow_eq_floor k, ← hsi.2.1]
  exact heq

/-- Witness of C15 on scenario S2: window 100 and MinSignedPerWindow 0.5 give
floor(100 * 0.5) = 50 and max_missed = 50; at block 101 > 0 + 100 the counter
100 > 50 triggers the downtime branch for V1. -/
theorem downtime_threshold_is_window_minus_floor_witness :
    MinSignedPerWindow paramsS3 = 50 ∧
    paramsS3.SignedBlocksWindow - MinSignedPerWindow paramsS3 = 50 ∧
    (⌊(paramsS3.SignedBlocksWindow : ℚ)
        * ((paramsS3.MinSignedPerWindowParam.raw : ℚ) / 1000000000000000000)⌋ = 50) ∧
    handleValidatorSignature paramsS3 stateS2 (addrOf 1).bytes 100 false
      = downtimeSlash paramsS3 101
          (signatureUpdate paramsS3 stateS2 (addrOf 1).bytes
            { signingInfoS3 with IndexOffset := 100, MissedBlocksCounter := 100 } false).1
          (addrOf 1).bytes 100
          (signatureUpdate paramsS3 stateS2 (addrOf 1).bytes
            { signingInfoS3 with IndexOffset := 100, MissedBlocksCounter := 100 } false).2 := by
  have h := downtime_threshold_is_window_minus_floor paramsS3 stateS2 (addrOf 1).bytes 100 false
    validatorS3 { signingInfoS3 with IndexOffset := 100, MissedBlocksCounter := 100 }
    (by decide) (by decide) (by decide)
  have h50 : MinSignedPerWindow paramsS3 = 50 := by decide
  refine ⟨h50, by decide, ?_, ?_⟩
  · rw [← h.1]
    exact h50
  · rw [h.2, ← h.1, if_pos (by decide)]
    rfl

/-- C16: counter-delta step of handleValidatorSignature. With
i = IndexOffset rem SignedBlocksWindow (the remainder of Go, equal to
IndexOffset mod SignedBlocksWindow and lying in [0, W) for a non-negative
offset and a positive window), p the bit stored at i and m = not signed, the
call continues with the updated signing info and state (it either runs the
downtime branch on them or stores them), in which the offset is incremented
and: the counter is old+1 and bit i is set when p is false and m is true; the
counter is old-1 and bit i is clear when p is true and m is false; otherwise
the counter and the whole bitmap are unchanged. No bit other than bit i of
this validator is modified by the step. -/
theorem counter_delta_step (k : Params) (st : State) (addr : Address) (power : Int)
    (signed : Bool) (v : Validator) (info : ValidatorSigningInfo)
    (hfound : GetValidator st addr = some v)
    (hinfo : GetValidatorSigningInfo st addr = some info) (hW : k.SignedBlocksWindow ≠ 0) :
    (handleValidatorSignature k st addr power signed =
      if ((signatureUpdate k st addr info signed).2.StartHeight + k.SignedBlocksWindow < st.blockHeight ∧
          k.SignedBlocksWindow - MinSignedPerWindow k
            < (signatureUpdate k st addr info signed).2.MissedBlocksCounter) ∧ v.Jailed = false then
        downtimeSlash k st.blockHeight (signatureUpdate k st addr info signed).1 addr power
          (signatureUpdate k st addr info signed).2
      else .ok (SetValidatorSigningInfo (signatureUpdate k st addr info signed).1 addr
        (signatureUpdate k st addr info signed).2)) ∧
    (0 ≤ info.IndexOffset → 0 < k.SignedBlocksWindow →
      Int.tmod info.IndexOffset k.SignedBlocksWindow = info.IndexOffset % k.SignedBlocksWindow ∧
      0 ≤ Int.tmod info.IndexOffset k.SignedBlocksWindow ∧
      Int.tmod info.IndexOffset k.SignedBlocksWindow < k.SignedBlocksWindow) ∧
    (signatureUpdate k st addr info signed).2.IndexOffset = info.IndexOffset + 1 ∧
    (valMissedAt st addr (Int.tmod info.IndexOffset k.SignedBlocksWindow) = false ∧ signed = false →
      (signatureUpdate k st addr info signed).2.MissedBlocksCounter = info.MissedBlocksCounter + 1 ∧
      valMissedAt (signatureUpdate k st addr info signed).1 addr
        (Int.tmod info.IndexOffset k.SignedBlocksWindow) = true) ∧
    (valMissedAt st addr (Int.tmod info.IndexOffset k.SignedBlocksWindow) = true ∧ signed = true →
      (signatureUpdate k st addr info signed).2.MissedBlocksCounter = info.MissedBlocksCounter - 1 ∧
      valMissedAt (signatureUpdate k st addr info signed).1 addr
        (Int.tmod info.IndexOffset k.SignedBlocksWindow) = false) ∧
    (¬ (valMissedAt st addr (Int.tmod info.IndexOffset k.SignedBlocksWindow) = false ∧
          signed = false) →
      ¬ (valMissedAt st addr (Int.tmod info.IndexOffset k.SignedBlocksWindow) = true ∧
          signed = true) →
      (signatureUpdate k st addr info signed).2.MissedBlocksCounter = info.MissedBlocksCounter ∧
      (signatureUpdate k st addr info signed).1.missed = st.missed) ∧
    (∀ (a : Address) (j : Int),
      ¬ (a = addr ∧ j = Int.tmod info.IndexOffset k.SignedBlocksWindow) →
      valMissedAt (signatureUpdate k st addr info signed).1 a j = valMissedAt st a j) := by
  have hstep := signatureUpdate_step k st addr info signed
  refine ⟨handleValidatorSignature_eq k st addr power signed v info hfound hinfo hW, ?_,
    (signatureUpdate_info k st addr info signed).2.2.2.2, hstep.1, hstep.2.1, hstep.2.2.1,
    hstep.2.2.2⟩
  intro h0 hpos
  have hmod : Int.tmod info.IndexOffset k.SignedBlocksWindow
      = info.IndexOffset % k.SignedBlocksWindow :=
    Int.tmod_eq_emod h0 (le_of_lt hpos)
  rw [hmod]
  exact ⟨rfl, Int.emod_nonneg _ (ne_of_gt hpos), Int.emod_lt_of_pos _ hpos⟩

/-- Witness of C16: on the fresh signing info of scenario S3 a missed block
sets bit 0 and takes the counter from 0 to 1; in scenario S2 (bit 0 set,
counter 100) a signed block clears bit 0 and takes the counter to 99, and a
missed block leaves the counter at 100 and the bitmap as it was. -/
theorem counter_delta_step_witness :
    ((signatureUpdate paramsS3 stateS3 (addrOf 1).bytes signingInfoS3 false).2.MissedBlocksCounter
        = 0 + 1 ∧
      valMissedAt (signatureUpdate paramsS3 stateS3 (addrOf 1).bytes signingInfoS3 false).1
        (addrOf 1).bytes 0 = true) ∧
    ((signatureUpdate paramsS3 stateS2 (addrOf 1).bytes
          { signingInfoS3 with IndexOffset := 100, MissedBlocksCounter := 100 }
          true).2.MissedBlocksCounter = 100 - 1 ∧
      valMissedAt (signatureUpdate paramsS3 stateS2 (addrOf 1).bytes
          { signingInfoS3 with IndexOffset := 100, MissedBlocksCounter := 100 } true).1
        (addrOf 1).bytes 0 = false) ∧
    ((signatureUpdate paramsS3 stateS2 (addrOf 1).bytes
          { signingInfoS3 with IndexOffset := 100, MissedBlocksCounter := 100 }
          false).2.MissedBlocksCounter = 100 ∧
      (signatureUpdate paramsS3 stateS2 (addrOf 1).bytes
          { signingInfoS3 with IndexOffset := 100, MissedBlocksCounter := 100 } false).1.missed
        = stateS2.missed) := by
  have h1 := counter_delta_step paramsS3 stateS3 (addrOf 1).bytes 100 false validatorS3
    signingInfoS3 (by decide) (by decide) (by decide)
  have h2 := counter_delta_step paramsS3 stateS2 (addrOf 1).bytes 100 true validatorS3
    { signingInfoS3 with IndexOffset := 100, MissedBlocksCounter := 100 }
    (by decide) (by decide) (by decide)
  have h3 := counter_delta_step paramsS3 stateS2 (addrOf 1).bytes 100 false validatorS3
    { signingInfoS3 with IndexOffset := 100, MissedBlocksCounter := 100 }
    (by decide) (by decide) (by decide)
  exact ⟨h1.2.2.2.1 ⟨by decide, rfl⟩, h2.2.2.2.2.1 ⟨by decide, rfl⟩,
    h3.2.2.2.2.2.1 (by decide) (by decide)⟩


theorem handleValidatorSignature_ok_found {k : Params} {st st' : State} {addr : Address}
    {power : Int} {signed : Bool} (hok : handleValidatorSignature k st addr power signed = .ok st') :
    ∃ v info, GetValidator st addr = some v ∧ GetValidatorSigningInfo st addr = some info ∧
      k.SignedBlocksWindow ≠ 0 := by
  rw [handleValidatorSignature_unfold] at hok
  split at hok
  · cases hok
  · rename_i v hv
    split at hok
    · cases hok
    · rename_i info hinfo
      split at hok
      · cases hok
      · rename_i hW
        exact ⟨v, info, hv, hinfo, hW⟩

theorem handleValidatorSignature_other {k : Params} {st st' : State} {b : Address}
    {power : Int} {signed : Bool} (hok : handleValidatorSignature k st b power signed = .ok st')
    (a : Address) (hab : a ≠ b) :
    GetValidatorSigningInfo st' a = GetValidatorSigningInfo st a ∧
    (∀ j, valMissedAt st' a j = valMissedAt st a j) ∧
    GetValidator st' a = GetValidator st a := by
  obtain ⟨v, info, hfound, hinfo, hW⟩ := handleValidatorSignature_ok_found hok
  have heq := handleValidatorSignature_eq k st b power signed v info hfound hinfo hW
  have hfr := signatureUpdate_frame k st b info signed
  have hstep := (signatureUpdate_step k st b info signed).2.2.2
  have hget : GetValidator (signatureUpdate k st b info signed).1 b = some v := by
    rw [getValidator_of_validators_eq hfr.1, hfound]
  have hbits : ∀ j, valMissedAt (signatureUpdate k st b info signed).1 a j = valMissedAt st a j :=
    fun j => hstep a j (fun h => hab h.1)
  rw [heq] at hok
  split at hok
  · have hr := downtimeSlash_result hget hok
    refine ⟨?_, ?_, ?_⟩
    · rw [hr.2.2.2.1 a hab]
      simp only [GetValidatorSigningInfo, hfr.2.2.1]
    · intro j
      rw [hr.2.2.1 a hab j, hbits j]
    · rw [hr.2.2.2.2.2.1 a hab, getValidator_of_validators_eq hfr.1]
  · cases hok
    refine ⟨?_, ?_, ?_⟩
    · simp only [GetValidatorSigningInfo, SetValidatorSigningInfo]
      rw [kvGet_kvSet_other _ _ _ a hab, hfr.2.2.1]
    · intro j
      exact hbits j
    · exact getValidator_of_validators_eq hfr.1 a

theorem countP_range_congr (f g : Nat → Bool) (n : Nat) (h : ∀ j, j < n → g j = f j) :
    (List.range n).countP g = (List.range n).countP f := by
  apply List.countP_congr
  intro j hj
  rw [h j (List.mem_range.mp hj)]

theorem countP_range_flip (f g : Nat → Bool) (n i : Nat) (hi : i < n) (hf : f i = false)
    (hg : g i = true) (hother : ∀ j, j ≠ i → g j = f j) :
    (List.range n).countP g = (List.range n).countP f + 1 := by
  induction n with
  | zero => omega
  | succ n ih =>
    rw [List.range_succ, List.countP_append, List.countP_append]
    by_cases hin : i = n
    · subst hin
      have h1 := countP_range_congr f g i (fun j hj => hother j (by omega))
      simp [h1, hf, hg]
    · have h1 := ih (by omega)
      have h2 := hother n (fun h => hin h.symm)
      have h3 : List.countP g [n] = List.countP f [n] := by
        simp [List.countP_cons, h2]
      rw [h1, h3]
      omega

theorem missedCount_congr {st t : State} (a : Address) (W : Int)
    (h : ∀ j, valMissedAt t a j = valMissedAt st a j) : missedCount t a W = missedCount st a W := by
  unfold missedCount
  rw [countP_range_congr (fun (i : Nat) => valMissedAt st a (Int.ofNat i)) (fun (i : Nat) => valMissedAt t a (Int.ofNat i))
    W.toNat (fun j _ => h j)]

theorem missedCount_flip {st t : State} (a : Address) (W i : Int) (h0 : 0 ≤ i) (hi : i < W)
    (hf : valMissedAt st a i = false) (hg : valMissedAt t a i = true)
    (hother : ∀ j, j ≠ i → valMissedAt t a j = valMissedAt st a j) :
    missedCount t a W = missedCount st a W + 1 := by
  unfold missedCount
  have hin : Int.ofNat i.toNat = i := Int.toNat_of_nonneg h0
  have h := countP_range_flip (fun (j : Nat) => valMissedAt st a (Int.ofNat j))
    (fun (j : Nat) => valMissedAt t a (Int.ofNat j)) W.toNat i.toNat (by omega)
    (by simp only [hin]; exact hf) (by simp only [hin]; exact hg)
    (fun j hj => hother (Int.ofNat j) (by
      intro hji
      apply hj
      have : Int.ofNat j = Int.ofNat i.toNat := by rw [hji, hin]
      exact Int.ofNat.inj this))
  rw [h]
  rfl

theorem missedCount_zero {st : State} (a : Address) (W : Int)
    (h : ∀ j, valMissedAt st a j = false) : missedCount st a W = 0 := by
  unfold missedCount
  simp [h]

theorem missedCount_bounds (st : State) (a : Address) (W : Int) (hW : 0 ≤ W) :
    0 ≤ missedCount st a W ∧ missedCount st a W ≤ W := by
  unfold missedCount
  have h := List.countP_le_length (fun (i : Nat) => valMissedAt st a (Int.ofNat i)) (l := List.range W.toNat)
  rw [List.length_range] at h
  constructor
  · exact Int.ofNat_nonneg _
  · have h2 : Int.ofNat (List.countP (fun (i : Nat) => valMissedAt st a (Int.ofNat i))
        (List.range W.toNat)) ≤ Int.ofNat W.toNat := Int.ofNat_le.mpr h
    have h3 : Int.ofNat W.toNat = W := Int.toNat_of_nonneg hW
    omega


theorem signatureUpdate_missedCount (k : Params) (st : State) (a : Address)
    (info : ValidatorSigningInfo) (signed : Bool) (hW : 0 < k.SignedBlocksWindow)
    (hoff : 0 ≤ info.IndexOffset)
    (hc : info.MissedBlocksCounter = missedCount st a k.SignedBlocksWindow) :
    (signatureUpdate k st a info signed).2.MissedBlocksCounter
      = missedCount (signatureUpdate k st a info signed).1 a k.SignedBlocksWindow := by
  have hstep := signatureUpdate_step k st a info signed
  have hmod : Int.tmod info.IndexOffset k.SignedBlocksWindow
      = info.IndexOffset % k.SignedBlocksWindow := Int.tmod_eq_emod hoff (le_of_lt hW)
  have hi0 : 0 ≤ Int.tmod info.IndexOffset k.SignedBlocksWindow := by
    rw [hmod]; exact Int.emod_nonneg _ (ne_of_gt hW)
  have hiW : Int.tmod info.IndexOffset k.SignedBlocksWindow < k.SignedBlocksWindow := by
    rw [hmod]; exact Int.emod_lt_of_pos _ hW
  have hother : ∀ j, j ≠ Int.tmod info.IndexOffset k.SignedBlocksWindow →
      valMissedAt (signatureUpdate k st a info signed).1 a j = valMissedAt st a j :=
    fun j hj => hstep.2.2.2 a j (fun h => hj h.2)
  by_cases h1 : valMissedAt st a (Int.tmod info.IndexOffset k.SignedBlocksWindow) = false ∧
      signed = false
  · have hs := hstep.1 h1
    rw [hs.1, hc, missedCount_flip a k.SignedBlocksWindow _ hi0 hiW h1.1 hs.2 hother]
  · by_cases h2 : valMissedAt st a (Int.tmod info.IndexOffset k.SignedBlocksWindow) = true ∧
        signed = true
    · have hs := hstep.2.1 h2
      have hflip : missedCount st a k.SignedBlocksWindow
          = missedCount (signatureUpdate k st a info signed).1 a k.SignedBlocksWindow + 1 :=
        missedCount_flip a k.SignedBlocksWindow _ hi0 hiW hs.2 h2.1
          (fun j hj => (hother j hj).symm)
      rw [hs.1, hc, hflip]
      omega
    · have hs := hstep.2.2.1 h1 h2
      rw [hs.1, hc]
      exact (missedCount_congr a k.SignedBlocksWindow
        (fun j => valMissedAt_of_missed_eq hs.2 a j)).symm

theorem counterMatchesBitmap_step {k : Params} {st st' : State} {a b : Address} {power : Int}
    {signed : Bool} (hW : 0 < k.SignedBlocksWindow) (hinv : CounterMatchesBitmap k st a)
    (hok : handleValidatorSignature k st b power signed = .ok st') :
    CounterMatchesBitmap k st' a := by
  obtain ⟨info0, hinfo0, hoff, hc⟩ := hinv
  by_cases hab : a = b
  · subst hab
    obtain ⟨v, info, hfound, hinfo, hW0⟩ := handleValidatorSignature_ok_found hok
    rw [hinfo0] at hinfo
    cases hinfo
    have heq := handleValidatorSignature_eq k st a power signed v info0 hfound hinfo0 hW0
    have hfr := signatureUpdate_frame k st a info0 signed
    have hsi := signatureUpdate_info k st a info0 signed
    have hget : GetValidator (signatureUpdate k st a info0 signed).1 a = some v := by
      rw [getValidator_of_validators_eq hfr.1, hfound]
    rw [heq] at hok
    split at hok
    · have hr := downtimeSlash_result hget hok
      refine ⟨_, hr.1, le_refl 0, ?_⟩
      rw [missedCount_zero a k.SignedBlocksWindow hr.2.1]
    · cases hok
      refine ⟨(signatureUpdate k st a info0 signed).2, ?_, ?_, ?_⟩
      · simp only [GetValidatorSigningInfo, SetValidatorSigningInfo]
        exact kvGet_kvSet_same _ _ _
      · rw [hsi.2.2.2.2]; omega
      · rw [signatureUpdate_missedCount k st a info0 signed hW hoff hc]
        exact (missedCount_congr a k.SignedBlocksWindow (fun _ => rfl)).symm
  · have hfr := handleValidatorSignature_other hok a hab
    refine ⟨info0, ?_, hoff, ?_⟩
    · rw [hfr.1, hinfo0]
    · rw [hc]
      exact (missedCount_congr a k.SignedBlocksWindow hfr.2.1).symm

theorem counterMatchesBitmap_fresh (k : Params) (st : State) (a : Address)
    (info : ValidatorSigningInfo) (hinfo : GetValidatorSigningInfo st a = some info)
    (hoff : info.IndexOffset = 0) (hc : info.MissedBlocksCounter = 0)
    (hbits : ∀ i, valMissedAt st a i = false) : CounterMatchesBitmap k st a := by
  refine ⟨info, hinfo, by omega, ?_⟩
  rw [hc, missedCount_zero a k.SignedBlocksWindow hbits]

theorem counterMatchesBitmap_run {k : Params} (hW : 0 < k.SignedBlocksWindow) (a : Address)
    (reports : List Report) :
    ∀ (st st' : State), CounterMatchesBitmap k st a → runReports k st reports = .ok st' →
      CounterMatchesBitmap k st' a := by
  induction reports with
  | nil =>
    intro st st' hinv hrun
    cases hrun
    exact hinv
  | cons r rs ih =>
    intro st st' hinv hrun
    unfold runReports at hrun
    split at hrun
    · cases hrun
    · rename_i st1 h1
      have hinv0 : CounterMatchesBitmap k { st with blockHeight := r.height, blockTime := r.time } a :=
        hinv
      exact ih st1 st' (counterMatchesBitmap_step hW hinv0 h1) hrun

/-- C17: counter/bitmap invariant under a fixed SignedBlocksWindow W > 0. The
predicate 'the signing info exists, its IndexOffset is not negative and its
MissedBlocksCounter equals the number of indices in [0, W) whose missed bit is
set' holds for a fresh signing info (offset 0, counter 0) with an all-zero
bitmap, and it is preserved by every call of handleValidatorSignature that
returns, for this validator or for another one, whether the call slashes and
resets or not. Hence after every sequence of calls from a fresh signing info
the stored MissedBlocksCounter equals the number of indices in [0, W) whose
missed bit is set. -/
theorem counter_bitmap_invariant (k : Params) (hW : 0 < k.SignedBlocksWindow) :
    (∀ (st : State) (a : Address) (info : ValidatorSigningInfo),
      GetValidatorSigningInfo st a = some info → info.IndexOffset = 0 →
      info.MissedBlocksCounter = 0 → (∀ i, valMissedAt st a i = false) →
      CounterMatchesBitmap k st a) ∧
    (∀ (st st' : State) (a b : Address) (power : Int) (signed : Bool),
      CounterMatchesBitmap k st a →
      handleValidatorSignature k st b power signed = .ok st' →
      CounterMatchesBitmap k st' a) ∧
    (∀ (st st' : State) (a : Address) (info : ValidatorSigningInfo) (reports : List Report),
      GetValidatorSigningInfo st a = some info → info.IndexOffset = 0 →
      info.MissedBlocksCounter = 0 → (∀ i, valMissedAt st a i = false) →
      runReports k st reports = .ok st' →
      ∃ info', GetValidatorSigningInfo st' a = some info' ∧
        info'.MissedBlocksCounter = missedCount st' a k.SignedBlocksWindow) :=
  ⟨fun st a info hinfo hoff hc hbits => counterMatchesBitmap_fresh k st a info hinfo hoff hc hbits,
   fun _ _ _ _ _ _ hinv hok => counterMatchesBitmap_step hW hinv hok,
   fun st st' a info reports hinfo hoff hc hbits hrun => by
    obtain ⟨info', h1, _, h3⟩ := counterMatchesBitmap_run hW a reports st st'
      (counterMatchesBitmap_fresh k st a info hinfo hoff hc hbits) hrun
    exact ⟨info', h1, h3⟩⟩

/-- Witness of C17 on scenario S3 (window 100): the fresh signing info of V1
satisfies the predicate, and so does the state after a missed block, where the
counter is 1 and bit 0 is the one bit set. -/
theorem counter_bitmap_invariant_witness :
    CounterMatchesBitmap paramsS3 stateS3 (addrOf 1).bytes ∧
    ∃ st', handleValidatorSignature paramsS3 stateS3 (addrOf 1).bytes 100 false = .ok st' ∧
      CounterMatchesBitmap paramsS3 st' (addrOf 1).bytes ∧
      (GetValidatorSigningInfo st' (addrOf 1).bytes).map (fun i => i.MissedBlocksCounter) = some 1 ∧
      st'.missed = [((addrOf 1).bytes, 0)] := by
  have h := counter_bitmap_invariant paramsS3 (by decide)
  have hfresh : CounterMatchesBitmap paramsS3 stateS3 (addrOf 1).bytes :=
    h.1 stateS3 (addrOf 1).bytes signingInfoS3 (by decide) (by decide) (by decide)
      (fun i => by simp [valMissedAt, stateS3])
  refine ⟨hfresh, ?_⟩
  cases hr : handleValidatorSignature paramsS3 stateS3 (addrOf 1).bytes 100 false with
  | error e =>
    have hok : (handleValidatorSignature paramsS3 stateS3 (addrOf 1).bytes 100 false).toBool
        = true := by decide
    rw [hr] at hok
    cases hok
  | ok st' =>
    have hd : (handleValidatorSignature paramsS3 stateS3 (addrOf 1).bytes 100 false).map
        (fun s => ((GetValidatorSigningInfo s (addrOf 1).bytes).map
          (fun i => i.MissedBlocksCounter), s.missed))
          = .ok (some 1, [((addrOf 1).bytes, 0)]) := by decide
    rw [hr] at hd
    simp only [Except.map, Except.ok.injEq, Prod.mk.injEq] at hd
    exact ⟨st', rfl, h.2.1 stateS3 st' (addrOf 1).bytes (addrOf 1).bytes 100 false hfresh hr,
      hd.1, hd.2⟩


/-- C18: under a fixed SignedBlocksWindow W > 0, starting from a fresh signing
info (counter 0, offset 0) with an all-zero bitmap, after every sequence of
handleValidatorSignature calls that returns (calls for this validator or for
others, each under its own block header) the stored MissedBlocksCounter lies
in [0, W]; in particular a call with signed = true on the fresh signing info
stores the counter 0: nothing is decremented below zero. -/
theorem missed_counter_within_window (k : Params) (st : State) (a : Address)
    (info : ValidatorSigningInfo) (hW : 0 < k.SignedBlocksWindow)
    (hinfo : GetValidatorSigningInfo st a = some info) (hoff : info.IndexOffset = 0)
    (hc : info.MissedBlocksCounter = 0) (hbits : ∀ i, valMissedAt st a i = false) :
    (∀ (reports : List Report) (st' : State), runReports k st reports = .ok st' →
      ∃ info', GetValidatorSigningInfo st' a = some info' ∧
        0 ≤ info'.MissedBlocksCounter ∧ info'.MissedBlocksCounter ≤ k.SignedBlocksWindow) ∧
    (∀ (power : Int) (st' : State), handleValidatorSignature k st a power true = .ok st' →
      ∃ info', GetValidatorSigningInfo st' a = some info' ∧ info'.MissedBlocksCounter = 0) := by
  have hfresh := counterMatchesBitmap_fresh k st a info hinfo hoff hc hbits
  constructor
  · intro reports st' hrun
    obtain ⟨info', hinfo', _, hc'⟩ := counterMatchesBitmap_run hW a reports st st' hfresh hrun
    have hb := missedCount_bounds st' a k.SignedBlocksWindow (le_of_lt hW)
    exact ⟨info', hinfo', by rw [hc']; exact hb.1, by rw [hc']; exact hb.2⟩
  · intro power st' hok
    obtain ⟨v, info1, hfound, hinfo1, hW0⟩ := handleValidatorSignature_ok_found hok
    rw [hinfo] at hinfo1
    cases hinfo1
    have heq := handleValidatorSignature_eq k st a power true v info hfound hinfo hW0
    have hfr := signatureUpdate_frame k st a info true
    have hget : GetValidator (signatureUpdate k st a info true).1 a = some v := by
      rw [getValidator_of_validators_eq hfr.1, hfound]
    have hsu := signatureUpdate_unset_signed k st a info (hbits _)
    rw [heq] at hok
    split at hok
    · have hr := downtimeSlash_result hget hok
      exact ⟨_, hr.1, rfl⟩
    · cases hok
      refine ⟨(signatureUpdate k st a info true).2, ?_, ?_⟩
      · simp only [GetValidatorSigningInfo, SetValidatorSigningInfo]
        exact kvGet_kvSet_same _ _ _
      · rw [hsu]
        exact hc

/-- Witness of C18 on scenario S3 (window 100, fresh signing info of V1):
after three reports for V1 at blocks 51 to 53, missed, missed and signed, the
stored counter is 2, within [0, 100]; a first report with signed = true leaves
the counter at 0. -/
theorem missed_counter_within_window_witness :
    (∃ st', runReports paramsS3 stateS3
        [{ height := 51, time := 10001000000000, address := (addrOf 1).bytes, power := 100,
           signed := false },
         { height := 52, time := 10002000000000, address := (addrOf 1).bytes, power := 100,
           signed := false },
         { height := 53, time := 10003000000000, address := (addrOf 1).bytes, power := 100,
           signed := true }] = .ok st' ∧
      (GetValidatorSigningInfo st' (addrOf 1).bytes).map (fun i => i.MissedBlocksCounter) = some 2 ∧
      ∃ info', GetValidatorSigningInfo st' (addrOf 1).bytes = some info' ∧
        0 ≤ info'.MissedBlocksCounter ∧ info'.MissedBlocksCounter ≤ 100) ∧
    (∃ st', handleValidatorSignature paramsS3 stateS3 (addrOf 1).bytes 100 true = .ok st' ∧
      ∃ info', GetValidatorSigningInfo st' (addrOf 1).bytes = some info' ∧
        info'.MissedBlocksCounter = 0) := by
  have h := missed_counter_within_window paramsS3 stateS3 (addrOf 1).bytes signingInfoS3
    (by decide) (by decide) (by decide) (by decide) (fun i => by simp [valMissedAt, stateS3])
  constructor
  · cases hr : runReports paramsS3 stateS3
        [{ height := 51, time := 10001000000000, address := (addrOf 1).bytes, power := 100,
           signed := false },
         { height := 52, time := 10002000000000, address := (addrOf 1).bytes, power := 100,
           signed := false },
         { height := 53, time := 10003000000000, address := (addrOf 1).bytes, power := 100,
           signed := true }] with
    | error e =>
      have hok : (runReports paramsS3 stateS3
        [{ height := 51, time := 10001000000000, address := (addrOf 1).bytes, power := 100,
           signed := false },
         { height := 52, time := 10002000000000, address := (addrOf 1).bytes, power := 100,
           signed := false },
         { height := 53, time := 10003000000000, address := (addrOf 1).bytes, power := 100,
           signed := true }]).toBool = true := by decide
      rw [hr] at hok
      cases hok
    | ok st' =>
      have hd : (runReports paramsS3 stateS3
        [{ height := 51, time := 10001000000000, address := (addrOf 1).bytes, power := 100,
           signed := false },
         { height := 52, time := 10002000000000, address := (addrOf 1).bytes, power := 100,
           signed := false },
         { height := 53, time := 10003000000000, address := (addrOf 1).bytes, power := 100,
           signed := true }]).map
          (fun s => (GetValidatorSigningInfo s (addrOf 1).bytes).map
            (fun i => i.MissedBlocksCounter)) = .ok (some 2) := by decide
      rw [hr] at hd
      simp only [Except.map, Except.ok.injEq] at hd
      exact ⟨st', rfl, hd, h.1 _ st' hr⟩
  · cases hr : handleValidatorSignature paramsS3 stateS3 (addrOf 1).bytes 100 true with
    | error e =>
      have hok : (handleValidatorSignature paramsS3 stateS3 (addrOf 1).bytes 100 true).toBool
          = true := by decide
      rw [hr] at hok
      cases hok
    | ok st' => exact ⟨st', rfl, h.2 100 st' hr⟩


theorem countP_take_succ (p : Bool → Bool) (r : List Bool) (m : Nat) :
    (r.take (m + 1)).countP p
      = (r.take m).countP p + (if p (r.getD m false) = true ∧ m < r.length then 1 else 0) := by
  rw [List.take_succ, List.countP_append]
  by_cases hm : m < r.length
  · have h1 : r[m]? = some r[m] := List.getElem?_eq_getElem hm
    have h2 : r.getD m false = r[m] := by
      rw [List.getD_eq_getElem?_getD, h1]; rfl
    rw [h1, h2]
    by_cases hp : p r[m] = true
    · simp [hp, hm]
    · simp [hp]
  · have h1 : r[m]? = none := List.getElem?_eq_none (by omega)
    rw [h1]
    simp [hm]

theorem windowSum_snoc (W : Nat) (hW : 0 < W) (fs : List Bool) (s : Bool) :
    windowSum W (fs ++ [s]) + (if (!(fs.getD (fs.length - W) true)) = true ∧ W ≤ fs.length then 1 else 0)
      = windowSum W fs + (if (!s) = true then 1 else 0) := by
  obtain ⟨m, rfl⟩ : ∃ m, W = m + 1 := ⟨W - 1, by omega⟩
  unfold windowSum
  rw [List.reverse_append, List.reverse_singleton, List.singleton_append, List.take_succ_cons,
    List.countP_cons, countP_take_succ]
  have hlen : fs.reverse.length = fs.length := List.length_reverse fs
  by_cases hm : m < fs.length
  · have hget : fs.reverse.getD m false = fs.getD (fs.length - (m + 1)) true := by
      rw [List.getD_eq_getElem?_getD, List.getD_eq_getElem?_getD,
        List.getElem?_reverse (by omega)]
      have h1 : fs.length - 1 - m = fs.length - (m + 1) := by omega
      rw [h1]
      have h2 : fs[fs.length - (m + 1)]? = some fs[fs.length - (m + 1)] :=
        List.getElem?_eq_getElem (by omega)
      rw [h2]
      rfl
    rw [hget, hlen]
    have e1 : (m + 1 ≤ fs.length) = True := by simp; omega
    have e2 : (m < fs.length) = True := by simp; omega
    simp only [e1, e2, and_true]
    omega
  · have e1 : ¬ (m + 1 ≤ fs.length) := by omega
    have e2 : ¬ (m < fs.reverse.length) := by rw [hlen]; omega
    simp only [e1, e2, and_false, if_false]
    omega


theorem signatureUpdate_bit (k : Params) (st : State) (a : Address)
    (info : ValidatorSigningInfo) (signed : Bool) :
    valMissedAt (signatureUpdate k st a info signed).1 a
      (Int.tmod info.IndexOffset k.SignedBlocksWindow) = !signed := by
  have hemit : ∀ (t : State) (e : Event) (b : Address) (j : Int),
      valMissedAt (EmitEvent t e) b j = valMissedAt t b j := fun _ _ _ _ => rfl
  cases hp : valMissedAt st a (Int.tmod info.IndexOffset k.SignedBlocksWindow) <;>
    cases signed
  · rw [signatureUpdate_unset_missed k st a info hp, hemit, valMissedAt_set]; simp
  · rw [signatureUpdate_unset_signed k st a info hp, hp]; rfl
  · rw [signatureUpdate_set_missed k st a info hp, hemit, hp]; rfl
  · rw [signatureUpdate_set_signed k st a info hp, valMissedAt_set]; simp

theorem signatureUpdate_counter (k : Params) (st : State) (a : Address)
    (info : ValidatorSigningInfo) (signed : Bool) :
    (signatureUpdate k st a info signed).2.MissedBlocksCounter
      = info.MissedBlocksCounter + (if (!signed) = true then 1 else 0)
        - (if valMissedAt st a (Int.tmod info.IndexOffset k.SignedBlocksWindow) = true then 1
            else 0) := by
  cases hp : valMissedAt st a (Int.tmod info.IndexOffset k.SignedBlocksWindow) <;>
    cases signed
  · rw [signatureUpdate_unset_missed k st a info hp]; simp
  · rw [signatureUpdate_unset_signed k st a info hp]; simp
  · rw [signatureUpdate_set_missed k st a info hp]; simp
  · rw [signatureUpdate_set_signed k st a info hp]; simp

theorem mod_ne_of_lt_window {q n W : Nat} (hq : q < n) (hn : n < q + W) : q % W ≠ n % W := by
  intro h
  have hmod : q ≡ n [MOD W] := h
  have hdvd : W ∣ n - q := (Nat.modEq_iff_dvd' (le_of_lt hq)).mp hmod
  have hle : W ≤ n - q := Nat.le_of_dvd (by omega) hdvd
  omega

theorem handleValidatorSignature_no_slash {k : Params} {st st' : State} {a : Address}
    {power : Int} {signed : Bool} {v : Validator} {info : ValidatorSigningInfo}
    (hfound : GetValidator st a = some v) (hinfo : GetValidatorSigningInfo st a = some info)
    (hW : k.SignedBlocksWindow ≠ 0)
    (hok : handleValidatorSignature k st a power signed = .ok st')
    (hns : slashEvents st'.events = slashEvents st.events) :
    st' = SetValidatorSigningInfo (signatureUpdate k st a info signed).1 a
      (signatureUpdate k st a info signed).2 := by
  have heq := handleValidatorSignature_eq k st a power signed v info hfound hinfo hW
  have hfr := signatureUpdate_frame k st a info signed
  have hget : GetValidator (signatureUpdate k st a info signed).1 a = some v := by
    rw [getValidator_of_validators_eq hfr.1, hfound]
  rw [heq] at hok
  split at hok
  · have hr := downtimeSlash_result hget hok
    have hcount : slashEvents st'.events = slashEvents st.events + 1 := by
      rw [hr.2.2.2.2.2.2, slashEvents_append, signatureUpdate_slashEvents]
      simp [slashEvents, Event.isSlash]
    omega
  · cases hok
    rfl

theorem slidingWindowState_step {k : Params} {st st' : State} {a : Address} {power : Int}
    {signed : Bool} {fs : List Bool} (hW : 0 < k.SignedBlocksWindow)
    (hinv : SlidingWindowState k st a fs)
    (hok : handleValidatorSignature k st a power signed = .ok st')
    (hns : slashEvents st'.events = slashEvents st.events) :
    SlidingWindowState k st' a (fs ++ [signed]) := by
  obtain ⟨info, hinfo, hoff, hc, hb1, hb2⟩ := hinv
  obtain ⟨v, info1, hfound, hinfo1, hW0⟩ := handleValidatorSignature_ok_found hok
  rw [hinfo] at hinfo1
  cases hinfo1
  have hst' := handleValidatorSignature_no_slash hfound hinfo hW0 hok hns
  subst hst'
  have hWn : Int.ofNat k.SignedBlocksWindow.toNat = k.SignedBlocksWindow :=
    Int.toNat_of_nonneg (le_of_lt hW)
  have hWpos : 0 < k.SignedBlocksWindow.toNat := by omega
  generalize hWdef : k.SignedBlocksWindow.toNat = Wn at hWn hWpos hb1 hb2 hc
  have hidx : Int.tmod info.IndexOffset k.SignedBlocksWindow = Int.ofNat (fs.length % Wn) := by
    rw [Int.tmod_eq_emod (by rw [hoff]; exact Int.ofNat_nonneg _) (le_of_lt hW), hoff, ← hWn]
    rfl
  have hp : valMissedAt st a (Int.ofNat (fs.length % Wn))
      = (decide (Wn ≤ fs.length) && !(fs.getD (fs.length - Wn) true)) := by
    by_cases hle : Wn ≤ fs.length
    · have h1 := hb1 (fs.length - Wn) (by omega) (by omega)
      rw [← Nat.mod_eq_sub_mod hle] at h1
      rw [h1]
      simp [hle]
    · have h1 := hb2 fs.length (le_refl _) (by omega)
      rw [Nat.mod_eq_of_lt (by omega), h1]
      simp [hle]
  have hbit := signatureUpdate_bit k st a info signed
  have hcnt := signatureUpdate_counter k st a info signed
  have hother := (signatureUpdate_step k st a info signed).2.2.2
  have hsi := signatureUpdate_info k st a info signed
  rw [hidx] at hbit hcnt
  have hsnoc := windowSum_snoc Wn hWpos fs signed
  refine ⟨(signatureUpdate k st a info signed).2, ?_, ?_, ?_, ?_, ?_⟩
  · simp only [GetValidatorSigningInfo, SetValidatorSigningInfo]
    exact kvGet_kvSet_same _ _ _
  · rw [hsi.2.2.2.2, hoff, List.length_append]
    rfl
  · rw [hWdef, hcnt, hc, hp]
    have hA : (if (decide (Wn ≤ fs.length) && !(fs.getD (fs.length - Wn) true)) = true
          then (1 : Int) else 0)
        = ((if (!(fs.getD (fs.length - Wn) true)) = true ∧ Wn ≤ fs.length then 1 else 0 : Nat)
            : Int) := by
      by_cases hle : Wn ≤ fs.length <;> cases fs.getD (fs.length - Wn) true <;> simp [hle]
    have hB : (if (!signed) = true then (1 : Int) else 0)
        = ((if (!signed) = true then 1 else 0 : Nat) : Int) := by
      cases signed <;> simp
    rw [hA, hB]
    simp only [Int.ofNat_eq_coe]
    omega
  · intro q hq hqW
    rw [hWdef] at hqW ⊢
    rw [List.length_append, List.length_singleton] at hq hqW
    show valMissedAt (signatureUpdate k st a info signed).1 a (Int.ofNat (q % Wn)) = _
    by_cases hqn : q = fs.length
    · subst hqn
      rw [hbit, List.getD_eq_getElem?_getD, List.getElem?_append_right (le_refl _)]
      simp
    · have hql : q < fs.length := by omega
      have hne : q % Wn ≠ fs.length % Wn := mod_ne_of_lt_window hql (by omega)
      rw [hother a (Int.ofNat (q % Wn)) (by
        intro h
        rw [hidx] at h
        exact hne (Int.ofNat.inj h.2)), hb1 q hql (by omega),
        List.getD_eq_getElem?_getD, List.getD_eq_getElem?_getD,
        List.getElem?_append_left hql]
  · intro j hj hjW
    rw [hWdef] at hjW
    rw [List.length_append, List.length_singleton] at hj
    show valMissedAt (signatureUpdate k st a info signed).1 a (Int.ofNat j) = _
    have hmod : fs.length % Wn = fs.length := Nat.mod_eq_of_lt (by omega)
    rw [hother a (Int.ofNat j) (by
      intro h
      rw [hidx, hmod] at h
      have := Int.ofNat.inj h.2
      omega)]
    exact hb2 j (by omega) hjW


theorem handleValidatorSignature_slashEvents {k : Params} {st st' : State} {a : Address}
    {power : Int} {signed : Bool}
    (hok : handleValidatorSignature k st a power signed = .ok st') :
    slashEvents st.events ≤ slashEvents st'.events := by
  obtain ⟨v, info, hfound, hinfo, hW0⟩ := handleValidatorSignature_ok_found hok
  have heq := handleValidatorSignature_eq k st a power signed v info hfound hinfo hW0
  have hfr := signatureUpdate_frame k st a info signed
  have hget : GetValidator (signatureUpdate k st a info signed).1 a = some v := by
    rw [getValidator_of_validators_eq hfr.1, hfound]
  rw [heq] at hok
  split at hok
  · have hr := downtimeSlash_result hget hok
    rw [hr.2.2.2.2.2.2, slashEvents_append, signatureUpdate_slashEvents]
    omega
  · cases hok
    exact le_of_eq (signatureUpdate_slashEvents k st a info signed).symm

theorem runReports_slashEvents {k : Params} (reports : List Report) :
    ∀ (st st' : State), runReports k st reports = .ok st' →
      slashEvents st.events ≤ slashEvents st'.events := by
  induction reports with
  | nil =>
    intro st st' hrun
    cases hrun
    exact le_refl _
  | cons r rs ih =>
    intro st st' hrun
    unfold runReports at hrun
    split at hrun
    · cases hrun
    · rename_i st1 h1
      have hm1 := handleValidatorSignature_slashEvents h1
      have hm2 := ih st1 st' hrun
      exact le_trans hm1 hm2

theorem slidingWindowState_run {k : Params} (hW : 0 < k.SignedBlocksWindow) (a : Address)
    (reports : List Report) :
    ∀ (fs : List Bool) (st st' : State), SlidingWindowState k st a fs →
      (∀ r ∈ reports, r.address = a) → runReports k st reports = .ok st' →
      slashEvents st'.events = slashEvents st.events →
      SlidingWindowState k st' a (fs ++ reports.map (fun r => r.signed)) := by
  induction reports with
  | nil =>
    intro fs st st' hinv _ hrun _
    cases hrun
    simpa using hinv
  | cons r rs ih =>
    intro fs st st' hinv haddr hrun hns
    unfold runReports at hrun
    split at hrun
    · cases hrun
    · rename_i st1 h1
      have hra : r.address = a := haddr r (List.mem_cons_self r rs)
      rw [hra] at h1
      have hm1 := handleValidatorSignature_slashEvents h1
      have hm2 := runReports_slashEvents rs st1 st' hrun
      have hm1' : slashEvents st.events ≤ slashEvents st1.events := hm1
      have hns1 : slashEvents st1.events
          = slashEvents ({ st with blockHeight := r.height, blockTime := r.time } : State).events := by
        show slashEvents st1.events = slashEvents st.events
        omega
      have hinv0 : SlidingWindowState k { st with blockHeight := r.height, blockTime := r.time } a fs :=
        hinv
      have hstep := slidingWindowState_step hW hinv0 h1 hns1
      have hrest := ih (fs ++ [r.signed]) st1 st' hstep
        (fun x hx => haddr x (List.mem_cons_of_mem r hx)) hrun (by omega)
      simpa using hrest

theorem windowSum_eq_drop (W : Nat) (flags : List Bool) :
    windowSum W flags
      = (flags.drop (flags.length - min flags.length W)).countP (fun s => !s) := by
  unfold windowSum
  have h : flags.length - min flags.length W = flags.length - W := by omega
  rw [List.take_reverse, List.countP_reverse, h]

/-- C19: sliding-window equivalence under a fixed SignedBlocksWindow W > 0.
Starting from a fresh signing info (offset 0, counter 0) with an all-zero
bitmap, after any run of n consecutive handleValidatorSignature calls for the
validator that returns and in which no call applies the downtime slash (the
run emits no slash event), the stored offset is n and the stored
MissedBlocksCounter equals the per-block sum: the number of calls among the
last min(n, W) whose signed flag was false. -/
theorem counter_equals_window_sum (k : Params) (st st' : State) (a : Address)
    (info : ValidatorSigningInfo) (reports : List Report) (hW : 0 < k.SignedBlocksWindow)
    (hinfo : GetValidatorSigningInfo st a = some info) (hoff : info.IndexOffset = 0)
    (hc : info.MissedBlocksCounter = 0) (hbits : ∀ i, valMissedAt st a i = false)
    (haddr : ∀ r ∈ reports, r.address = a) (hrun : runReports k st reports = .ok st')
    (hns : slashEvents st'.events = slashEvents st.events) :
    ∃ info', GetValidatorSigningInfo st' a = some info' ∧
      info'.IndexOffset = Int.ofNat reports.length ∧
      info'.MissedBlocksCounter
        = Int.ofNat (windowSum k.SignedBlocksWindow.toNat (reports.map (fun r => r.signed))) ∧
      windowSum k.SignedBlocksWindow.toNat (reports.map (fun r => r.signed))
        = ((reports.map (fun r => r.signed)).drop
            (reports.length - min reports.length k.SignedBlocksWindow.toNat)).countP
              (fun s => !s) := by
  have hinit : SlidingWindowState k st a [] := by
    refine ⟨info, hinfo, by rw [hoff]; rfl, by rw [hc]; simp [windowSum], ?_, ?_⟩
    · intro q hq
      simp at hq
    · intro j _ _
      exact hbits _
  obtain ⟨info', hinfo', hoff', hc', _, _⟩ :=
    slidingWindowState_run hW a reports [] st st' hinit haddr hrun hns
  refine ⟨info', hinfo', ?_, ?_, ?_⟩
  · rw [hoff']
    simp
  · rw [hc']
    simp
  · rw [windowSum_eq_drop]
    simp

/-- Witness of C19 with a window of 3 blocks on scenario S3: five reports for
V1 (missed, missed, signed, missed, signed) emit no slash event; the stored
counter is 1, the number of missed blocks among the last three. -/
theorem counter_equals_window_sum_witness :
    windowSum 3 (reportsWindow3.map (fun r => r.signed)) = 1 ∧
    ∃ st', runReports paramsWindow3 stateS3 reportsWindow3 = .ok st' ∧
      slashEvents st'.events = slashEvents stateS3.events ∧
      ∃ info', GetValidatorSigningInfo st' (addrOf 1).bytes = some info' ∧
        info'.IndexOffset = 5 ∧ info'.MissedBlocksCounter = 1 := by
  refine ⟨by decide, ?_⟩
  cases hr : runReports paramsWindow3 stateS3 reportsWindow3 with
  | error e =>
    have hok : (runReports paramsWindow3 stateS3 reportsWindow3).toBool = true := by decide
    rw [hr] at hok
    cases hok
  | ok st' =>
    have hd : (runReports paramsWindow3 stateS3 reportsWindow3).map
        (fun s => slashEvents s.events) = .ok (slashEvents stateS3.events) := by decide
    rw [hr] at hd
    simp only [Except.map, Except.ok.injEq] at hd
    obtain ⟨info', h1, h2, h3, _⟩ := counter_equals_window_sum paramsWindow3 stateS3 st'
      (addrOf 1).bytes signingInfoS3 reportsWindow3 (by decide) (by decide) (by decide)
      (by decide) (fun i => by simp [valMissedAt, stateS3]) (by decide) hr hd
    exact ⟨st', rfl, hd, info', h1, h2, h3⟩


theorem jailed_record_unchanged {k : Params} {st st' : State} {a b : Address} {v : Validator}
    {power : Int} {signed : Bool} (hfound : GetValidator st a = some v) (hj : v.Jailed = true)
    (hok : handleValidatorSignature k st b power signed = .ok st') :
    GetValidator st' a = some v := by
  by_cases hab : a = b
  · subst hab
    have h := handleValidatorSignature_jailed hfound hj hok
    rw [getValidator_of_validators_eq h.1, hfound]
  · rw [(handleValidatorSignature_other hok a hab).2.2, hfound]

theorem jailed_record_unchanged_run {k : Params} (a : Address) (v : Validator)
    (hj : v.Jailed = true) (reports : List Report) :
    ∀ (st st' : State), GetValidator st a = some v → runReports k st reports = .ok st' →
      GetValidator st' a = some v := by
  induction reports with
  | nil =>
    intro st st' hfound hrun
    cases hrun
    exact hfound
  | cons r rs ih =>
    intro st st' hfound hrun
    unfold runReports at hrun
    split at hrun
    · cases hrun
    · rename_i st1 h1
      have hfound0 : GetValidator { st with blockHeight := r.height, blockTime := r.time } a
          = some v := hfound
      exact ih st1 st' (jailed_record_unchanged hfound0 hj h1) hrun

/-- C20: when a call of handleValidatorSignature applies the downtime slash to
a validator (window passed, counter above max_missed, validator not jailed)
and returns, the validator's record is jailed, and every later call for the
same validator on the resulting state, in the same block, leaves the record
(hence its staked tokens) and the staked pool unchanged and emits no slash
event; the record also stays unchanged through any later sequence of calls,
for this validator or for others, under any block headers. -/
theorem one_downtime_slash_per_block (k : Params) (st st1 : State) (a : Address) (power : Int)
    (signed : Bool) (v : Validator) (info : ValidatorSigningInfo)
    (hfound : GetValidator st a = some v)
    (hinfo : GetValidatorSigningInfo st a = some info) (hW : k.SignedBlocksWindow ≠ 0)
    (hcond : (signatureUpdate k st a info signed).2.StartHeight + k.SignedBlocksWindow
        < st.blockHeight ∧
      k.SignedBlocksWindow - MinSignedPerWindow k
        < (signatureUpdate k st a info signed).2.MissedBlocksCounter)
    (hjailed : v.Jailed = false)
    (hok : handleValidatorSignature k st a power signed = .ok st1) :
    ∃ v1, GetValidator st1 a = some v1 ∧ v1.Jailed = true ∧
      st1.blockHeight = st.blockHeight ∧
      (∀ (power2 : Int) (signed2 : Bool) (st2 : State),
        handleValidatorSignature k st1 a power2 signed2 = .ok st2 →
        GetValidator st2 a = some v1 ∧ st2.stakedPool = st1.stakedPool ∧
        slashEvents st2.events = slashEvents st1.events) ∧
      (∀ (reports : List Report) (st2 : State), runReports k st1 reports = .ok st2 →
        GetValidator st2 a = some v1) := by
  have heq := handleValidatorSignature_eq k st a power signed v info hfound hinfo hW
  have hfr := signatureUpdate_frame k st a info signed
  have hget : GetValidator (signatureUpdate k st a info signed).1 a = some v := by
    rw [getValidator_of_validators_eq hfr.1, hfound]
  rw [if_pos ⟨hcond, hjailed⟩] at heq
  rw [heq] at hok
  obtain ⟨v1, hv1, hj1⟩ := (downtimeSlash_result hget hok).2.2.2.2.1
  have hheight : st1.blockHeight = st.blockHeight := by
    unfold downtimeSlash at hok
    split at hok
    · cases hok
    · rename_i st3 hs
      cases hok
      have h3 := (slash_frame hs).2.2.1
      show (JailValidator st3 a).blockHeight = _
      have h4 : (JailValidator st3 a).blockHeight = st3.blockHeight := by
        unfold JailValidator
        split <;> rfl
      rw [h4, h3]
      exact hfr.2.2.2.1
  refine ⟨v1, hv1, hj1, hheight, ?_, ?_⟩
  · intro power2 signed2 st2 hok2
    have h := handleValidatorSignature_jailed hv1 hj1 hok2
    refine ⟨?_, h.2.1, ?_⟩
    · rw [getValidator_of_validators_eq h.1, hv1]
    · rcases h.2.2 with he | ⟨m, ht, he⟩
      · rw [he]
      · rw [he, slashEvents_append]
        simp [slashEvents, Event.isSlash]
  · intro reports st2 hrun
    exact jailed_record_unchanged_run a v1 hj1 reports st1 st2 hv1 hrun

/-- Witness of C20 on scenario S2 at block 101: the first report of a missed
block slashes V1 to 99,000,000 and jails it; a second report for V1 in the
same block returns with V1 still at 99,000,000 tokens and one slash event in
all. -/
theorem one_downtime_slash_per_block_witness :
    ∃ st1, handleValidatorSignature paramsS3 stateS2 (addrOf 1).bytes 100 false = .ok st1 ∧
      (GetValidator st1 (addrOf 1).bytes).map (fun x => (x.Jailed, x.StakedTokens))
        = some (true, 99000000) ∧
      ∃ st2, handleValidatorSignature paramsS3 st1 (addrOf 1).bytes 100 false = .ok st2 ∧
        GetValidator st2 (addrOf 1).bytes = GetValidator st1 (addrOf 1).bytes ∧
        slashEvents st2.events = 1 := by
  cases hr : handleValidatorSignature paramsS3 stateS2 (addrOf 1).bytes 100 false with
  | error e =>
    have hok : (handleValidatorSignature paramsS3 stateS2 (addrOf 1).bytes 100 false).toBool
        = true := by decide
    rw [hr] at hok
    cases hok
  | ok st1 =>
    obtain ⟨v1, hv1, _, _, hlater, _⟩ := one_downtime_slash_per_block paramsS3 stateS2 st1
      (addrOf 1).bytes 100 false validatorS3
      { signingInfoS3 with IndexOffset := 100, MissedBlocksCounter := 100 }
      (by decide) (by decide) (by decide) (by decide) (by decide) hr
    have hd : (handleValidatorSignature paramsS3 stateS2 (addrOf 1).bytes 100 false).map
        (fun s => ((GetValidator s (addrOf 1).bytes).map (fun x => (x.Jailed, x.StakedTokens)),
          slashEvents s.events,
          (handleValidatorSignature paramsS3 s (addrOf 1).bytes 100 false).toBool))
          = .ok (some (true, 99000000), 1, true) := by decide
    rw [hr] at hd
    simp only [Except.map, Except.ok.injEq, Prod.mk.injEq] at hd
    refine ⟨st1, rfl, hd.1, ?_⟩
    cases hr2 : handleValidatorSignature paramsS3 st1 (addrOf 1).bytes 100 false with
    | error e =>
      have h2 := hd.2.2
      rw [hr2] at h2
      cases h2
    | ok st2 =>
      have hl := hlater 100 false st2 hr2
      refine ⟨st2, rfl, ?_, ?_⟩
      · rw [hl.1, hv1]
      · rw [hl.2.2, hd.2.1]


/-! ## the order of the store keys -/

theorem bytesLt_irrefl (a : List Nat) : bytesLt a a = false := by
  induction a with
  | nil => rfl
  | cons x xs ih => simp [bytesLt, ih]

theorem bytesLt_asymm : ∀ (a b : List Nat), bytesLt a b = true → bytesLt b a = false := by
  intro a
  induction a with
  | nil =>
    intro b _
    cases b <;> rfl
  | cons x xs ih =>
    intro b h
    cases b with
    | nil => simp [bytesLt] at h
    | cons y ys =>
      unfold bytesLt at h ⊢
      by_cases h1 : x < y
      · have h2 : ¬ (y < x) := by omega
        simp [h1, h2]
      · by_cases h2 : y < x
        · simp [h1, h2] at h
        · simp only [h1, h2, if_false] at h ⊢
          exact ih ys h

theorem bytesLt_trans : ∀ (a b c : List Nat), bytesLt a b = true → bytesLt b c = true →
    bytesLt a c = true := by
  intro a
  induction a with
  | nil =>
    intro b c h1 h2
    cases b with
    | nil => simp [bytesLt] at h1
    | cons y ys =>
      cases c with
      | nil => simp [bytesLt] at h2
      | cons z zs => rfl
  | cons x xs ih =>
    intro b c h1 h2
    cases b with
    | nil => simp [bytesLt] at h1
    | cons y ys =>
      cases c with
      | nil => simp [bytesLt] at h2
      | cons z zs =>
        unfold bytesLt at h1 h2 ⊢
        by_cases hxy : x < y
        · by_cases hyz : y < z
          · have : x < z := by omega
            simp [this]
          · by_cases hzy : z < y
            · simp [hyz, hzy] at h2
            · have : x < z := by omega
              simp [this]
        · by_cases hyx : y < x
          · simp [hxy, hyx] at h1
          · simp only [hxy, hyx, if_false] at h1
            by_cases hyz : y < z
            · have : x < z := by omega
              simp [this]
            · by_cases hzy : z < y
              · simp [hyz, hzy] at h2
              · simp only [hyz, hzy, if_false] at h2
                have h3 : ¬ (x < z) := by omega
                have h4 : ¬ (z < x) := by omega
                simp only [h3, h4, if_false]
                exact ih ys zs h1 h2

theorem bytesLt_total : ∀ (a b : List Nat), a ≠ b → bytesLt a b = false → bytesLt b a = true := by
  intro a
  induction a with
  | nil =>
    intro b hne h
    cases b with
    | nil => exact absurd rfl hne
    | cons y ys => simp [bytesLt] at h
  | cons x xs ih =>
    intro b hne h
    cases b with
    | nil => rfl
    | cons y ys =>
      unfold bytesLt at h ⊢
      by_cases hxy : x < y
      · simp [hxy] at h
      · by_cases hyx : y < x
        · simp [hyx]
        · simp only [hxy, hyx, if_false] at h ⊢
          have hxy2 : x = y := by omega
          subst hxy2
          exact ih ys (fun hh => hne (by rw [hh])) h

/-! ## the burn queue -/

theorem kvSet_kvSet_same {α : Type} (l : List (Address × α)) (a : Address) (x y : α) :
    kvSet (kvSet l a x) a y = kvSet l a y := by
  induction l with
  | nil => simp [kvSet]
  | cons p rest ih =>
    obtain ⟨c, z⟩ := p
    by_cases hca : c = a
    · simp [kvSet, hca]
    · by_cases hlt : bytesLt a c = true
      · simp [kvSet, hca, hlt]
      · simp [kvSet, hca, hlt, ih]

theorem kvSet_comm {α : Type} (l : List (Address × α)) (a b : Address) (x y : α) (hab : a ≠ b) :
    kvSet (kvSet l a x) b y = kvSet (kvSet l b y) a x := by
  have hba : b ≠ a := Ne.symm hab
  induction l with
  | nil =>
    by_cases hlt : bytesLt b a = true
    · have := bytesLt_asymm b a hlt
      simp [kvSet, hab, hba, hlt, this]
    · have h2 : bytesLt b a = false := by simpa using hlt
      have := bytesLt_total b a hba h2
      simp [kvSet, hab, hba, h2, this]
  | cons p rest ih =>
    obtain ⟨c, z⟩ := p
    by_cases hca : c = a
    · subst hca
      by_cases hlt : bytesLt b c = true
      · have h3 := bytesLt_asymm b c hlt
        simp [kvSet, hab, hba, hlt, h3]
      · have h2 : bytesLt b c = false := by simpa using hlt
        simp [kvSet, hab, hba, h2]
    · by_cases hcb : c = b
      · subst hcb
        by_cases hlt : bytesLt a c = true
        · have h3 := bytesLt_asymm a c hlt
          simp [kvSet, hab, hba, hlt, h3]
        · have h2 : bytesLt a c = false := by simpa using hlt
          simp [kvSet, hab, hba, h2]
      · have hac : a ≠ c := Ne.symm hca
        have hbc : b ≠ c := Ne.symm hcb
        by_cases hlta : bytesLt a c = true
        · by_cases hltb : bytesLt b c = true
          · by_cases hltab : bytesLt a b = true
            · have h3 := bytesLt_asymm a b hltab
              simp [kvSet, hab, hba, hca, hcb, hlta, hltb, hltab, h3]
            · have h2 : bytesLt a b = false := by simpa using hltab
              have h3 := bytesLt_total a b hab h2
              simp [kvSet, hab, hba, hca, hcb, hlta, hltb, h2, h3]
          · have h2 : bytesLt b c = false := by simpa using hltb
            have h3 : bytesLt c b = true := bytesLt_total b c hbc h2
            have h4 : bytesLt a b = true := bytesLt_trans a c b hlta h3
            have h5 := bytesLt_asymm a b h4
            simp [kvSet, hab, hba, hca, hcb, hlta, h2, h4, h5]
        · have h2a : bytesLt a c = false := by simpa using hlta
          by_cases hltb : bytesLt b c = true
          · have h3 : bytesLt c a = true := bytesLt_total a c hac h2a
            have h4 : bytesLt b a = true := bytesLt_trans b c a hltb h3
            have h5 := bytesLt_asymm b a h4
            simp [kvSet, hab, hba, hca, hcb, h2a, hltb, h4, h5]
          · have h2b : bytesLt b c = false := by simpa using hltb
            simp [kvSet, hab, hba, hca, hcb, h2a, h2b, ih]

theorem getValidatorBurn_fst (st : State) (a : Address) :
    (getValidatorBurn st a).1 = (kvGet st.burns a).getD 0 := by
  unfold getValidatorBurn
  cases kvGet st.burns a <;> rfl

theorem burnValidator_eq (st : State) (a : Address) (x : Int) :
    BurnValidator st a x = { st with burns := kvSet st.burns a ((kvGet st.burns a).getD 0 + x) } := by
  simp [BurnValidator, setValidatorBurn, getValidatorBurn_fst]


theorem getValidatorBurn_burnValidator_same (st : State) (a : Address) (x : Int) :
    getValidatorBurn (BurnValidator st a x) a = ((getValidatorBurn st a).1 + x, true) := by
  rw [burnValidator_eq, getValidatorBurn_fst]
  simp [getValidatorBurn, kvGet_kvSet_same]

theorem getValidatorBurn_burnValidator_other (st : State) (a b : Address) (x : Int) (h : b ≠ a) :
    getValidatorBurn (BurnValidator st a x) b = getValidatorBurn st b := by
  rw [burnValidator_eq]
  simp [getValidatorBurn, kvGet_kvSet_other _ _ _ _ h]

/-- C23: BurnValidator accumulates. After BurnValidator(a, x) the burn-queue
entry of a exists and holds its previous value plus x, where the previous
value of an address without entry is 0; the entry of every other address is
as before, and so is everything else in the state; a second BurnValidator(a, y)
leaves the entry at previous + x + y. -/
theorem burnValidator_accumulates (st : State) (a : Address) (x y : Int) :
    getValidatorBurn (BurnValidator st a x) a = ((getValidatorBurn st a).1 + x, true) ∧
    (kvGet st.burns a = none → getValidatorBurn st a = (0, false)) ∧
    (∀ b, b ≠ a → getValidatorBurn (BurnValidator st a x) b = getValidatorBurn st b) ∧
    { BurnValidator st a x with burns := st.burns } = st ∧
    getValidatorBurn (BurnValidator (BurnValidator st a x) a y) a
      = ((getValidatorBurn st a).1 + x + y, true) := by
  refine ⟨getValidatorBurn_burnValidator_same st a x, ?_,
    fun b hb => getValidatorBurn_burnValidator_other st a b x hb, ?_, ?_⟩
  · intro h
    simp [getValidatorBurn, h]
  · rw [burnValidator_eq]
  · rw [getValidatorBurn_burnValidator_same, getValidatorBurn_burnValidator_same]

/-- Witness of C23 on scenario S3 with an empty burn queue: burns of 3 and 4
for V1 leave its entry at 7 and the address of V2 without entry. -/
theorem burnValidator_accumulates_witness :
    getValidatorBurn stateS3 (addrOf 1).bytes = (0, false) ∧
    getValidatorBurn (BurnValidator stateS3 (addrOf 1).bytes 3) (addrOf 1).bytes = (3, true) ∧
    getValidatorBurn (BurnValidator (BurnValidator stateS3 (addrOf 1).bytes 3) (addrOf 1).bytes 4)
      (addrOf 1).bytes = (7, true) ∧
    getValidatorBurn (BurnValidator stateS3 (addrOf 1).bytes 3) (addrOf 0).bytes = (0, false) := by
  have h := burnValidator_accumulates stateS3 (addrOf 1).bytes 3 4
  have h0 : getValidatorBurn stateS3 (addrOf 1).bytes = (0, false) := h.2.1 (by decide)
  refine ⟨h0, ?_, ?_, ?_⟩
  · rw [h.1, h0]; rfl
  · rw [h.2.2.2.2, h0]; rfl
  · rw [h.2.2.1 (addrOf 0).bytes (by decide)]; decide

/-- C25: burn-queue determinism. BurnValidator(a, x) followed by
BurnValidator(b, y) produces the same state, and so the same burn queue, as
BurnValidator(b, y) followed by BurnValidator(a, x), for equal or distinct
addresses; the next burnValidators therefore gives the same result after
either order. -/
theorem burnValidator_order_independent (k : Params) (st : State) (a b : Address) (x y : Int) :
    BurnValidator (BurnValidator st a x) b y = BurnValidator (BurnValidator st b y) a x ∧
    (BurnValidator (BurnValidator st a x) b y).burns
      = (BurnValidator (BurnValidator st b y) a x).burns ∧
    burnValidators k (BurnValidator (BurnValidator st a x) b y)
      = burnValidators k (BurnValidator (BurnValidator st b y) a x) := by
  have h : BurnValidator (BurnValidator st a x) b y = BurnValidator (BurnValidator st b y) a x := by
    by_cases hab : a = b
    · subst hab
      simp only [burnValidator_eq, kvGet_kvSet_same, kvSet_kvSet_same, Option.getD_some]
      have : (kvGet st.burns a).getD 0 + x + y = (kvGet st.burns a).getD 0 + y + x := by ring
      rw [this]
    · have hba : b ≠ a := Ne.symm hab
      simp only [burnValidator_eq, kvGet_kvSet_other _ _ _ _ hab, kvGet_kvSet_other _ _ _ _ hba]
      rw [kvSet_comm _ a b _ _ hab]
  exact ⟨h, by rw [h], by rw [h]⟩

/-- C26: an administrative burn of the truncated amount is the fractional
slash. For a factor f >= 0 and an infraction height at most the block height,
with q = trunc(p * 1,000,000 * f) > 0, slash(addr, height, p, f) and
simpleSlash(addr, q) give the same result, whether the validator exists or
not; q is the integer quotient of p * 1,000,000 * raw(f) by 10^18. -/
theorem slash_eq_simpleSlash_of_amount (k : Params) (st : State) (addr : Address) (h p : Int)
    (f : Dec) (hf : 0 ≤ f.raw) (hh : h ≤ st.blockHeight)
    (hq : 0 < ((ToDec (TokensFromConsensusPower p)).Mul f).TruncateInt) :
    slash k st addr h p f
      = simpleSlash k st addr (((ToDec (TokensFromConsensusPower p)).Mul f).TruncateInt) ∧
    ((ToDec (TokensFromConsensusPower p)).Mul f).TruncateInt
      = Int.tdiv (p * 1000000 * f.raw) 1000000000000000000 := by
  have hq2 : ((ToDec (TokensFromConsensusPower p)).Mul f).TruncateInt
      = Int.tdiv (p * 1000000 * f.raw) 1000000000000000000 := by
    simp only [slashAmount_eq, TokensFromConsensusPower, PowerReduction, precisionReuse]
  refine ⟨?_, hq2⟩
  cases hv : GetValidator st addr with
  | none =>
    have h1 : ¬ (f.raw < 0) := by omega
    have h2 : ¬ (st.blockHeight < h) := by omega
    have h3 : ¬ (((ToDec (TokensFromConsensusPower p)).Mul f).TruncateInt ≤ 0) := by omega
    have hv1 : validateSlash st addr h p f = .ok none := by
      simp [validateSlash, Dec.LT, ZeroDec, h1, h2, hv]
    have hv2 : validateSimpleSlash st addr (((ToDec (TokensFromConsensusPower p)).Mul f).TruncateInt)
        = .ok none := by
      simp [validateSimpleSlash, h3, hv]
    unfold slash simpleSlash
    rw [hv1, hv2]
  | some v =>
    rw [slash_eq_applyBurn k st addr h p f v hv hf hh,
      simpleSlash_eq_applyBurn k st addr _ v hv hq, hq2]

/-- Witness of C26 on scenario S3: power 100 and factor 0.05 give q = 5,000,000,
and the slash and the administrative burn of 5,000,000 agree. -/
theorem slash_eq_simpleSlash_of_amount_witness :
    ((ToDec (TokensFromConsensusPower 100)).Mul paramsS3.SlashFractionDoubleSign).TruncateInt = 5000000 ∧
    slash paramsS3 stateS3 (addrOf 1).bytes 40 100 paramsS3.SlashFractionDoubleSign
      = simpleSlash paramsS3 stateS3 (addrOf 1).bytes 5000000 :=
  ⟨by decide,
    (slash_eq_simpleSlash_of_amount paramsS3 stateS3 (addrOf 1).bytes 40 100
      paramsS3.SlashFractionDoubleSign (by decide) (by decide) (by decide)).1⟩

/-- C27: slashing a nonexistent validator is ignored. For an address without
validator record, slash with a factor >= 0 and an infraction height at most
the block height, and simpleSlash with an amount > 0, return the unchanged
state (validator records, pool, signing infos and all the rest) and do not
panic. -/
theorem slash_of_nonexistent_validator_ignored (k : Params) (st : State) (addr : Address)
    (h p : Int) (f : Dec) (amount : Int) (hnone : GetValidator st addr = none)
    (hf : 0 ≤ f.raw) (hh : h ≤ st.blockHeight) (ha : 0 < amount) :
    slash k st addr h p f = .ok st ∧ simpleSlash k st addr amount = .ok st := by
  have h1 : ¬ (f.raw < 0) := by omega
  have h2 : ¬ (st.blockHeight < h) := by omega
  have h3 : ¬ (amount ≤ 0) := by omega
  have hv1 : validateSlash st addr h p f = .ok none := by
    simp [validateSlash, Dec.LT, ZeroDec, h1, h2, hnone]
  have hv2 : validateSimpleSlash st addr amount = .ok none := by
    simp [validateSimpleSlash, h3, hnone]
  constructor
  · unfold slash
    rw [hv1]
  · unfold simpleSlash
    rw [hv2]

/-- Witness of C27 on scenario S3: no validator is stored under the address of
twenty bytes 9. -/
theorem slash_of_nonexistent_validator_ignored_witness :
    GetValidator stateS3 (addrOf 9).bytes = none ∧
    slash paramsS3 stateS3 (addrOf 9).bytes 40 100 paramsS3.SlashFractionDoubleSign = .ok stateS3 ∧
    simpleSlash paramsS3 stateS3 (addrOf 9).bytes 7 = .ok stateS3 :=
  ⟨by decide, slash_of_nonexistent_validator_ignored paramsS3 stateS3 (addrOf 9).bytes 40 100
    paramsS3.SlashFractionDoubleSign 7 (by decide) (by decide) (by decide) (by decide)⟩

theorem validateSlash_height (st : State) (addr : Address) (h1 h2 p : Int) (f : Dec)
    (hh1 : h1 ≤ st.blockHeight) (hh2 : h2 ≤ st.blockHeight) :
    validateSlash st addr h1 p f = validateSlash st addr h2 p f ∧
    validateSlash st addr h1 p f ≠ .error Panic.FutureInfraction := by
  have e1 : ¬ (st.blockHeight < h1) := by omega
  have e2 : ¬ (st.blockHeight < h2) := by omega
  unfold validateSlash
  simp only [e1, e2, if_false]
  refine ⟨trivial, ?_⟩
  split
  · intro hc; cases hc
  · split <;> (intro hc; cases hc)

/-- C28: the slash does not depend on the infraction height. For two heights
that are both at most the current block height, negative ones included, slash
with the one and slash with the other give the same result, and neither
result is the panic for an infraction in the future. -/
theorem slash_independent_of_infraction_height (k : Params) (st : State) (addr : Address)
    (h1 h2 p : Int) (f : Dec) (hh1 : h1 ≤ st.blockHeight) (hh2 : h2 ≤ st.blockHeight) :
    slash k st addr h1 p f = slash k st addr h2 p f ∧
    slash k st addr h1 p f ≠ .error Panic.FutureInfraction ∧
    slash k st addr h2 p f ≠ .error Panic.FutureInfraction := by
  have hv := validateSlash_height st addr h1 h2 p f hh1 hh2
  have hne : ∀ h, validateSlash st addr h p f ≠ .error Panic.FutureInfraction →
      slash k st addr h p f ≠ .error Panic.FutureInfraction := by
    intro h hvh
    unfold slash
    split
    · rename_i e he
      intro hc
      cases hc
      exact hvh he
    · intro hc; cases hc
    · simp only
      split
      · intro hc; cases hc
      · split
        · split <;> (intro hc; cases hc)
        · intro hc; cases hc
  have heq : slash k st addr h1 p f = slash k st addr h2 p f := by
    unfold slash
    rw [hv.1]
  refine ⟨heq, hne h1 hv.2, ?_⟩
  rw [← heq]
  exact hne h1 hv.2

/-- Witness of C28 on scenario S3 (block 50): the slash for the heights 40 and
-3 is the same and burns 5,000,000. -/
theorem slash_independent_of_infraction_height_witness :
    slash paramsS3 stateS3 (addrOf 1).bytes 40 100 paramsS3.SlashFractionDoubleSign
      = slash paramsS3 stateS3 (addrOf 1).bytes (-3) 100 paramsS3.SlashFractionDoubleSign ∧
    (slash paramsS3 stateS3 (addrOf 1).bytes (-3) 100 paramsS3.SlashFractionDoubleSign).map
      (fun s => s.stakedPool) = .ok 95000000 :=
  ⟨(slash_independent_of_infraction_height paramsS3 stateS3 (addrOf 1).bytes 40 (-3) 100
    paramsS3.SlashFractionDoubleSign (by decide) (by decide)).1, by decide⟩

/-- C30: the consensus power of a Bonded validator with t >= 0 staked tokens
is the integer quotient t / 1,000,000 (0 for t = 0 and 1 for t = 1,000,000),
and it inverts the conversion of slash on the left: a Bonded validator that
holds TokensFromConsensusPower(p) tokens has power p, for every p >= 0. -/
theorem consensusPower_of_bonded (v : Validator) (p : Int)
    (hb : v.Status = BondStatus.Bonded) (ht : 0 ≤ v.StakedTokens) (hp : 0 ≤ p) :
    v.ConsensusPower = v.StakedTokens / 1000000 ∧
    (v.StakedTokens = 0 → v.ConsensusPower = 0) ∧
    (v.StakedTokens = 1000000 → v.ConsensusPower = 1) ∧
    Validator.ConsensusPower { v with StakedTokens := TokensFromConsensusPower p } = p := by
  have h1 : v.ConsensusPower = v.StakedTokens / 1000000 := by
    unfold Validator.ConsensusPower
    rw [if_pos hb, Int.tdiv_eq_ediv ht (by decide)]
    rfl
  refine ⟨h1, ?_, ?_, ?_⟩
  · intro h0
    rw [h1, h0]; rfl
  · intro h0
    rw [h1, h0]; rfl
  · unfold Validator.ConsensusPower
    simp only [hb, if_true, TokensFromConsensusPower, PowerReduction]
    exact Int.mul_tdiv_cancel p (by decide)

/-- Witness of C30 on the validator of scenario S3: 100,000,000 tokens are
power 100, and the tokens of power 7 are power 7. -/
theorem consensusPower_of_bonded_witness :
    validatorS3.ConsensusPower = 100 ∧
    Validator.ConsensusPower { validatorS3 with StakedTokens := TokensFromConsensusPower 7 } = 7 := by
  have h := consensusPower_of_bonded validatorS3 7 (by decide) (by decide) (by decide)
  exact ⟨by rw [h.1]; decide, h.2.2.2⟩


theorem mem_kvSet {α : Type} {l : List (Address × α)} {a : Address} {x : α} {q : Address × α}
    (h : q ∈ kvSet l a x) : q = (a, x) ∨ q ∈ l := by
  induction l with
  | nil => simpa [kvSet] using h
  | cons p rest ih =>
    obtain ⟨c, z⟩ := p
    unfold kvSet at h
    split at h
    · rcases List.mem_cons.mp h with h1 | h1
      · exact Or.inl h1
      · exact Or.inr (List.mem_cons_of_mem _ h1)
    · split at h
      · rcases List.mem_cons.mp h with h1 | h1
        · exact Or.inl h1
        · exact Or.inr h1
      · rcases List.mem_cons.mp h with h1 | h1
        · exact Or.inr (by rw [h1]; exact List.mem_cons_self _ _)
        · rcases ih h1 with h2 | h2
          · exact Or.inl h2
          · exact Or.inr (List.mem_cons_of_mem _ h2)

theorem kvSet_pairwise {α : Type} (l : List (Address × α)) (a : Address) (x : α)
    (hs : l.Pairwise (fun p q => bytesLt p.1 q.1 = true)) :
    (kvSet l a x).Pairwise (fun p q => bytesLt p.1 q.1 = true) := by
  induction l with
  | nil => simp [kvSet]
  | cons p rest ih =>
    obtain ⟨c, z⟩ := p
    rw [List.pairwise_cons] at hs
    unfold kvSet
    split
    · rename_i hca
      rw [List.pairwise_cons]
      refine ⟨fun q hq => ?_, hs.2⟩
      have := hs.1 q hq
      simpa [hca] using this
    · rename_i hca
      split
      · rename_i hlt
        rw [List.pairwise_cons]
        refine ⟨fun q hq => ?_, List.pairwise_cons.mpr hs⟩
        rcases List.mem_cons.mp hq with h1 | h1
        · rw [h1]; exact hlt
        · exact bytesLt_trans a c q.1 hlt (hs.1 q h1)
      · rename_i hlt
        rw [List.pairwise_cons]
        refine ⟨fun q hq => ?_, ih hs.2⟩
        rcases mem_kvSet hq with h1 | h1
        · rw [h1]
          exact bytesLt_total a c (Ne.symm hca) (by simpa using hlt)
        · exact hs.1 q h1

theorem kvDelete_eq_filter {α : Type} (l : List (Address × α)) (a : Address) :
    kvDelete l a = l.filter (fun p => decide (p.1 ≠ a)) := by
  induction l with
  | nil => rfl
  | cons p rest ih =>
    obtain ⟨c, z⟩ := p
    unfold kvDelete
    by_cases hca : c = a
    · simp [hca, ih]
    · simp [hca, ih]

theorem kvGet_kvDelete_same {α : Type} (l : List (Address × α)) (a : Address) :
    kvGet (kvDelete l a) a = none := by
  induction l with
  | nil => rfl
  | cons p rest ih =>
    obtain ⟨c, z⟩ := p
    unfold kvDelete
    by_cases hca : c = a
    · simp [hca, ih]
    · simp [hca, ih, kvGet]

theorem applyBurn_result {k : Params} {st st' : State} {v : Validator} {burn : Int}
    (h : applyBurn k st v burn = .ok st') :
    st'.burns = st.burns ∧ 0 ≤ burn ∧ burn ≤ st.stakedPool ∧
    ((¬ (v.StakedTokens - burn < k.MinimumStake) ∧
        st'.validators = putValidator st.validators { v with StakedTokens := v.StakedTokens - burn } ∧
        st'.stakedPool = st.stakedPool - burn) ∨
      (v.StakedTokens - burn < k.MinimumStake ∧
        st'.validators = putValidator
          (putValidator st.validators { v with StakedTokens := v.StakedTokens - burn })
          { v with StakedTokens := 0, Status := BondStatus.Unbonded, UnstakingCompletionTime := 0 } ∧
        st'.stakedPool = st.stakedPool - burn - (v.StakedTokens - burn))) := by
  by_cases hb : 0 ≤ burn ∧ burn ≤ st.stakedPool
  · rw [applyBurn_eq k st v burn hb.1 hb.2] at h
    split at h
    · rename_i hlt
      cases hf : ForceValidatorUnstake (deducted st v burn)
          { v with StakedTokens := v.StakedTokens - burn } with
      | error e =>
        rw [hf] at h
        cases h
      | ok st3 =>
        rw [hf] at h
        cases h
        have hv := forceValidatorUnstake_validators hf
        unfold ForceValidatorUnstake at hf
        split at hf
        · cases hf
        · rename_i st1 hb1
          have hst1 := burnStakedTokens_frame hb1
          subst hst1
          simp only at hf
          refine ⟨?_, hb.1, hb.2, Or.inr ⟨hlt, hv, ?_⟩⟩
          · split at hf <;> (cases hf; rfl)
          · split at hf <;> (cases hf; rfl)
    · rename_i hlt
      cases h
      exact ⟨rfl, hb.1, hb.2, Or.inl ⟨hlt, rfl, rfl⟩⟩
  · exfalso
    unfold applyBurn at h
    have hbs : burnStakedTokens (removeValidatorTokens st v burn).1 burn
        = .error SdkError.ErrInsufficientCoins := by
      have hp : (removeValidatorTokens st v burn).1.stakedPool = st.stakedPool := rfl
      unfold burnStakedTokens
      rw [hp, if_neg hb]
    simp only [hbs] at h
    cases h

theorem simpleSlash_cases {k : Params} {st st' : State} {addr : Address} {amount : Int}
    (hs : simpleSlash k st addr amount = .ok st') :
    0 < amount ∧ ((GetValidator st addr = none ∧ st' = st) ∨
      ∃ v, GetValidator st addr = some v ∧
        applyBurn k st v (max (min amount v.StakedTokens) 0) = .ok st') := by
  have ha : 0 < amount := by
    by_contra hc
    have h1 : amount ≤ 0 := by omega
    simp [simpleSlash, validateSimpleSlash, h1] at hs
  refine ⟨ha, ?_⟩
  cases hv : GetValidator st addr with
  | none =>
    left
    have h3 : ¬ (amount ≤ 0) := by omega
    have hv2 : validateSimpleSlash st addr amount = .ok none := by
      simp [validateSimpleSlash, h3, hv]
    unfold simpleSlash at hs
    rw [hv2] at hs
    cases hs
    exact ⟨rfl, rfl⟩
  | some v =>
    right
    rw [simpleSlash_eq_applyBurn k st addr amount v hv ha] at hs
    exact ⟨v, rfl, hs⟩

theorem simpleSlash_burns {k : Params} {st st' : State} {addr : Address} {amount : Int}
    (hs : simpleSlash k st addr amount = .ok st') : st'.burns = st.burns := by
  rcases (simpleSlash_cases hs).2 with ⟨_, h⟩ | ⟨v, _, h⟩
  · rw [h]
  · exact (applyBurn_result h).1

theorem burnValidatorsLoop_empties (k : Params) (rest : List (Address × Int)) :
    ∀ (st st' : State), (∀ p ∈ st.burns, p.1 ∈ rest.map Prod.fst) →
      burnValidatorsLoop k st rest = .ok st' → st'.burns = [] := by
  induction rest with
  | nil =>
    intro st st' hsub h
    cases h
    apply List.eq_nil_iff_forall_not_mem.mpr
    intro p hp
    have := hsub p hp
    simp at this
  | cons e rest ih =>
    intro st st' hsub h
    obtain ⟨a, x⟩ := e
    unfold burnValidatorsLoop at h
    split at h
    · cases h
    · rename_i st1 hs1
      apply ih (deleteValidatorBurn st1 a) st' _ h
      intro p hp
      have hb := simpleSlash_burns hs1
      simp only [deleteValidatorBurn, kvDelete_eq_filter, hb, List.mem_filter,
        decide_eq_true_eq] at hp
      have h1 := hsub p hp.1
      simp only [List.map_cons, List.mem_cons] at h1
      rcases h1 with h1 | h1
      · exact absurd h1 hp.2
      · exact h1

theorem foldl_drainEntry_error (k : Params) (p : Panic) (rest : List (Address × Int)) :
    rest.foldl (drainEntry k) (.error p) = .error p := by
  induction rest with
  | nil => rfl
  | cons e rest ih => simpa [List.foldl_cons, drainEntry] using ih

theorem burnValidatorsLoop_eq_foldl (k : Params) (rest : List (Address × Int)) :
    ∀ st : State, burnValidatorsLoop k st rest = rest.foldl (drainEntry k) (.ok st) := by
  induction rest with
  | nil => intro st; rfl
  | cons e rest ih =>
    intro st
    obtain ⟨a, x⟩ := e
    unfold burnValidatorsLoop
    rw [List.foldl_cons]
    cases hs : simpleSlash k st a x with
    | error p =>
      simp only [drainEntry, hs]
      rw [foldl_drainEntry_error]
    | ok st1 =>
      simp only [drainEntry, hs]
      exact ih _

/-- C24: burnValidators is the fold, over the entries of the burn queue in
ascending byte-lexicographic order of their addresses, of: simpleSlash of the
address by its accumulated severity, then deletion of the entry. The queue
of the state is in key order, an order that BurnValidator keeps. The entry of
the smallest address is therefore applied to the initial state, force-unstake
included, before the loop goes on with the entries of the larger addresses,
and when burnValidators returns the burn queue is empty. -/
theorem burnValidators_eq_fold_in_address_order (k : Params) (st : State)
    (hs : st.burns.Pairwise (fun p q => bytesLt p.1 q.1 = true)) :
    burnValidators k st = drainInAddressOrder k st ∧
    (∀ a x, (BurnValidator st a x).burns.Pairwise (fun p q => bytesLt p.1 q.1 = true)) ∧
    (∀ a x rest, st.burns = (a, x) :: rest →
      (∀ e ∈ rest, bytesLt a e.1 = true) ∧
      burnValidators k st =
        match simpleSlash k st a x with
        | .error p => .error p
        | .ok st1 => burnValidatorsLoop k (deleteValidatorBurn st1 a) rest) ∧
    (∀ st', burnValidators k st = .ok st' → st'.burns = []) := by
  refine ⟨?_, ?_, ?_, ?_⟩
  · unfold burnValidators drainInAddressOrder
    rw [burnValidatorsLoop_eq_foldl, List.Sorted.insertionSort_eq hs]
  · intro a x
    rw [burnValidator_eq]
    exact kvSet_pairwise _ _ _ hs
  · intro a x rest hq
    rw [hq, List.pairwise_cons] at hs
    refine ⟨fun e he => hs.1 e he, ?_⟩
    unfold burnValidators
    rw [hq]
    rfl
  · intro st' h
    exact burnValidatorsLoop_empties k st.burns st st' (fun p hp => List.mem_map_of_mem _ hp) h

/-- Witness of C24 on scenario S4: the queue holds V2 (severity 7) before V1
(severity 3); burnValidators returns with V2 force-unstaked (its 5 tokens
burned), V1 at 99,999,997, the pool at 99,999,997 and the queue empty. -/
theorem burnValidators_eq_fold_in_address_order_witness :
    stateS4.burns = [((addrOf 0).bytes, 7), ((addrOf 1).bytes, 3)] ∧
    burnValidators paramsS3 stateS4 = drainInAddressOrder paramsS3 stateS4 ∧
    ∃ st', burnValidators paramsS3 stateS4 = .ok st' ∧ st'.burns = [] ∧
      st'.stakedPool = 99999997 ∧
      GetValidator st' (addrOf 0).bytes
        = some { validatorS4 with StakedTokens := 0, Status := BondStatus.Unbonded } ∧
      GetValidator st' (addrOf 1).bytes = some { validatorS3 with StakedTokens := 99999997 } := by
  have h := burnValidators_eq_fold_in_address_order paramsS3 stateS4 (by decide)
  refine ⟨by decide, h.1, ?_⟩
  cases hr : burnValidators paramsS3 stateS4 with
  | error e =>
    have hok : (burnValidators paramsS3 stateS4).toBool = true := by decide
    rw [hr] at hok
    cases hok
  | ok st' =>
    have hd : (burnValidators paramsS3 stateS4).map
        (fun s => (s.stakedPool, GetValidator s (addrOf 0).bytes, GetValidator s (addrOf 1).bytes))
        = .ok (99999997,
            some { validatorS4 with StakedTokens := 0, Status := BondStatus.Unbonded },
            some { validatorS3 with StakedTokens := 99999997 }) := by decide
    rw [hr] at hd
    simp only [Except.map, Except.ok.injEq, Prod.mk.injEq] at hd
    exact ⟨st', rfl, h.2.2.2 st' hr, hd.1, hd.2.1, hd.2.2⟩


/-! ## stake conservation -/

theorem findValidator_mem {vs : List Validator} {a : Address} {v : Validator}
    (h : findValidator vs a = some v) : v ∈ vs := by
  induction vs with
  | nil => simp [findValidator] at h
  | cons w rest ih =>
    unfold findValidator at h
    split at h
    · cases h
      exact List.mem_cons_self _ _
    · exact List.mem_cons_of_mem _ (ih h)

theorem mem_putValidator {vs : List Validator} {v u : Validator}
    (h : u ∈ putValidator vs v) : u = v ∨ u ∈ vs := by
  induction vs with
  | nil => simpa [putValidator] using h
  | cons w rest ih =>
    unfold putValidator at h
    split at h
    · rcases List.mem_cons.mp h with h1 | h1
      · exact Or.inl h1
      · exact Or.inr (List.mem_cons_of_mem _ h1)
    · split at h
      · rcases List.mem_cons.mp h with h1 | h1
        · exact Or.inl h1
        · exact Or.inr h1
      · rcases List.mem_cons.mp h with h1 | h1
        · exact Or.inr (by rw [h1]; exact List.mem_cons_self _ _)
        · rcases ih h1 with h2 | h2
          · exact Or.inl h2
          · exact Or.inr (List.mem_cons_of_mem _ h2)

theorem putValidator_pairwise (vs : List Validator) (v : Validator)
    (hs : vs.Pairwise (fun u w => bytesLt u.Address.bytes w.Address.bytes = true)) :
    (putValidator vs v).Pairwise (fun u w => bytesLt u.Address.bytes w.Address.bytes = true) := by
  induction vs with
  | nil => simp [putValidator]
  | cons c rest ih =>
    rw [List.pairwise_cons] at hs
    unfold putValidator
    split
    · rename_i hca
      rw [List.pairwise_cons]
      refine ⟨fun q hq => ?_, hs.2⟩
      have := hs.1 q hq
      rw [← hca]
      exact this
    · rename_i hca
      split
      · rename_i hlt
        rw [List.pairwise_cons]
        refine ⟨fun q hq => ?_, List.pairwise_cons.mpr hs⟩
        rcases List.mem_cons.mp hq with h1 | h1
        · rw [h1]; exact hlt
        · exact bytesLt_trans _ _ _ hlt (hs.1 q h1)
      · rename_i hlt
        rw [List.pairwise_cons]
        refine ⟨fun q hq => ?_, ih hs.2⟩
        rcases mem_putValidator hq with h1 | h1
        · rw [h1]
          exact bytesLt_total _ _ (Ne.symm hca) (by simpa using hlt)
        · exact hs.1 q h1

theorem bondedStake_put (vs : List Validator) (v w : Validator)
    (hs : vs.Pairwise (fun u w => bytesLt u.Address.bytes w.Address.bytes = true))
    (hfound : findValidator vs w.Address.bytes = some v) :
    bondedStake (putValidator vs w)
      = bondedStake vs - (if v.Status = BondStatus.Bonded then v.StakedTokens else 0)
        + (if w.Status = BondStatus.Bonded then w.StakedTokens else 0) := by
  induction vs with
  | nil => simp [findValidator] at hfound
  | cons c rest ih =>
    rw [List.pairwise_cons] at hs
    unfold findValidator at hfound
    split at hfound
    · rename_i hc
      cases hfound
      unfold putValidator
      rw [if_pos hc]
      simp only [bondedStake]
      omega
    · rename_i hc
      have hmem := findValidator_mem hfound
      have hva := findValidator_address hfound
      have hlt := hs.1 v hmem
      rw [hva] at hlt
      have hnlt := bytesLt_asymm _ _ hlt
      unfold putValidator
      rw [if_neg hc]
      simp only [hnlt, Bool.false_eq_true, if_false]
      simp only [bondedStake]
      rw [ih hs.2 hfound]
      omega

theorem applyBurn_conservation {k : Params} {st st' : State} {v : Validator} {burn : Int}
    (hs : st.validators.Pairwise (fun u w => bytesLt u.Address.bytes w.Address.bytes = true))
    (hcons : bondedStake st.validators = st.stakedPool)
    (hfound : GetValidator st v.Address.bytes = some v) (hb : v.Status = BondStatus.Bonded)
    (h : applyBurn k st v burn = .ok st') :
    bondedStake st'.validators = st'.stakedPool ∧
    st'.validators.Pairwise (fun u w => bytesLt u.Address.bytes w.Address.bytes = true) := by
  have h1 : bondedStake (putValidator st.validators { v with StakedTokens := v.StakedTokens - burn })
      = bondedStake st.validators - v.StakedTokens + (v.StakedTokens - burn) := by
    have := bondedStake_put st.validators v { v with StakedTokens := v.StakedTokens - burn } hs hfound
    simpa [hb] using this
  have hs1 := putValidator_pairwise st.validators { v with StakedTokens := v.StakedTokens - burn } hs
  rcases (applyBurn_result h).2.2.2 with ⟨_, hv, hp⟩ | ⟨_, hv, hp⟩
  · rw [hv, hp, h1]
    exact ⟨by omega, hs1⟩
  · have h2 := bondedStake_put
      (putValidator st.validators { v with StakedTokens := v.StakedTokens - burn })
      { v with StakedTokens := v.StakedTokens - burn }
      { v with StakedTokens := 0, Status := BondStatus.Unbonded, UnstakingCompletionTime := 0 } hs1
      (findValidator_put_same st.validators { v with StakedTokens := v.StakedTokens - burn })
    rw [if_pos hb, if_neg (show ¬ (BondStatus.Unbonded = BondStatus.Bonded) by decide)] at h2
    dsimp only at h2
    rw [hv, hp, h2, h1]
    exact ⟨by omega, putValidator_pairwise _ _ hs1⟩

/-- C29, what fails: in scenario S4 with V1 Unbonding, the staked pool holds
the 5 tokens of V2, the only Bonded validator. An administrative burn of 3, or
a slash of power 100 by the factor 0.00000003, on the Unbonding V1 returns
with 3 tokens burned from the staked pool: the pool is 2 and the sum over the
Bonded validators still 5. -/
theorem slash_of_unbonding_validator_breaks_conservation :
    bondedStake stateS4Unbonding.validators = stateS4Unbonding.stakedPool ∧
    (simpleSlash paramsS3 stateS4Unbonding (addrOf 1).bytes 3).map
      (fun s => (bondedStake s.validators, s.stakedPool)) = .ok (5, 2) ∧
    (slash paramsS3 stateS4Unbonding (addrOf 1).bytes 40 100 ⟨30000000000⟩).map
      (fun s => (bondedStake s.validators, s.stakedPool)) = .ok (5, 2) := by
  decide

/-- C29, amended: slashing a Bonded validator preserves stake conservation.
In a state whose validator store is in key order and in which the sum of the
staked tokens of the Bonded validators equals the balance of the staked pool,
the equality holds again after every call of slash or simpleSlash on an
existing Bonded validator that returns, with or without force-unstake. -/
theorem slash_of_bonded_preserves_conservation (k : Params) (st st' : State) (addr : Address)
    (v : Validator) (h p : Int) (f : Dec) (amount : Int)
    (hs : st.validators.Pairwise (fun u w => bytesLt u.Address.bytes w.Address.bytes = true))
    (hcons : bondedStake st.validators = st.stakedPool)
    (hfound : GetValidator st addr = some v) (hb : v.Status = BondStatus.Bonded) :
    (slash k st addr h p f = .ok st' → bondedStake st'.validators = st'.stakedPool) ∧
    (simpleSlash k st addr amount = .ok st' → bondedStake st'.validators = st'.stakedPool) := by
  have haddr : v.Address.bytes = addr := findValidator_address hfound
  have hfound2 : GetValidator st v.Address.bytes = some v := by rw [haddr]; exact hfound
  constructor
  · intro hsl
    rcases slash_cases hsl with ⟨hnone, _⟩ | ⟨w, burn, hw, _, hab⟩
    · rw [hfound] at hnone
      cases hnone
    · rw [hfound] at hw
      cases hw
      exact (applyBurn_conservation hs hcons hfound2 hb hab).1
  · intro hsl
    rcases (simpleSlash_cases hsl).2 with ⟨hnone, _⟩ | ⟨w, hw, hab⟩
    · rw [hfound] at hnone
      cases hnone
    · rw [hfound] at hw
      cases hw
      exact (applyBurn_conservation hs hcons hfound2 hb hab).1

/-- Witness of C29 on scenario S4 with both validators Bonded: the slash of V1
by 5,000,000 and the administrative burn of 7 on V2, which force-unstakes it,
return and keep the sum over the Bonded validators equal to the pool. -/
theorem slash_of_bonded_preserves_conservation_witness :
    bondedStake stateS4Bonded.validators = stateS4Bonded.stakedPool ∧
    (∃ st', slash paramsS3 stateS4Bonded (addrOf 1).bytes 40 100 paramsS3.SlashFractionDoubleSign
        = .ok st' ∧ bondedStake st'.validators = st'.stakedPool ∧ st'.stakedPool = 95000005) ∧
    (∃ st', simpleSlash paramsS3 stateS4Bonded (addrOf 0).bytes 7 = .ok st' ∧
      bondedStake st'.validators = st'.stakedPool ∧ st'.stakedPool = 100000000) := by
  refine ⟨by decide, ?_, ?_⟩
  · cases hr : slash paramsS3 stateS4Bonded (addrOf 1).bytes 40 100
        paramsS3.SlashFractionDoubleSign with
    | error e =>
      have hok : (slash paramsS3 stateS4Bonded (addrOf 1).bytes 40 100
          paramsS3.SlashFractionDoubleSign).toBool = true := by decide
      rw [hr] at hok
      cases hok
    | ok st' =>
      have hd : (slash paramsS3 stateS4Bonded (addrOf 1).bytes 40 100
          paramsS3.SlashFractionDoubleSign).map (fun s => s.stakedPool) = .ok 95000005 := by decide
      rw [hr] at hd
      simp only [Except.map, Except.ok.injEq] at hd
      exact ⟨st', rfl, (slash_of_bonded_preserves_conservation paramsS3 stateS4Bonded st'
        (addrOf 1).bytes validatorS3 40 100 paramsS3.SlashFractionDoubleSign 1 (by decide)
        (by decide) (by decide) (by decide)).1 hr, hd⟩
  · cases hr : simpleSlash paramsS3 stateS4Bonded (addrOf 0).bytes 7 with
    | error e =>
      have hok : (simpleSlash paramsS3 stateS4Bonded (addrOf 0).bytes 7).toBool = true := by decide
      rw [hr] at hok
      cases hok
    | ok st' =>
      have hd : (simpleSlash paramsS3 stateS4Bonded (addrOf 0).bytes 7).map
          (fun s => s.stakedPool) = .ok 100000000 := by decide
      rw [hr] at hd
      simp only [Except.map, Except.ok.injEq] at hd
      exact ⟨st', rfl, (slash_of_bonded_preserves_conservation paramsS3 stateS4Bonded st'
        (addrOf 0).bytes validatorS4 40 100 paramsS3.SlashFractionDoubleSign 7 (by decide)
        (by decide) (by decide) (by decide)).2 hr, hd⟩


/-! ## the first downtime slash -/

theorem handleValidatorSignature_before_window_end {k : Params} {st : State} {a : Address}
    {power : Int} {signed : Bool} {v : Validator} {info : ValidatorSigningInfo}
    (hfound : GetValidator st a = some v) (hinfo : GetValidatorSigningInfo st a = some info)
    (hW : k.SignedBlocksWindow ≠ 0)
    (hh : st.blockHeight ≤ info.StartHeight + k.SignedBlocksWindow) :
    handleValidatorSignature k st a power signed
      = .ok (SetValidatorSigningInfo (signatureUpdate k st a info signed).1 a
          (signatureUpdate k st a info signed).2) := by
  rw [handleValidatorSignature_eq k st a power signed v info hfound hinfo hW]
  have hs := (signatureUpdate_info k st a info signed).2.1
  rw [if_neg]
  rw [hs]
  intro hc
  omega

theorem windowSum_replicate (W n : Nat) : windowSum W (List.replicate n false) = min n W := by
  unfold windowSum
  rw [List.reverse_replicate, List.take_replicate]
  simp [List.countP_replicate, Nat.min_comm]

theorem consecutiveMisses_run {k : Params} (hW : 0 < k.SignedBlocksWindow) (a : Address)
    (v : Validator) (s : Int) (rs : List Report) :
    ∀ (fs : List Bool) (st : State) (h : Int), SlidingWindowState k st a fs →
      (∃ info, GetValidatorSigningInfo st a = some info ∧ info.StartHeight = s) →
      GetValidator st a = some v → consecutiveMisses a h rs = true →
      h + (rs.length : Int) ≤ s + k.SignedBlocksWindow + 1 →
      ∃ st', runReports k st rs = .ok st' ∧ slashEvents st'.events = slashEvents st.events ∧
        SlidingWindowState k st' a (fs ++ List.replicate rs.length false) ∧
        (∃ info', GetValidatorSigningInfo st' a = some info' ∧ info'.StartHeight = s) ∧
        GetValidator st' a = some v ∧ st'.stakedPool = st.stakedPool := by
  induction rs with
  | nil =>
    intro fs st h hinv hinfo hfound _ _
    exact ⟨st, rfl, rfl, by simpa using hinv, hinfo, hfound, rfl⟩
  | cons r rs ih =>
    intro fs st h hinv hinfo hfound hm hlen
    obtain ⟨info, hinfo1, hstart⟩ := hinfo
    simp only [consecutiveMisses, Bool.and_eq_true, decide_eq_true_eq, Bool.not_eq_true'] at hm
    obtain ⟨⟨⟨hra, hsg⟩, hrh⟩, hrest⟩ := hm
    have hfound0 : GetValidator ({ st with blockHeight := r.height, blockTime := r.time } : State) a
        = some v := hfound
    have hinfo0 : GetValidatorSigningInfo
        ({ st with blockHeight := r.height, blockTime := r.time } : State) a = some info := hinfo1
    have hinv0 : SlidingWindowState k { st with blockHeight := r.height, blockTime := r.time } a fs :=
      hinv
    have hlen2 : (((r :: rs).length : Nat) : Int) = (rs.length : Int) + 1 := by
      simp only [List.length_cons]
      omega
    have hh : ({ st with blockHeight := r.height, blockTime := r.time } : State).blockHeight
        ≤ info.StartHeight + k.SignedBlocksWindow := by
      show r.height ≤ info.StartHeight + k.SignedBlocksWindow
      omega
    have heq : handleValidatorSignature k { st with blockHeight := r.height, blockTime := r.time }
        a r.power false
        = .ok (SetValidatorSigningInfo
          (signatureUpdate k { st with blockHeight := r.height, blockTime := r.time } a info false).1 a
          (signatureUpdate k { st with blockHeight := r.height, blockTime := r.time } a info false).2) :=
      handleValidatorSignature_before_window_end hfound0 hinfo0 (ne_of_gt hW) hh
    have hfr := signatureUpdate_frame k { st with blockHeight := r.height, blockTime := r.time }
      a info false
    have hns1 : slashEvents (SetValidatorSigningInfo
        (signatureUpdate k { st with blockHeight := r.height, blockTime := r.time } a info false).1 a
        (signatureUpdate k { st with blockHeight := r.height, blockTime := r.time } a info false).2).events
        = slashEvents ({ st with blockHeight := r.height, blockTime := r.time } : State).events :=
      signatureUpdate_slashEvents k _ a info false
    have hstep := slidingWindowState_step hW hinv0 heq hns1
    have hinfo2 : ∃ info', GetValidatorSigningInfo (SetValidatorSigningInfo
        (signatureUpdate k { st with blockHeight := r.height, blockTime := r.time } a info false).1 a
        (signatureUpdate k { st with blockHeight := r.height, blockTime := r.time } a info false).2) a
        = some info' ∧ info'.StartHeight = s := by
      refine ⟨_, kvGet_kvSet_same _ _ _, ?_⟩
      rw [(signatureUpdate_info k _ a info false).2.1, hstart]
    have hfound2 : GetValidator (SetValidatorSigningInfo
        (signatureUpdate k { st with blockHeight := r.height, blockTime := r.time } a info false).1 a
        (signatureUpdate k { st with blockHeight := r.height, blockTime := r.time } a info false).2) a
        = some v := by
      have hvs : (SetValidatorSigningInfo
          (signatureUpdate k { st with blockHeight := r.height, blockTime := r.time } a info false).1 a
          (signatureUpdate k { st with blockHeight := r.height, blockTime := r.time } a info
            false).2).validators = st.validators := hfr.1
      rw [getValidator_of_validators_eq hvs, hfound]
    obtain ⟨st', h1, h2, h3, h4, h5, h6⟩ := ih (fs ++ [false]) _ (h + 1) hstep hinfo2 hfound2 hrest
      (by omega)
    refine ⟨st', ?_, ?_, ?_, h4, h5, ?_⟩
    · unfold runReports
      rw [hra, hsg, heq]
      exact h1
    · rw [h2]
      exact hns1
    · simpa [List.replicate_succ] using h3
    · rw [h6]
      exact hfr.2.1

/-- C21: the first downtime slash of a validator that misses every block.
For a not jailed validator with a fresh signing info of start height s, a
window W > 0 and max_missed < W, and one report per height from s+1 on, all
missed: after the reports of the heights s+1 to s+n, for every n <= W, the
run has returned without a downtime slash (no slash event, tokens and pool
unchanged) and the counter is n; and after the W reports up to s+W the call
at height s+W+1 takes the downtime branch with the counter at W: when it
returns, a slash event is added, the validator is jailed and the signing info
has jailed-until = block time + DowntimeJailDuration and counter 0. -/
theorem first_downtime_slash_after_full_window (k : Params) (st : State) (a : Address)
    (v : Validator) (info : ValidatorSigningInfo) (s : Int) (rs : List Report)
    (hW : 0 < k.SignedBlocksWindow)
    (hmax : k.SignedBlocksWindow - MinSignedPerWindow k < k.SignedBlocksWindow)
    (hfound : GetValidator st a = some v) (hj : v.Jailed = false)
    (hinfo : GetValidatorSigningInfo st a = some info) (hs : info.StartHeight = s)
    (hoff : info.IndexOffset = 0) (hc : info.MissedBlocksCounter = 0)
    (hbits : ∀ i, valMissedAt st a i = false)
    (hrs : consecutiveMisses a (s + 1) rs = true)
    (hlen : (rs.length : Int) ≤ k.SignedBlocksWindow) :
    ∃ st' info', runReports k st rs = .ok st' ∧ slashEvents st'.events = slashEvents st.events ∧
      GetValidator st' a = some v ∧ st'.stakedPool = st.stakedPool ∧
      GetValidatorSigningInfo st' a = some info' ∧ info'.MissedBlocksCounter = (rs.length : Int) ∧
      ((rs.length : Int) = k.SignedBlocksWindow → ∀ (power time : Int),
        handleValidatorSignature k
            { st' with blockHeight := s + k.SignedBlocksWindow + 1, blockTime := time } a power false
          = downtimeSlash k (s + k.SignedBlocksWindow + 1)
              (signatureUpdate k
                { st' with blockHeight := s + k.SignedBlocksWindow + 1, blockTime := time }
                a info' false).1 a power
              (signatureUpdate k
                { st' with blockHeight := s + k.SignedBlocksWindow + 1, blockTime := time }
                a info' false).2 ∧
        (signatureUpdate k
          { st' with blockHeight := s + k.SignedBlocksWindow + 1, blockTime := time }
          a info' false).2.MissedBlocksCounter = k.SignedBlocksWindow ∧
        ∀ st'', handleValidatorSignature k
            { st' with blockHeight := s + k.SignedBlocksWindow + 1, blockTime := time } a power false
            = .ok st'' →
          slashEvents st''.events = slashEvents st.events + 1 ∧
          (∃ v', GetValidator st'' a = some v' ∧ v'.Jailed = true) ∧
          ∃ info'', GetValidatorSigningInfo st'' a = some info'' ∧
            info''.JailedUntil = time + k.DowntimeJailDuration ∧
            info''.MissedBlocksCounter = 0) := by
  have hinit : SlidingWindowState k st a [] := by
    refine ⟨info, hinfo, by rw [hoff]; rfl, by rw [hc]; simp [windowSum], ?_, ?_⟩
    · intro q hq
      simp at hq
    · intro j _ _
      exact hbits _
  obtain ⟨st', h1, h2, h3, h4, h5, h6⟩ :=
    consecutiveMisses_run hW a v s rs [] st (s + 1) hinit ⟨info, hinfo, hs⟩ hfound hrs (by omega)
  obtain ⟨info', hi', hoff', hc', hb1, _⟩ := h3
  obtain ⟨info2, hi2, hst2⟩ := h4
  rw [hi'] at hi2
  cases hi2
  have hWn : Int.ofNat k.SignedBlocksWindow.toNat = k.SignedBlocksWindow :=
    Int.toNat_of_nonneg (le_of_lt hW)
  simp only [List.nil_append, List.length_replicate, windowSum_replicate] at hoff' hc' hb1
  have hle : rs.length ≤ k.SignedBlocksWindow.toNat := by omega
  have hcnt : info'.MissedBlocksCounter = (rs.length : Int) := by
    rw [hc', Nat.min_eq_left hle]
    rfl
  refine ⟨st', info', h1, h2, h5, h6, hi', hcnt, ?_⟩
  intro hfull power time
  have hfound0 : GetValidator
      ({ st' with blockHeight := s + k.SignedBlocksWindow + 1, blockTime := time } : State) a
      = some v := h5
  have hinfo0 : GetValidatorSigningInfo
      ({ st' with blockHeight := s + k.SignedBlocksWindow + 1, blockTime := time } : State) a
      = some info' := hi'
  have heq := handleValidatorSignature_eq k
    { st' with blockHeight := s + k.SignedBlocksWindow + 1, blockTime := time } a power false v info'
    hfound0 hinfo0 (ne_of_gt hW)
  have hsu := signatureUpdate_info k
    { st' with blockHeight := s + k.SignedBlocksWindow + 1, blockTime := time } a info' false
  have hcu := signatureUpdate_counter k
    { st' with blockHeight := s + k.SignedBlocksWindow + 1, blockTime := time } a info' false
  have hpos : 0 < rs.length := by omega
  have hidx : Int.tmod info'.IndexOffset k.SignedBlocksWindow = 0 := by
    rw [hoff', Int.ofNat_eq_coe, hfull]
    exact Int.tmod_self
  have hbit0 : valMissedAt st' a 0 = true := by
    have := hb1 0 hpos (by omega)
    obtain ⟨m, hm⟩ : ∃ m, rs.length = m + 1 := ⟨rs.length - 1, by omega⟩
    rw [hm, List.replicate_succ] at this
    simpa using this
  have hbit : valMissedAt
      ({ st' with blockHeight := s + k.SignedBlocksWindow + 1, blockTime := time } : State) a
      (Int.tmod info'.IndexOffset k.SignedBlocksWindow) = true := by
    rw [hidx]
    exact hbit0
  rw [hbit] at hcu
  simp only [Bool.not_false, if_true] at hcu
  have hcW : (signatureUpdate k
      { st' with blockHeight := s + k.SignedBlocksWindow + 1, blockTime := time }
      a info' false).2.MissedBlocksCounter = k.SignedBlocksWindow := by
    rw [hcu, hcnt, hfull]
    omega
  have hcond : ((signatureUpdate k
        { st' with blockHeight := s + k.SignedBlocksWindow + 1, blockTime := time }
        a info' false).2.StartHeight + k.SignedBlocksWindow
        < ({ st' with blockHeight := s + k.SignedBlocksWindow + 1, blockTime := time } : State).blockHeight ∧
      k.SignedBlocksWindow - MinSignedPerWindow k
        < (signatureUpdate k
            { st' with blockHeight := s + k.SignedBlocksWindow + 1, blockTime := time }
            a info' false).2.MissedBlocksCounter) ∧ v.Jailed = false := by
    refine ⟨⟨?_, ?_⟩, hj⟩
    · rw [hsu.2.1, hst2]
      show s + k.SignedBlocksWindow < s + k.SignedBlocksWindow + 1
      omega
    · rw [hcW]
      exact hmax
  rw [if_pos hcond] at heq
  refine ⟨heq, hcW, ?_⟩
  intro st'' hok
  rw [heq] at hok
  have hfr := signatureUpdate_frame k
    { st' with blockHeight := s + k.SignedBlocksWindow + 1, blockTime := time } a info' false
  have hget : GetValidator (signatureUpdate k
      { st' with blockHeight := s + k.SignedBlocksWindow + 1, blockTime := time }
      a info' false).1 a = some v := by
    rw [getValidator_of_validators_eq hfr.1]
    exact h5
  have hr := downtimeSlash_result hget hok
  refine ⟨?_, hr.2.2.2.2.1, _, hr.1, ?_, rfl⟩
  · rw [hr.2.2.2.2.2.2, slashEvents_append, signatureUpdate_slashEvents]
    show slashEvents st'.events + _ = _
    rw [h2]
    rfl
  · show (signatureUpdate k
      { st' with blockHeight := s + k.SignedBlocksWindow + 1, blockTime := time }
      a info' false).1.blockTime + k.DowntimeJailDuration = time + k.DowntimeJailDuration
    rw [hfr.2.2.2.2]

set_option maxRecDepth 100000 in
/-- Witness of C21 on scenario S2 (W = 100, MinSignedPerWindow 0.5,
SlashFractionDowntime 0.01, power 100, stake 100,000,000, start height 0): the
blocks 1 to 100, all missed, bring no slash and the counter to 100; the call
of block 101 takes the downtime branch, and the run of the 101 blocks ends
with 1,000,000 burned, one slash event, V1 jailed with jailed-until = block
time + 600 s and the counter reset to 0. -/
theorem first_downtime_slash_after_full_window_witness :
    consecutiveMisses (addrOf 1).bytes (0 + 1) reportsS2 = true ∧
    (∃ st' info', runReports paramsS3 stateS3 reportsS2 = .ok st' ∧
      slashEvents st'.events = slashEvents stateS3.events ∧
      st'.stakedPool = stateS3.stakedPool ∧
      GetValidatorSigningInfo st' (addrOf 1).bytes = some info' ∧
      info'.MissedBlocksCounter = 100 ∧
      handleValidatorSignature paramsS3
          { st' with blockHeight := 101, blockTime := 10000100000000 } (addrOf 1).bytes 100 false
        = downtimeSlash paramsS3 101
            (signatureUpdate paramsS3 { st' with blockHeight := 101, blockTime := 10000100000000 }
              (addrOf 1).bytes info' false).1 (addrOf 1).bytes 100
            (signatureUpdate paramsS3 { st' with blockHeight := 101, blockTime := 10000100000000 }
              (addrOf 1).bytes info' false).2) ∧
    (runReports paramsS3 stateS3 (reportsS2 ++ [reportS2])).map
      (fun st => (st.stakedPool, slashEvents st.events, GetValidator st (addrOf 1).bytes,
        GetValidatorSigningInfo st (addrOf 1).bytes))
      = .ok (99000000, 1, some { validatorS3 with StakedTokens := 99000000, Jailed := true },
          some { signingInfoS3 with JailedUntil := 10600100000000 }) := by
  obtain ⟨st', info', h1, h2, _, h4, h5, h6, h7⟩ :=
    first_downtime_slash_after_full_window paramsS3 stateS3 (addrOf 1).bytes validatorS3
      signingInfoS3 0 reportsS2 (by decide) (by decide) (by decide) (by decide) (by decide)
      (by decide) (by decide) (by decide) (fun i => by simp [valMissedAt, stateS3]) (by decide)
      (by decide)
  have h8 := h7 (by decide) 100 10000100000000
  exact ⟨by decide, ⟨st', info', h1, h2, h4, h5, by rw [h6]; decide, h8.1⟩, by decide⟩


/-! ## change of the window -/

/-- C22, what fails: handleValidatorSignature has no reset for a changed
window. In scenario S6 (counter 40, offset 140 under window 100), a signed
block 141 under the unchanged window brings no slash; after the window has
become 200 the same call stores offset 141 and counter 40 (neither is reset);
and after the window has become 10 the same call, for a signed block, finds
the counter at 39, above the new window, applies the downtime slash (one
slash event, 1,000,000 burned) and jails V1. -/
theorem window_change_without_reset :
    (handleValidatorSignature paramsS3 stateS6 (addrOf 1).bytes 100 true).map
      (fun st => (slashEvents st.events, st.stakedPool)) = .ok (0, 100000000) ∧
    (handleValidatorSignature paramsWindow200 stateS6 (addrOf 1).bytes 100 true).map
      (fun st => (GetValidatorSigningInfo st (addrOf 1).bytes).map
        (fun i => (i.IndexOffset, i.MissedBlocksCounter))) = .ok (some (141, 40)) ∧
    (signatureUpdate paramsWindow10 stateS6 (addrOf 1).bytes
      { signingInfoS3 with IndexOffset := 140, MissedBlocksCounter := 40 } true).2.MissedBlocksCounter
      = 39 ∧
    (handleValidatorSignature paramsWindow10 stateS6 (addrOf 1).bytes 100 true).map
      (fun st => (slashEvents st.events, st.stakedPool,
        (GetValidator st (addrOf 1).bytes).map (fun x => x.Jailed))) = .ok (1, 99000000, some true) := by
  decide

/-- C22, amended: after a change of SignedBlocksWindow the signature handling
keeps the stored counter and offset and tests the downtime condition with
the new window. For a validator whose stored counter plus one is at most the
max_missed of the current parameters, handleValidatorSignature returns
without a downtime slash (no slash event, validator records and pool
unchanged), the stored offset is the previous one plus one and the stored
counter differs from the previous one by at most one. -/
theorem window_change_keeps_counter_and_offset (k : Params) (st : State) (a : Address)
    (power : Int) (signed : Bool) (v : Validator) (info : ValidatorSigningInfo)
    (hfound : GetValidator st a = some v) (hinfo : GetValidatorSigningInfo st a = some info)
    (hW : k.SignedBlocksWindow ≠ 0)
    (hbelow : info.MissedBlocksCounter + 1 ≤ k.SignedBlocksWindow - MinSignedPerWindow k) :
    ∃ st' info', handleValidatorSignature k st a power signed = .ok st' ∧
      slashEvents st'.events = slashEvents st.events ∧
      st'.validators = st.validators ∧ st'.stakedPool = st.stakedPool ∧
      GetValidatorSigningInfo st' a = some info' ∧
      info'.IndexOffset = info.IndexOffset + 1 ∧
      info.MissedBlocksCounter - 1 ≤ info'.MissedBlocksCounter ∧
      info'.MissedBlocksCounter ≤ info.MissedBlocksCounter + 1 := by
  have heq := handleValidatorSignature_eq k st a power signed v info hfound hinfo hW
  have hcu := signatureUpdate_counter k st a info signed
  have hsu := signatureUpdate_info k st a info signed
  have hfr := signatureUpdate_frame k st a info signed
  have hb1 : (signatureUpdate k st a info signed).2.MissedBlocksCounter
      ≤ info.MissedBlocksCounter + 1 := by
    rw [hcu]
    split <;> split <;> omega
  have hb2 : info.MissedBlocksCounter - 1
      ≤ (signatureUpdate k st a info signed).2.MissedBlocksCounter := by
    rw [hcu]
    split <;> split <;> omega
  rw [if_neg (by intro hc; omega)] at heq
  refine ⟨_, _, heq, signatureUpdate_slashEvents k st a info signed, hfr.1, hfr.2.1,
    kvGet_kvSet_same _ _ _, hsu.2.2.2.2, hb2, hb1⟩

/-- Witness of C22 on scenario S6: the counter of V1 was 40 under window 100;
after the window has become 200 (max_missed 100) a missed block 141 brings no
slash, the offset is 141 and the counter 41. -/
theorem window_change_keeps_counter_and_offset_witness :
    paramsWindow200.SignedBlocksWindow - MinSignedPerWindow paramsWindow200 = 100 ∧
    ∃ st' info', handleValidatorSignature paramsWindow200 stateS6 (addrOf 1).bytes 100 false = .ok st' ∧
      slashEvents st'.events = slashEvents stateS6.events ∧
      st'.stakedPool = 100000000 ∧
      GetValidatorSigningInfo st' (addrOf 1).bytes = some info' ∧
      info'.IndexOffset = 141 ∧ info'.MissedBlocksCounter ≤ 41 := by
  obtain ⟨st', info', h1, h2, _, h4, h5, h6, _, h8⟩ :=
    window_change_keeps_counter_and_offset paramsWindow200 stateS6 (addrOf 1).bytes 100 false
      validatorS3 { signingInfoS3 with IndexOffset := 140, MissedBlocksCounter := 40 }
      (by decide) (by decide) (by decide) (by decide)
  exact ⟨by decide, st', info', h1, h2, h4, h5, h6, h8⟩


/-! ## the validator type -/

/-- C31: for every validator, whatever its status and its staked tokens,
ABCIValidatorUpdateZero returns the update that carries the consensus public
key of the validator and Power = 0; the update does not change when the
status or the tokens of the validator are replaced. -/
theorem abciValidatorUpdateZero_has_key_and_zero_power (v : Validator) (s : BondStatus)
    (t : Int) :
    v.ABCIValidatorUpdateZero.PubKey = v.ConsPubKey ∧ v.ABCIValidatorUpdateZero.Power = 0 ∧
    Validator.ABCIValidatorUpdateZero { v with Status := s, StakedTokens := t }
      = { PubKey := v.ConsPubKey, Power := 0 } :=
  ⟨rfl, rfl, rfl⟩

/-- Witness of C31 on the cases of TestValidator_ABCIValidatorUpdateZero: an
Unbonded and a Bonded validator with one token both give the key and power 0,
while the plain update of a Bonded validator with 100,000,000 tokens has
power 100. -/
theorem abciValidatorUpdateZero_has_key_and_zero_power_witness :
    Validator.ABCIValidatorUpdateZero
      { validatorS3 with Status := BondStatus.Unbonded, StakedTokens := 1 }
      = { PubKey := [7], Power := 0 } ∧
    Validator.ABCIValidatorUpdateZero
      { validatorS3 with Status := BondStatus.Bonded, StakedTokens := 1 }
      = { PubKey := [7], Power := 0 } ∧
    validatorS3.ABCIValidatorUpdate = { PubKey := [7], Power := 100 } :=
  ⟨(abciValidatorUpdateZero_has_key_and_zero_power validatorS3 BondStatus.Unbonded 1).2.2,
    (abciValidatorUpdateZero_has_key_and_zero_power validatorS3 BondStatus.Bonded 1).2.2,
    by decide⟩

/-- C32: for every address, consensus key, chain list, service URL and token
amount, NewValidator returns the validator that holds exactly these values,
is not jailed, is Bonded, and has the Unix epoch (time 0) as unstaking
completion time. -/
theorem newValidator_holds_arguments (addr : ValAddress) (consPubKey : List Nat)
    (chains : List String) (serviceURL : String) (tokensToStake : Int) :
    (NewValidator addr consPubKey chains serviceURL tokensToStake).Address = addr ∧
    (NewValidator addr consPubKey chains serviceURL tokensToStake).ConsPubKey = consPubKey ∧
    (NewValidator addr consPubKey chains serviceURL tokensToStake).Chains = chains ∧
    (NewValidator addr consPubKey chains serviceURL tokensToStake).ServiceURL = serviceURL ∧
    (NewValidator addr consPubKey chains serviceURL tokensToStake).StakedTokens = tokensToStake ∧
    (NewValidator addr consPubKey chains serviceURL tokensToStake).Jailed = false ∧
    (NewValidator addr consPubKey chains serviceURL tokensToStake).Status = BondStatus.Bonded ∧
    (NewValidator addr consPubKey chains serviceURL tokensToStake).UnstakingCompletionTime = 0 :=
  ⟨rfl, rfl, rfl, rfl, rfl, rfl, rfl, rfl⟩

/-- Witness of C32 on the case of TestNewValidator: zero tokens, one chain and
the service URL google.com. -/
theorem newValidator_holds_arguments_witness :
    NewValidator (addrOf 1) [7]
        ["b60d7bdd334cd3768d43f14a05c7fe7e886ba5bcb77e1064530052fed1a3f145"] "google.com" 0
      = { Address := addrOf 1, ConsPubKey := [7], Jailed := false, Status := BondStatus.Bonded,
          Chains := ["b60d7bdd334cd3768d43f14a05c7fe7e886ba5bcb77e1064530052fed1a3f145"],
          ServiceURL := "google.com", StakedTokens := 0, UnstakingCompletionTime := 0 } ∧
    (NewValidator (addrOf 1) [7]
        ["b60d7bdd334cd3768d43f14a05c7fe7e886ba5bcb77e1064530052fed1a3f145"] "google.com"
        0).Status = BondStatus.Bonded :=
  ⟨rfl, (newValidator_holds_arguments (addrOf 1) [7]
    ["b60d7bdd334cd3768d43f14a05c7fe7e886ba5bcb77e1064530052fed1a3f145"] "google.com" 0).2.2.2.2.2.2.1⟩

/-- C33: for every validator v and every amount n >= 0, AddStakedTokens(n)
returns a validator whose staked tokens are those of v plus n and whose other
fields (address, key, jailed, status, chains, service URL, completion time)
are those of v. -/
theorem addStakedTokens_adds_and_keeps_fields (v : Validator) (n : Int) (hn : 0 ≤ n) :
    (v.AddStakedTokens n).StakedTokens = v.StakedTokens + n ∧
    v.StakedTokens ≤ (v.AddStakedTokens n).StakedTokens ∧
    (v.AddStakedTokens n).Address = v.Address ∧
    (v.AddStakedTokens n).ConsPubKey = v.ConsPubKey ∧
    (v.AddStakedTokens n).Jailed = v.Jailed ∧
    (v.AddStakedTokens n).Status = v.Status ∧
    (v.AddStakedTokens n).Chains = v.Chains ∧
    (v.AddStakedTokens n).ServiceURL = v.ServiceURL ∧
    (v.AddStakedTokens n).UnstakingCompletionTime = v.UnstakingCompletionTime := by
  refine ⟨rfl, ?_, rfl, rfl, rfl, rfl, rfl, rfl, rfl⟩
  show v.StakedTokens ≤ v.StakedTokens + n
  omega

/-- Witness of C33 on the case of TestValidator_AddStakedTokens: 100 tokens
added to a Bonded validator with 0 tokens give 100. -/
theorem addStakedTokens_adds_and_keeps_fields_witness :
    (0 : Int) ≤ 100 ∧
    Validator.AddStakedTokens { validatorS3 with StakedTokens := 0 } 100
      = { validatorS3 with StakedTokens := 100 } ∧
    (Validator.AddStakedTokens { validatorS3 with StakedTokens := 0 } 100).StakedTokens = 0 + 100 :=
  ⟨by decide, by decide,
    (addStakedTokens_adds_and_keeps_fields { validatorS3 with StakedTokens := 0 } 100
      (by decide)).1⟩

/-- C34: for every validator v and every amount n with 0 <= n <= the staked
tokens of v, RemoveStakedTokens(n) returns a validator whose staked tokens are
those of v minus n, not negative, and whose other fields are those of v;
RemoveStakedTokens(n) undoes AddStakedTokens(n); and the amount that
simpleSlash removes, max(min(amount, tokens), 0), is in this range when the
tokens of v are not negative. -/
theorem removeStakedTokens_subtracts_and_keeps_fields (v : Validator) (n amount : Int)
    (h0 : 0 ≤ n) (hle : n ≤ v.StakedTokens) :
    (v.RemoveStakedTokens n).StakedTokens = v.StakedTokens - n ∧
    0 ≤ (v.RemoveStakedTokens n).StakedTokens ∧
    (v.RemoveStakedTokens n).Address = v.Address ∧
    (v.RemoveStakedTokens n).ConsPubKey = v.ConsPubKey ∧
    (v.RemoveStakedTokens n).Jailed = v.Jailed ∧
    (v.RemoveStakedTokens n).Status = v.Status ∧
    (v.RemoveStakedTokens n).Chains = v.Chains ∧
    (v.RemoveStakedTokens n).ServiceURL = v.ServiceURL ∧
    (v.RemoveStakedTokens n).UnstakingCompletionTime = v.UnstakingCompletionTime ∧
    (v.AddStakedTokens n).RemoveStakedTokens n = v ∧
    0 ≤ MaxInt (MinInt amount v.StakedTokens) 0 ∧
    MaxInt (MinInt amount v.StakedTokens) 0 ≤ v.StakedTokens := by
  have hs : 0 ≤ v.StakedTokens := by omega
  have hc := clamp_bounds amount v.StakedTokens hs
  refine ⟨rfl, ?_, rfl, rfl, rfl, rfl, rfl, rfl, rfl, ?_, hc.1, hc.2⟩
  · show 0 ≤ v.StakedTokens - n
    omega
  · cases v
    simp [Validator.AddStakedTokens, Validator.RemoveStakedTokens]

/-- Witness of C34 on the cases of TestValidator_RemoveStakedTokens: 0 tokens
removed from 0 give 0, and 99 tokens removed from 100 give 1. -/
theorem removeStakedTokens_subtracts_and_keeps_fields_witness :
    Validator.RemoveStakedTokens { validatorS3 with StakedTokens := 0 } 0
      = { validatorS3 with StakedTokens := 0 } ∧
    Validator.RemoveStakedTokens { validatorS3 with StakedTokens := 100 } 99
      = { validatorS3 with StakedTokens := 1 } ∧
    (Validator.RemoveStakedTokens { validatorS3 with StakedTokens := 100 } 99).StakedTokens
      = 100 - 99 ∧
    Validator.RemoveStakedTokens
      (Validator.AddStakedTokens { validatorS3 with StakedTokens := 100 } 99) 99
      = { validatorS3 with StakedTokens := 100 } :=
  ⟨by decide, by decide,
    (removeStakedTokens_subtracts_and_keeps_fields { validatorS3 with StakedTokens := 100 } 99 7
      (by decide) (by decide)).1,
    (removeStakedTokens_subtracts_and_keeps_fields { validatorS3 with StakedTokens := 100 } 99 7
      (by decide) (by decide)).2.2.2.2.2.2.2.2.2.1⟩


/-! ## panics of the slash inside the signature handling -/

theorem validateSlash_ok (st : State) (addr : Address) (h p : Int) (f : Dec)
    (hf : 0 ≤ f.raw) (hh : h ≤ st.blockHeight) :
    validateSlash st addr h p f = .ok (GetValidator st addr) := by
  have h1 : ¬ (f.raw < 0) := by omega
  have h2 : ¬ (st.blockHeight < h) := by omega
  unfold validateSlash
  simp only [Dec.LT, ZeroDec, decide_eq_true_eq, h1, h2, if_false]
  cases GetValidator st addr <;> rfl

theorem validateSlash_error {st : State} {addr : Address} {h p : Int} {f : Dec} {e : Panic}
    (he : validateSlash st addr h p f = .error e) :
    e = Panic.NegativeSlashFactor ∨ e = Panic.FutureInfraction := by
  unfold validateSlash at he
  split at he
  · cases he
    exact Or.inl rfl
  · split at he
    · cases he
      exact Or.inr rfl
    · split at he <;> cases he

theorem slash_error {k : Params} {st : State} {addr : Address} {h p : Int} {f : Dec} {e : Panic}
    (he : slash k st addr h p f = .error e) :
    validateSlash st addr h p f = .error e ∨ ∃ err, e = Panic.Sdk err := by
  unfold slash at he
  split at he
  · rename_i e1 hv
    cases he
    exact Or.inl hv
  · cases he
  · simp only at he
    split at he
    · cases he
      exact Or.inr ⟨_, rfl⟩
    · split at he
      · split at he
        · cases he
          exact Or.inr ⟨_, rfl⟩
        · cases he
      · cases he

theorem downtimeSlash_error {k : Params} {height : Int} {st1 : State} {addr : Address}
    {power : Int} {si : ValidatorSigningInfo} {e : Panic}
    (he : downtimeSlash k height st1 addr power si = .error e) :
    slash k (EmitEvent st1 (Event.Slash addr power SlashReason.MissingSignature (some addr)))
      addr (height - k.ValidatorUpdateDelay - 1) power k.SlashFractionDowntime = .error e := by
  unfold downtimeSlash at he
  split at he
  · rename_i e1 hs
    cases he
    exact hs
  · cases he

theorem handleValidatorSignature_error {k : Params} {st : State} {addr : Address} {power : Int}
    {signed : Bool} {e : Panic} (he : handleValidatorSignature k st addr power signed = .error e) :
    e = Panic.ValidatorNotFound ∨ e = Panic.SigningInfoNotFound ∨
    (e = Panic.DivideByZero ∧ k.SignedBlocksWindow = 0) ∨
    (k.SignedBlocksWindow ≠ 0 ∧ ∃ st1, st1.blockHeight = st.blockHeight ∧
      slash k st1 addr (st.blockHeight - k.ValidatorUpdateDelay - 1) power k.SlashFractionDowntime
        = .error e) := by
  cases hv : GetValidator st addr with
  | none =>
    rw [handleValidatorSignature_unfold] at he
    simp only [hv] at he
    cases he
    exact Or.inl rfl
  | some v =>
    cases hi : GetValidatorSigningInfo st addr with
    | none =>
      rw [handleValidatorSignature_unfold] at he
      simp only [hv, hi] at he
      cases he
      exact Or.inr (Or.inl rfl)
    | some info =>
      by_cases hW : k.SignedBlocksWindow = 0
      · rw [handleValidatorSignature_unfold] at he
        simp only [hv, hi, hW, if_true] at he
        cases he
        exact Or.inr (Or.inr (Or.inl ⟨rfl, hW⟩))
      · rw [handleValidatorSignature_eq k st addr power signed v info hv hi hW] at he
        split at he
        · have hs := downtimeSlash_error he
          refine Or.inr (Or.inr (Or.inr ⟨hW, _, ?_, hs⟩))
          exact (signatureUpdate_frame k st addr info signed).2.2.2.1
        · cases he


/-- C36: frame of a non-slashing update. With the validator and its signing
info found and a window other than 0: when the downtime condition of the call
fails (not past the minimum height, or counter within max_missed, or the
validator jailed), handleValidatorSignature returns; and whenever it returns
without having emitted a slash event, the stored signing info has the old
offset plus one (not reduced modulo the window) and the old StartHeight,
JailedUntil and Tombstoned, and the validator records and the staked pool are
unchanged. -/
theorem non_slashing_update_frame (k : Params) (st : State) (a : Address) (power : Int)
    (signed : Bool) (v : Validator) (info : ValidatorSigningInfo)
    (hfound : GetValidator st a = some v) (hinfo : GetValidatorSigningInfo st a = some info)
    (hW : k.SignedBlocksWindow ≠ 0) :
    (¬ ((info.StartHeight + k.SignedBlocksWindow < st.blockHeight ∧
          k.SignedBlocksWindow - MinSignedPerWindow k
            < (signatureUpdate k st a info signed).2.MissedBlocksCounter) ∧ v.Jailed = false) →
      ∃ st', handleValidatorSignature k st a power signed = .ok st' ∧
        slashEvents st'.events = slashEvents st.events) ∧
    (∀ st', handleValidatorSignature k st a power signed = .ok st' →
      slashEvents st'.events = slashEvents st.events →
      ∃ info', GetValidatorSigningInfo st' a = some info' ∧
        info'.IndexOffset = info.IndexOffset + 1 ∧
        info'.StartHeight = info.StartHeight ∧ info'.JailedUntil = info.JailedUntil ∧
        info'.Tombstoned = info.Tombstoned ∧
        st'.validators = st.validators ∧ GetValidator st' a = some v ∧
        st'.stakedPool = st.stakedPool) := by
  have hsu := signatureUpdate_info k st a info signed
  have hfr := signatureUpdate_frame k st a info signed
  constructor
  · intro hc
    have heq := handleValidatorSignature_eq k st a power signed v info hfound hinfo hW
    rw [hsu.2.1, if_neg hc] at heq
    exact ⟨_, heq, signatureUpdate_slashEvents k st a info signed⟩
  · intro st' hok hns
    have hst := handleValidatorSignature_no_slash hfound hinfo hW hok hns
    subst hst
    refine ⟨_, kvGet_kvSet_same _ _ _, hsu.2.2.2.2, hsu.2.1, hsu.2.2.1, hsu.2.2.2.1, hfr.1, ?_,
      hfr.2.1⟩
    have hvs : (SetValidatorSigningInfo (signatureUpdate k st a info signed).1 a
        (signatureUpdate k st a info signed).2).validators = st.validators := hfr.1
    rw [getValidator_of_validators_eq hvs, hfound]

/-- Witness of C36 on scenario S3 (block 50, fresh signing info): a missed
block brings no slash; the stored offset is 1 and the record of V1 and the
pool are as before. -/
theorem non_slashing_update_frame_witness :
    ∃ st' info', handleValidatorSignature paramsS3 stateS3 (addrOf 1).bytes 100 false = .ok st' ∧
      slashEvents st'.events = slashEvents stateS3.events ∧
      GetValidatorSigningInfo st' (addrOf 1).bytes = some info' ∧
      info'.IndexOffset = 0 + 1 ∧ info'.StartHeight = 0 ∧ info'.JailedUntil = 0 ∧
      info'.Tombstoned = false ∧
      GetValidator st' (addrOf 1).bytes = some validatorS3 ∧ st'.stakedPool = 100000000 := by
  have h := non_slashing_update_frame paramsS3 stateS3 (addrOf 1).bytes 100 false validatorS3
    signingInfoS3 (by decide) (by decide) (by decide)
  obtain ⟨st', hok, hns⟩ := h.1 (by decide)
  obtain ⟨info', h1, h2, h3, h4, h5, _, h7, h8⟩ := h.2 st' hok hns
  exact ⟨st', info', hok, hns, h1, h2, h3, h4, h5, h7, h8⟩

/-- C37, evaluated on the code: validateSlash and validateSimpleSlash only log
an unstaked validator and return it. In scenario S3 with V1 Unbonded
(100,000,000 tokens), slash with power 100 and factor 0.05 leaves V1 with
95,000,000 and the pool at 95,000,000, and simpleSlash of 3 leaves V1 with
99,999,997 and the pool at 99,999,997. -/
theorem unbonded_validator_is_slashed :
    (GetValidator stateS3Unbonded (addrOf 1).bytes).map (fun x => (x.Status, x.StakedTokens))
      = some (BondStatus.Unbonded, 100000000) ∧
    stateS3Unbonded.stakedPool = 100000000 ∧
    (slash paramsS3 stateS3Unbonded (addrOf 1).bytes 40 100 paramsS3.SlashFractionDoubleSign).map
      (fun s => ((GetValidator s (addrOf 1).bytes).map (fun x => x.StakedTokens), s.stakedPool))
      = .ok (some 95000000, 95000000) ∧
    (simpleSlash paramsS3 stateS3Unbonded (addrOf 1).bytes 3).map
      (fun s => ((GetValidator s (addrOf 1).bytes).map (fun x => x.StakedTokens), s.stakedPool))
      = .ok (some 99999997, 99999997) := by
  decide

/-- C38, evaluated on the code: validateSimpleSlash panics for every amount
<= 0, zero included. BurnForChallenge with 0 challenges (multiplier 1000) and
BurnValidator with amount 0 on V1 of scenario S3 both queue the entry 0 for V1,
and the next burnValidators panics on it although the pool covers every burn;
simpleSlash with amount 0 panics in every state. -/
theorem burnValidators_panics_on_zero_severity :
    (BurnForChallenge 1000 stateS3 0 (addrOf 1).bytes).burns = [((addrOf 1).bytes, 0)] ∧
    (BurnValidator stateS3 (addrOf 1).bytes 0).burns = [((addrOf 1).bytes, 0)] ∧
    burnValidators paramsS3 (BurnForChallenge 1000 stateS3 0 (addrOf 1).bytes)
      = .error Panic.NonPositiveSimpleSlash ∧
    burnValidators paramsS3 (BurnValidator stateS3 (addrOf 1).bytes 0)
      = .error Panic.NonPositiveSimpleSlash ∧
    (∀ (k : Params) (st : State) (a : Address),
      simpleSlash k st a 0 = .error Panic.NonPositiveSimpleSlash) := by
  refine ⟨by decide, by decide, by decide, by decide, ?_⟩
  intro k st a
  simp [simpleSlash, validateSimpleSlash]

/-- C39: in the downtime path the future-infraction panic of validateSlash is
unreachable. For every block height and ValidatorUpdateDelay >= 0 the height
that handleValidatorSignature passes to slash, height - ValidatorUpdateDelay - 1,
is at most the block height; with SlashFractionDowntime >= 0, validateSlash at
that height returns in every state of the same block height, and
handleValidatorSignature ends neither in the future-infraction panic nor in
the negative-factor panic. -/
theorem downtime_slash_never_panics_in_validateSlash (k : Params) (st : State) (addr : Address)
    (power : Int) (signed : Bool) (hd : 0 ≤ k.ValidatorUpdateDelay)
    (hf : 0 ≤ k.SlashFractionDowntime.raw) :
    st.blockHeight - k.ValidatorUpdateDelay - 1 ≤ st.blockHeight ∧
    (∀ st1 : State, st1.blockHeight = st.blockHeight →
      validateSlash st1 addr (st.blockHeight - k.ValidatorUpdateDelay - 1) power
        k.SlashFractionDowntime = .ok (GetValidator st1 addr)) ∧
    handleValidatorSignature k st addr power signed ≠ .error Panic.FutureInfraction ∧
    handleValidatorSignature k st addr power signed ≠ .error Panic.NegativeSlashFactor := by
  have hh : st.blockHeight - k.ValidatorUpdateDelay - 1 ≤ st.blockHeight := by omega
  have hv : ∀ st1 : State, st1.blockHeight = st.blockHeight →
      validateSlash st1 addr (st.blockHeight - k.ValidatorUpdateDelay - 1) power
        k.SlashFractionDowntime = .ok (GetValidator st1 addr) := by
    intro st1 h1
    exact validateSlash_ok st1 addr _ power _ hf (by rw [h1]; exact hh)
  have hne : ∀ e, (e = Panic.FutureInfraction ∨ e = Panic.NegativeSlashFactor) →
      handleValidatorSignature k st addr power signed ≠ .error e := by
    intro e hee he
    rcases handleValidatorSignature_error he with h1 | h1 | ⟨h1, _⟩ | ⟨_, st1, hb, hs⟩
    · rcases hee with h2 | h2 <;> (rw [h2] at h1; cases h1)
    · rcases hee with h2 | h2 <;> (rw [h2] at h1; cases h1)
    · rcases hee with h2 | h2 <;> (rw [h2] at h1; cases h1)
    · rcases slash_error hs with h2 | ⟨err, h2⟩
      · rw [hv st1 hb] at h2
        cases h2
      · rcases hee with h3 | h3 <;> (rw [h3] at h2; cases h2)
  exact ⟨hh, hv, hne _ (Or.inl rfl), hne _ (Or.inr rfl)⟩

/-- Witness of C39 on scenario S2 at block 101 with ValidatorUpdateDelay 1:
the downtime slash is called with height 99 and returns with one slash
event. -/
theorem downtime_slash_never_panics_in_validateSlash_witness :
    stateS2.blockHeight - paramsS3.ValidatorUpdateDelay - 1 = 99 ∧
    handleValidatorSignature paramsS3 stateS2 (addrOf 1).bytes 100 false
      ≠ .error Panic.FutureInfraction ∧
    (handleValidatorSignature paramsS3 stateS2 (addrOf 1).bytes 100 false).map
      (fun s => slashEvents s.events) = .ok 1 :=
  ⟨by decide,
    (downtime_slash_never_panics_in_validateSlash paramsS3 stateS2 (addrOf 1).bytes 100 false
      (by decide) (by decide)).2.2.1, by decide⟩

theorem offset_nonneg_step {k : Params} {st st' : State} {a b : Address} {power : Int}
    {signed : Bool}
    (hinv : ∃ info, GetValidatorSigningInfo st a = some info ∧ 0 ≤ info.IndexOffset)
    (hok : handleValidatorSignature k st b power signed = .ok st') :
    ∃ info', GetValidatorSigningInfo st' a = some info' ∧ 0 ≤ info'.IndexOffset := by
  obtain ⟨info0, hinfo0, hoff⟩ := hinv
  by_cases hab : a = b
  · subst hab
    obtain ⟨v, info, hfound, hinfo, hW0⟩ := handleValidatorSignature_ok_found hok
    rw [hinfo0] at hinfo
    cases hinfo
    have heq := handleValidatorSignature_eq k st a power signed v info0 hfound hinfo0 hW0
    have hfr := signatureUpdate_frame k st a info0 signed
    have hsi := signatureUpdate_info k st a info0 signed
    have hget : GetValidator (signatureUpdate k st a info0 signed).1 a = some v := by
      rw [getValidator_of_validators_eq hfr.1, hfound]
    rw [heq] at hok
    split at hok
    · have hr := downtimeSlash_result hget hok
      exact ⟨_, hr.1, le_refl _⟩
    · cases hok
      refine ⟨_, kvGet_kvSet_same _ _ _, ?_⟩
      rw [hsi.2.2.2.2]
      omega
  · have h := (handleValidatorSignature_other hok a hab).1
    exact ⟨info0, by rw [h]; exact hinfo0, hoff⟩

theorem offset_nonneg_run {k : Params} (a : Address) (reports : List Report) :
    ∀ (st st' : State),
      (∃ info, GetValidatorSigningInfo st a = some info ∧ 0 ≤ info.IndexOffset) →
      runReports k st reports = .ok st' →
      ∃ info', GetValidatorSigningInfo st' a = some info' ∧ 0 ≤ info'.IndexOffset := by
  induction reports with
  | nil =>
    intro st st' hinv hrun
    cases hrun
    exact hinv
  | cons r rs ih =>
    intro st st' hinv hrun
    unfold runReports at hrun
    split at hrun
    · cases hrun
    · rename_i st1 h1
      have hinv0 : ∃ info, GetValidatorSigningInfo
          ({ st with blockHeight := r.height, blockTime := r.time } : State) a = some info ∧
          0 ≤ info.IndexOffset := hinv
      exact ih st1 st' (offset_nonneg_step hinv0 h1) hrun

/-- C40: bitmap index safety. For a window W > 0 and a signing info that
starts at offset 0, after every run of handleValidatorSignature calls (for
this or other validators, slashing or not) that returns, the stored offset is
not negative and the bitmap index, the remainder of the offset by W, lies in
[0, W). Of the steps that compute and use the index only the remainder can
fail: with the validator and its signing info found, handleValidatorSignature
ends in the division-by-zero panic exactly when the window is 0. -/
theorem bitmap_index_within_window (k : Params) (st st' : State) (a : Address)
    (info : ValidatorSigningInfo) (reports : List Report) (hW : 0 < k.SignedBlocksWindow)
    (hinfo : GetValidatorSigningInfo st a = some info) (hoff : info.IndexOffset = 0)
    (hrun : runReports k st reports = .ok st') :
    (∃ info', GetValidatorSigningInfo st' a = some info' ∧ 0 ≤ info'.IndexOffset ∧
      0 ≤ Int.tmod info'.IndexOffset k.SignedBlocksWindow ∧
      Int.tmod info'.IndexOffset k.SignedBlocksWindow < k.SignedBlocksWindow) ∧
    (∀ (k2 : Params) (st2 : State) (b : Address) (power : Int) (signed : Bool) (v : Validator)
      (i : ValidatorSigningInfo), GetValidator st2 b = some v →
      GetValidatorSigningInfo st2 b = some i →
      (handleValidatorSignature k2 st2 b power signed = .error Panic.DivideByZero
        ↔ k2.SignedBlocksWindow = 0)) := by
  constructor
  · obtain ⟨info', h1, h2⟩ := offset_nonneg_run a reports st st'
      ⟨info, hinfo, by rw [hoff]⟩ hrun
    exact ⟨info', h1, h2, Int.tmod_nonneg _ h2, Int.tmod_lt_of_pos _ hW⟩
  · intro k2 st2 b power signed v i hv hi
    constructor
    · intro he
      rcases handleValidatorSignature_error he with h1 | h1 | ⟨_, h1⟩ | ⟨_, st1, _, hs⟩
      · cases h1
      · cases h1
      · exact h1
      · rcases slash_error hs with h2 | ⟨err, h2⟩
        · rcases validateSlash_error h2 with h3 | h3 <;> cases h3
        · cases h2
    · intro h0
      rw [handleValidatorSignature_unfold]
      simp only [hv, hi, h0, if_true]

/-- Witness of C40 on scenario S3 with a window of 3: after the five reports
for V1 the offset is 5 and the index 2; with a window of 0 the call panics
with the division by zero. -/
theorem bitmap_index_within_window_witness :
    (∃ st' info', runReports paramsWindow3 stateS3 reportsWindow3 = .ok st' ∧
      GetValidatorSigningInfo st' (addrOf 1).bytes = some info' ∧ 0 ≤ info'.IndexOffset ∧
      0 ≤ Int.tmod info'.IndexOffset 3 ∧ Int.tmod info'.IndexOffset 3 < 3) ∧
    (runReports paramsWindow3 stateS3 reportsWindow3).map
      (fun s => (GetValidatorSigningInfo s (addrOf 1).bytes).map
        (fun i => (i.IndexOffset, Int.tmod i.IndexOffset 3))) = .ok (some (5, 2)) ∧
    handleValidatorSignature { paramsS3 with SignedBlocksWindow := 0 } stateS3 (addrOf 1).bytes
      100 false = .error Panic.DivideByZero := by
  refine ⟨?_, by decide, by decide⟩
  cases hr : runReports paramsWindow3 stateS3 reportsWindow3 with
  | error e =>
    have hok : (runReports paramsWindow3 stateS3 reportsWindow3).toBool = true := by decide
    rw [hr] at hok
    cases hok
  | ok st' =>
    obtain ⟨info', h1, h2, h3, h4⟩ := (bitmap_index_within_window paramsWindow3 stateS3 st'
      (addrOf 1).bytes signingInfoS3 reportsWindow3 (by decide) (by decide) (by decide) hr).1
    exact ⟨st', info', rfl, h1, h2, h3, h4⟩


/-! ## application staking: the unstaking queue -/

theorem finishUnstakingApplication_frame (st : AppState) (row : Int × Address) :
    (finishUnstakingApplication st row).unstaking
      = st.unstaking.filter (fun r => decide (r ≠ row)) ∧
    (finishUnstakingApplication st row).blockTime = st.blockTime ∧
    (∀ a, a ≠ row.2 →
      kvGet (finishUnstakingApplication st row).applications a = kvGet st.applications a) := by
  unfold finishUnstakingApplication
  split
  · exact ⟨rfl, rfl, fun _ _ => rfl⟩
  · exact ⟨rfl, rfl, fun a ha => kvGet_kvSet_other _ _ _ a ha⟩

theorem foldl_finishUnstakingApplication (rows : List (Int × Address)) :
    ∀ st : AppState,
      (rows.foldl finishUnstakingApplication st).unstaking
        = st.unstaking.filter (fun r => decide (r ∉ rows)) ∧
      (rows.foldl finishUnstakingApplication st).blockTime = st.blockTime ∧
      (∀ a, a ∉ rows.map Prod.snd →
        kvGet (rows.foldl finishUnstakingApplication st).applications a
          = kvGet st.applications a) := by
  induction rows with
  | nil =>
    intro st
    simp
  | cons row rest ih =>
    intro st
    have hf := finishUnstakingApplication_frame st row
    have hi := ih (finishUnstakingApplication st row)
    rw [List.foldl_cons]
    refine ⟨?_, ?_, ?_⟩
    · rw [hi.1, hf.1, List.filter_filter]
      apply List.filter_congr
      intro r _
      by_cases h1 : r = row
      · simp [h1]
      · by_cases h2 : r ∈ rest
        · simp [h1, h2]
        · simp [h1, h2]
    · rw [hi.2.1, hf.2.1]
    · intro a ha
      simp only [List.map_cons, List.mem_cons, not_or] at ha
      rw [hi.2.2 a ha.2, hf.2.2 a ha.1]

/-- C35: after unstakeAllMatureApplications no row of the unstaking index has
a completion time <= the block time; in a store whose index rows carry the
completion time of their application record, the queue returned by
getAllUnstakingApplications then contains no application whose unstaking
completion time is <= the block time; and with only mature applications
queued, the queue is empty afterwards. -/
theorem unstakeAllMatureApplications_leaves_no_mature (st : AppState)
    (hwf : ∀ r ∈ st.unstaking, ∃ app, kvGet st.applications r.2 = some app ∧
      app.UnstakingCompletionTime = r.1) :
    (unstakeAllMatureApplications st).blockTime = st.blockTime ∧
    (∀ r ∈ (unstakeAllMatureApplications st).unstaking, st.blockTime < r.1) ∧
    (∀ app ∈ getAllUnstakingApplications (unstakeAllMatureApplications st),
      ¬ (app.UnstakingCompletionTime ≤ (unstakeAllMatureApplications st).blockTime)) ∧
    ((∀ r ∈ st.unstaking, r.1 ≤ st.blockTime) →
      (unstakeAllMatureApplications st).unstaking = [] ∧
      getAllUnstakingApplications (unstakeAllMatureApplications st) = []) := by
  have hf := foldl_finishUnstakingApplication
    (st.unstaking.filter (fun r => decide (r.1 ≤ st.blockTime))) st
  have hrows : ∀ r ∈ (unstakeAllMatureApplications st).unstaking,
      r ∈ st.unstaking ∧ st.blockTime < r.1 := by
    intro r hr
    unfold unstakeAllMatureApplications at hr
    rw [hf.1] at hr
    simp only [List.mem_filter, decide_eq_true_eq, not_and, not_le] at hr
    exact ⟨hr.1, hr.2 hr.1⟩
  refine ⟨hf.2.1, fun r hr => (hrows r hr).2, ?_, ?_⟩
  · intro app happ
    unfold getAllUnstakingApplications at happ
    rw [List.mem_filterMap] at happ
    obtain ⟨r, hr, hget⟩ := happ
    obtain ⟨hr1, hr2⟩ := hrows r hr
    obtain ⟨app0, hget0, hc0⟩ := hwf r hr1
    have hnot : r.2 ∉ (st.unstaking.filter (fun r => decide (r.1 ≤ st.blockTime))).map Prod.snd := by
      intro hmem
      rw [List.mem_map] at hmem
      obtain ⟨q, hq, hq2⟩ := hmem
      simp only [List.mem_filter, decide_eq_true_eq] at hq
      obtain ⟨app1, hget1, hc1⟩ := hwf q hq.1
      rw [hq2, hget0] at hget1
      cases hget1
      omega
    have hsame := hf.2.2 r.2 hnot
    unfold unstakeAllMatureApplications at hget
    rw [hsame, hget0] at hget
    cases hget
    have hbt : (unstakeAllMatureApplications st).blockTime = st.blockTime := hf.2.1
    rw [hbt, hc0]
    omega
  · intro hall
    have hempty : (unstakeAllMatureApplications st).unstaking = [] := by
      apply List.eq_nil_iff_forall_not_mem.mpr
      intro r hr
      have h1 := hrows r hr
      have h2 := hall r h1.1
      omega
    refine ⟨hempty, ?_⟩
    unfold getAllUnstakingApplications
    rw [hempty]
    rfl

/-- Witness of C35 on the store of TestAppUnstaked_UnstakeAllMatureApplications
(one mature application queued: the queue is empty afterwards, the
application is Unbonded and its 7 tokens are in its account) and on the store
with a second application that matures later (it alone stays queued). -/
theorem unstakeAllMatureApplications_leaves_no_mature_witness :
    getAllUnstakingApplications appStateMature = [applicationUnbonding 1 5] ∧
    getAllUnstakingApplications (unstakeAllMatureApplications appStateMature) = [] ∧
    (unstakeAllMatureApplications appStateMature).applications
      = [((addrOf 1).bytes,
          { applicationUnbonding 1 5 with
            Status := BondStatus.Unbonded, UnstakingCompletionTime := 0 })] ∧
    (unstakeAllMatureApplications appStateMature).balances = [((addrOf 1).bytes, 7)] ∧
    getAllUnstakingApplications (unstakeAllMatureApplications appStateMixed)
      = [applicationUnbonding 2 20] ∧
    (∀ app ∈ getAllUnstakingApplications (unstakeAllMatureApplications appStateMixed),
      ¬ (app.UnstakingCompletionTime ≤ (unstakeAllMatureApplications appStateMixed).blockTime)) :=
  ⟨by decide,
    ((unstakeAllMatureApplications_leaves_no_mature appStateMature (by decide)).2.2.2
      (by decide)).2,
    by decide, by decide, by decide,
    (unstakeAllMatureApplications_leaves_no_mature appStateMixed (by decide)).2.2.1⟩

end PocketCore
